import Mathlib

/-!
# The orchestration engine of aws-nuke (`cmd/nuke.go`)

A shallow embedding of `Nuke` and of its methods `Scan`, `FilterQueue`,
`HandleQueue`, `Wait`, `Retry` and `Run`.

* A resource handle is a value of an arbitrary type `R`.  The package
  `resources` lies outside `nuke.go`; everything the engine asks of it is
  collected in `Env`: the registered listers, which handles have the
  `Filter` and `Waiter` capabilities, and what `Filter()`, `Remove()` and
  `Wait()` return.  The answer of a call may depend on everything that happened
  before it, so it is a function of the trace so far.
* A Go `error` is `Option String`: `none` is `nil`, `some msg` is an error whose
  `Error()` is `msg`.  A nil slice and an empty slice are both `[]`.
* Every call that leaves the engine (a lister, `Filter`, `Remove`, `Wait`,
  `Log`, the two summary lines of `Run`) is recorded, in order, in the trace.
* The buckets are lists; `append` is `++ [x]`, `b[0:0]` is `[]`.  That this is
  faithful to slices sharing backing arrays is itself proved: `FilterQueueS`,
  `HandleQueueS` and `requeueS` are the same methods over slice headers and a heap
  of arrays, in which `append` writes in place while capacity lasts.
* `StartSession` depends on the AWS SDK through `hasProfile`, `hasKeys` and
  `session.New`; these are the fields of `Sdk`.
* `Wait` starts one goroutine per `Waiter` handle.  The goroutines and the loop
  that starts them are interleaved by a schedule taken from `Env`.  The
  statement `n.failed = append(n.failed, resource)` reads the bucket and then
  writes it; the source puts no lock around it, so the read and the write are
  two separate steps of the interleaving.
* The `for len(n.failed) > 0` loop of `Run` need not terminate; `Run` takes a
  bound on the number of iterations and returns `none` when the bound is hit
  with the loop still running.
-/

namespace AwsNuke

/-! ## The engine -/

/-- Reason kinds handed to `Log`. -/
inductive Reason
  | ReasonSkip
  | ReasonSuccess
  | ReasonError
  | ReasonRemoveTriggered
  | ReasonWaitPending
  deriving DecidableEq

/-- One observable action of the engine. -/
inductive Action (R : Type)
  /-- lister number `i` (in registration order) was invoked -/
  | list (i : Nat)
  /-- the call `checker.Filter()` on the handle returned `err` -/
  | filter (resource : R) (err : Option String)
  /-- the call `resource.Remove()` returned `err` -/
  | remove (resource : R) (err : Option String)
  /-- the call `waiter.Wait()` returned `err` -/
  | wait (resource : R) (err : Option String)
  /-- the call `Log(resource, reason, msg)` -/
  | log (resource : R) (reason : Reason) (msg : String)
  /-- the line "Retrying: %d finished, %d failed, %d skipped." -/
  | retrying (finished failed skipped : Nat)
  /-- the line "Nuke complete: %d finished, %d failed, %d skipped." -/
  | complete (finished failed skipped : Nat)
  deriving DecidableEq

/-- What the engine is run against: the `resources` package and the scheduler. -/
structure Env (R : Type) where
  /-- what each lister of `resources.GetListers(n.session)` returns when called -/
  listers : List (List R × Option String)
  /-- whether `resource.(resources.Filter)` succeeds -/
  hasFilter : R → Bool
  /-- whether `resource.(resources.Waiter)` succeeds -/
  hasWaiter : R → Bool
  /-- result of `checker.Filter()` after the given trace -/
  callFilter : List (Action R) → R → Option String
  /-- result of `resource.Remove()` after the given trace -/
  callRemove : List (Action R) → R → Option String
  /-- result of `waiter.Wait()` after the given trace -/
  callWait : List (Action R) → R → Option String
  /-- the interleaving chosen for a `Wait` stage entered after the given trace:
  `0` lets the spawning loop take a step, `k + 1` the goroutine started `k`-th -/
  schedule : List (Action R) → List Nat

/-- The fields of `NukeParameters` that `nuke.go` reads. -/
structure NukeParameters where
  Profile : String
  AccessKeyID : String
  SecretAccessKey : String
  NoDryRun : Bool
  deriving DecidableEq

/-- The field of `NukeConfig` that `nuke.go` reads. -/
structure NukeConfig where
  Region : String
  deriving DecidableEq

/-- The two ways `StartSession` builds credentials. -/
inductive Credentials
  | shared (profile : String)
  | static (accessKeyID secretAccessKey : String)
  deriving DecidableEq

/-- What `session.New` is given. -/
structure Session where
  Region : String
  Credentials : Credentials
  deriving DecidableEq

/-- The struct `Nuke`. -/
structure Nuke (R : Type) where
  Parameters : NukeParameters
  Config : Option NukeConfig
  session : Option Session
  retry : Bool
  wait : Bool
  queue : List R
  waiting : List R
  skipped : List R
  failed : List R
  finished : List R
  deriving DecidableEq

/-- The engine together with the trace of what it has done so far. -/
structure State (R : Type) where
  nuke : Nuke R
  trace : List (Action R)
  deriving DecidableEq

variable {R : Type}

/-- The constructor `NewNuke`. -/
def NewNuke (params : NukeParameters) : Nuke R :=
  { Parameters := params
    Config := none
    session := none
    retry := true
    wait := true
    queue := []
    waiting := []
    skipped := []
    failed := []
    finished := [] }

/-- The call `Log(resource, reason, msg)`. -/
def Log (resource : R) (reason : Reason) (msg : String) (s : State R) : State R :=
  { s with trace := s.trace ++ [Action.log resource reason msg] }

/-- The loop of `Scan` over the listers still to be called; `i` is the number of
the next lister, `result` what has been collected. -/
def scanLoop : List (List R × Option String) → Nat → List R → List (Action R) →
    (List R × Option String) × List (Action R)
  | [], _, result, trace => ((result, none), trace)
  | lister :: rest, i, result, trace =>
    match lister.2 with
    | some e => (([], some e), trace ++ [Action.list i])
    | none => scanLoop rest (i + 1) (result ++ lister.1) (trace ++ [Action.list i])

/-- The method `Scan`: the returned pair and the state afterwards. -/
def Scan (env : Env R) (s : State R) : (List R × Option String) × State R :=
  let out := scanLoop env.listers 0 [] s.trace
  (out.1, { s with trace := out.2 })

/-- One iteration of the loop of `FilterQueue`. -/
def filterStep (env : Env R) (s : State R) (resource : R) : State R :=
  if env.hasFilter resource then
    let err := env.callFilter s.trace resource
    let s1 : State R := { s with trace := s.trace ++ [Action.filter resource err] }
    match err with
    | none => { s1 with nuke := { s1.nuke with queue := s1.nuke.queue ++ [resource] } }
    | some e =>
      let s2 := Log resource Reason.ReasonSkip e s1
      { s2 with nuke := { s2.nuke with skipped := s2.nuke.skipped ++ [resource] } }
  else
    { s with nuke := { s.nuke with queue := s.nuke.queue ++ [resource] } }

/-- The method `FilterQueue`. -/
def FilterQueue (env : Env R) (s : State R) : State R :=
  let temp := s.nuke.queue
  temp.foldl (filterStep env) { s with nuke := { s.nuke with queue := [] } }

/-- One iteration of the loop of `HandleQueue`. -/
def handleStep (env : Env R) (s : State R) (resource : R) : State R :=
  if !s.nuke.Parameters.NoDryRun then
    let s1 : State R := { s with nuke := { s.nuke with skipped := s.nuke.skipped ++ [resource] } }
    Log resource Reason.ReasonSuccess "would remove" s1
  else
    let err := env.callRemove s.trace resource
    let s1 : State R := { s with trace := s.trace ++ [Action.remove resource err] }
    match err with
    | some e =>
      let s2 : State R := { s1 with nuke := { s1.nuke with failed := s1.nuke.failed ++ [resource] } }
      Log resource Reason.ReasonError e s2
    | none =>
      let s2 : State R := { s1 with nuke := { s1.nuke with waiting := s1.nuke.waiting ++ [resource] } }
      Log resource Reason.ReasonRemoveTriggered "triggered remove" s2

/-- The method `HandleQueue`. -/
def HandleQueue (env : Env R) (s : State R) : State R :=
  let temp := s.nuke.queue
  temp.foldl (handleStep env) { s with nuke := { s.nuke with queue := [] } }

/-- Where a goroutine of `Wait` stands. -/
inductive TaskPc (R : Type)
  /-- started, `waiter.Wait()` not yet called -/
  | start
  /-- the call `waiter.Wait()` has returned `err` -/
  | returned (err : Option String)
  /-- the bucket to append to has been read: `snap` is what was read -/
  | loaded (err : Option String) (snap : List R)
  /-- the bucket has been written, `Log` not yet called -/
  | stored (err : Option String)
  /-- finished: `wg.Done()` has run -/
  | done
  deriving DecidableEq

/-- A goroutine of `Wait`. -/
structure Task (R : Type) where
  resource : R
  pc : TaskPc R
  deriving DecidableEq

/-- The `Wait` stage while it runs. -/
structure WaitState (R : Type) where
  st : State R
  /-- the part of `temp` the spawning loop has not yet reached -/
  rest : List R
  /-- set while the spawning loop is between reading and writing `n.finished` -/
  held : Option (List R)
  /-- the goroutines, in the order in which they were started -/
  tasks : List (Task R)
  deriving DecidableEq

/-- One step of the spawning loop of `Wait`. -/
def stepMain (env : Env R) (w : WaitState R) : WaitState R :=
  match w.rest with
  | [] => w
  | resource :: rest =>
    if env.hasWaiter resource then
      { w with
        st := Log resource Reason.ReasonWaitPending "waiting" w.st
        rest := rest
        tasks := w.tasks ++ [{ resource := resource, pc := TaskPc.start }] }
    else
      match w.held with
      | none => { w with held := some w.st.nuke.finished }
      | some snap =>
        { w with
          st := { w.st with nuke := { w.st.nuke with finished := snap ++ [resource] } }
          rest := rest
          held := none }

/-- One step of the goroutine started `k`-th. -/
def stepTask (env : Env R) (k : Nat) (w : WaitState R) : WaitState R :=
  match w.tasks[k]? with
  | none => w
  | some t =>
    match t.pc with
    | TaskPc.start =>
      let err := env.callWait w.st.trace t.resource
      { w with
        st := { w.st with trace := w.st.trace ++ [Action.wait t.resource err] }
        tasks := w.tasks.set k { t with pc := TaskPc.returned err } }
    | TaskPc.returned err =>
      let snap := match err with
        | some _ => w.st.nuke.failed
        | none => w.st.nuke.finished
      { w with tasks := w.tasks.set k { t with pc := TaskPc.loaded err snap } }
    | TaskPc.loaded err snap =>
      let nuke := match err with
        | some _ => { w.st.nuke with failed := snap ++ [t.resource] }
        | none => { w.st.nuke with finished := snap ++ [t.resource] }
      { w with
        st := { w.st with nuke := nuke }
        tasks := w.tasks.set k { t with pc := TaskPc.stored err } }
    | TaskPc.stored err =>
      let st := match err with
        | some e => Log t.resource Reason.ReasonError e w.st
        | none => Log t.resource Reason.ReasonSuccess "removed" w.st
      { w with st := st, tasks := w.tasks.set k { t with pc := TaskPc.done } }
    | TaskPc.done => w

/-- One step of the thread named by `id`. -/
def step (env : Env R) (w : WaitState R) (id : Nat) : WaitState R :=
  match id with
  | 0 => stepMain env w
  | k + 1 => stepTask env k w

/-- Steps that let goroutines `k`, `k + 1`, ... , `k + n - 1` run to their end. -/
def drainTasks : Nat → Nat → List Nat
  | 0, _ => []
  | n + 1, k => [k + 1, k + 1, k + 1, k + 1] ++ drainTasks n (k + 1)

/-- Steps that finish a `Wait` stage over `n` handles from wherever it stands:
the spawning loop first, then each goroutine.  This is `wg.Wait()`. -/
def drain (n : Nat) : List Nat :=
  List.replicate (2 * n) 0 ++ drainTasks n 0

/-- The `Wait` stage at its start: `temp := n.waiting[:]`, `n.waiting = n.waiting[0:0]`,
no goroutine started yet. -/
def waitInit (s : State R) : WaitState R :=
  { st := { s with nuke := { s.nuke with waiting := [] } }
    rest := s.nuke.waiting
    held := none
    tasks := [] }

/-- The method `Wait`. -/
def Wait (env : Env R) (s : State R) : State R :=
  if !s.nuke.wait then
    { s with nuke := { s.nuke with finished := s.nuke.waiting, waiting := [] } }
  else
    ((env.schedule s.trace ++ drain s.nuke.waiting.length).foldl (step env) (waitInit s)).st

/-- The assignments at the head of `Retry`. -/
def requeue (s : State R) : State R :=
  { s with nuke := { s.nuke with queue := s.nuke.failed, failed := [] } }

/-- The method `Retry`. -/
def Retry (env : Env R) (s : State R) : State R :=
  Wait env (HandleQueue env (requeue s))

/-- The summary line printed before each `Retry`. -/
def printRetrying (s : State R) : State R :=
  { s with trace := s.trace ++
      [Action.retrying s.nuke.finished.length s.nuke.failed.length s.nuke.skipped.length] }

/-- The summary line printed at the end of `Run`. -/
def printComplete (s : State R) : State R :=
  { s with trace := s.trace ++
      [Action.complete s.nuke.finished.length s.nuke.failed.length s.nuke.skipped.length] }

/-- The loop `for len(n.failed) > 0` of `Run`, for at most `fuel` iterations;
`none` when the loop is still running after `fuel` iterations. -/
def retryLoop (env : Env R) : Nat → State R → Option (State R)
  | 0, s => if s.nuke.failed.length > 0 then none else some s
  | fuel + 1, s =>
    if s.nuke.failed.length > 0 then retryLoop env fuel (Retry env (printRetrying s))
    else some s

/-- The method `Run`: the state at return and the returned error, or `none` when the retry
loop is still running after `fuel` iterations. -/
def Run (env : Env R) (fuel : Nat) (s : State R) : Option (State R × Option String) :=
  let scanned := Scan env s
  let err := scanned.1.2
  let s1 : State R := { scanned.2 with nuke := { scanned.2.nuke with queue := scanned.1.1 } }
  match err with
  | some e => some (s1, some e)
  | none =>
    let s2 := Wait env (HandleQueue env (FilterQueue env s1))
    let looped := if s2.nuke.retry then retryLoop env fuel s2 else some s2
    match looped with
    | none => none
    | some s3 => some (printComplete s3, err)

/-! ## Reading the trace -/

/-- The handles on which `Filter()` was invoked, in order. -/
def filterCalls : List (Action R) → List R
  | [] => []
  | Action.filter r _ :: tr => r :: filterCalls tr
  | _ :: tr => filterCalls tr

/-- The handles whose `Filter()` returned an error, in order. -/
def rejectedBy : List (Action R) → List R
  | [] => []
  | Action.filter r (some _) :: tr => r :: rejectedBy tr
  | _ :: tr => rejectedBy tr

/-- The handles on which `Remove()` was invoked, in order. -/
def removeCalls : List (Action R) → List R
  | [] => []
  | Action.remove r _ :: tr => r :: removeCalls tr
  | _ :: tr => removeCalls tr

/-- The handles on which `Wait()` was invoked, in order. -/
def waitCalls : List (Action R) → List R
  | [] => []
  | Action.wait r _ :: tr => r :: waitCalls tr
  | _ :: tr => waitCalls tr

/-- The numbers of the listers that were invoked, in order. -/
def listerCalls : List (Action R) → List Nat
  | [] => []
  | Action.list i :: tr => i :: listerCalls tr
  | _ :: tr => listerCalls tr

/-- The events handed to `Log`, in order. -/
def events : List (Action R) → List (R × Reason × String)
  | [] => []
  | Action.log r reason msg :: tr => (r, reason, msg) :: events tr
  | _ :: tr => events tr

/-- The number of events handed to `Log` for the handle `h`. -/
def eventsFor [DecidableEq R] (h : R) (tr : List (Action R)) : Nat :=
  ((events tr).map (fun e => e.1)).count h

/-- The reason of the event sent when a wait starts. -/
def isPending : Reason → Bool
  | Reason.ReasonWaitPending => true
  | _ => false

/-- The reasons of the event sent when a wait has ended. -/
def isOutcome : Reason → Bool
  | Reason.ReasonSuccess => true
  | Reason.ReasonError => true
  | _ => false

/-- The number of events handed to `Log` for the handle `h` whose reason satisfies `p`. -/
def eventsOf [DecidableEq R] (p : Reason → Bool) (h : R) (tr : List (Action R)) : Nat :=
  (((events tr).filter (fun e => p e.2.1)).map (fun e => e.1)).count h

/-- The number of "Retrying" lines printed so far: the passes of `Retry` begun. -/
def retries : List (Action R) → Nat
  | [] => 0
  | Action.retrying _ _ _ :: tr => retries tr + 1
  | _ :: tr => retries tr

/-- The five buckets, one after the other. -/
def Nuke.all (n : Nuke R) : List R :=
  n.queue ++ n.waiting ++ n.skipped ++ n.failed ++ n.finished

/-! ## Notions used in the proofs -/

/-- The fields of `Nuke` that no stage assigns. -/
def Nuke.settings (n : Nuke R) : NukeParameters × Option NukeConfig × Option Session × Bool × Bool :=
  (n.Parameters, n.Config, n.session, n.retry, n.wait)

/-- What a thread of the `Wait` stage never touches. -/
def WaitState.fixed (w : WaitState R) :
    (NukeParameters × Option NukeConfig × Option Session × Bool × Bool) ×
      List R × List R × List R × List R × List R × List R × List Nat :=
  (w.st.nuke.settings, w.st.nuke.queue, w.st.nuke.waiting, w.st.nuke.skipped,
    filterCalls w.st.trace, rejectedBy w.st.trace, removeCalls w.st.trace,
    listerCalls w.st.trace)

/-- The state of `Run` after `n.queue, err = n.Scan()`. -/
def afterScan (env : Env R) (s : State R) : State R :=
  { (Scan env s).2 with nuke := { (Scan env s).2.nuke with queue := (Scan env s).1.1 } }

/-- The first pass of `Run`: `FilterQueue`, `HandleQueue`, `Wait`. -/
def firstPass (env : Env R) (s : State R) : State R :=
  Wait env (HandleQueue env (FilterQueue env s))

/-- The body of the retry loop of `Run`, `k` times over. -/
def retryPasses (env : Env R) : Nat → State R → State R
  | 0, s => s
  | k + 1, s => retryPasses env k (Retry env (printRetrying s))

/-- Steps a goroutine still has to take. -/
def TaskPc.rank : TaskPc R → Nat
  | TaskPc.start => 4
  | TaskPc.returned _ => 3
  | TaskPc.loaded _ _ => 2
  | TaskPc.stored _ => 1
  | TaskPc.done => 0

/-- Steps the goroutine started `j`-th still has to take (`0` if there is none). -/
def WaitState.rankAt (w : WaitState R) (j : Nat) : Nat :=
  match w.tasks[j]? with
  | some t => t.pc.rank
  | none => 0

/-- One if the goroutine is one for `h` and has not yet logged its outcome. -/
def debt [DecidableEq R] (h : R) (t : Task R) : Nat :=
  if t.resource = h then (if t.pc.rank = 0 then 0 else 1) else 0

/-- Twice the steps the spawning loop has left, minus one if it holds a read value. -/
def WaitState.mainLeft (w : WaitState R) : Nat :=
  2 * w.rest.length - (if w.held.isSome then 1 else 0)

/-- The events for `h` already logged plus those still to come in this stage. -/
def WaitState.due [DecidableEq R] (env : Env R) (h : R) (w : WaitState R) : Nat :=
  eventsFor h w.st.trace + 2 * (w.rest.filter env.hasWaiter).count h +
    (w.tasks.map (debt h)).sum

/-! ## Concrete environments and states -/

/-- Execute mode. -/
def execParams : NukeParameters :=
  { Profile := "default", AccessKeyID := "", SecretAccessKey := "", NoDryRun := true }

/-- Dry-run mode, the default. -/
def dryParams : NukeParameters :=
  { Profile := "default", AccessKeyID := "", SecretAccessKey := "", NoDryRun := false }

/-- A new engine that has done nothing yet. -/
def fresh (params : NukeParameters) : State Nat :=
  { nuke := NewNuke params, trace := [] }

/-- A new engine in execute mode with wait switched off. -/
def freshNoWait : State Nat :=
  { nuke := { (NewNuke execParams : Nuke Nat) with wait := false }, trace := [] }

/-- A new engine in execute mode with retry switched off. -/
def freshNoRetry : State Nat :=
  { nuke := { (NewNuke execParams : Nuke Nat) with retry := false }, trace := [] }

/-- The interleaving in which the loop starts two goroutines, both call `Wait`, both
read the bucket they will append to, and only then each writes it. -/
def bothReadFirst : List Nat := [0, 0, 1, 2, 1, 2, 1, 2]

/-- Handles 1 and 2, no capability; `Remove` of 2 fails the first time it is tried
(right after the `Remove` of 1) and succeeds afterwards. -/
def flakyRemove : Env Nat :=
  { listers := [([1, 2], none)]
    hasFilter := fun _ => false
    hasWaiter := fun _ => false
    callFilter := fun _ _ => none
    callRemove := fun tr r => if r = 2 ∧ removeCalls tr = [1] then some "busy" else none
    callWait := fun _ _ => none
    schedule := fun _ => [] }

/-- Handles 1 and 2, both with the `Waiter` capability; every call succeeds; the two
goroutines of a `Wait` stage both read before either writes. -/
def twoWaiters : Env Nat :=
  { listers := [([1, 2], none)]
    hasFilter := fun _ => false
    hasWaiter := fun _ => true
    callFilter := fun _ _ => none
    callRemove := fun _ _ => none
    callWait := fun _ _ => none
    schedule := fun _ => bothReadFirst }

/-- The same two handles with the goroutines running one after the other. -/
def twoWaitersInTurn : Env Nat :=
  { twoWaiters with schedule := fun _ => [] }

/-- Handles 1 and 2, both with the `Waiter` capability; `Remove` succeeds; `Wait`
always fails for 1, and fails for 2 the first time only; both goroutines read
before either writes. -/
def stuckWaiter : Env Nat :=
  { listers := [([1, 2], none)]
    hasFilter := fun _ => false
    hasWaiter := fun _ => true
    callFilter := fun _ _ => none
    callRemove := fun _ _ => none
    callWait := fun tr r =>
      if r = 1 then some "stuck" else if 2 ∈ waitCalls tr then none else some "not yet"
    schedule := fun _ => bothReadFirst }

/-- Handles 1 and 2, both with the `Waiter` capability; `Remove` succeeds, `Wait`
fails for both; both goroutines read before either writes. -/
def twoFailingWaiters : Env Nat :=
  { listers := [([1, 2], none)]
    hasFilter := fun _ => false
    hasWaiter := fun _ => true
    callFilter := fun _ _ => none
    callRemove := fun _ _ => none
    callWait := fun _ _ => some "timeout"
    schedule := fun _ => bothReadFirst }

/-- Handle 1 without capabilities and handle 2 with the `Waiter` capability; every
call succeeds; the goroutine runs after the loop is through. -/
def plainAndWaiter : Env Nat :=
  { listers := [([1, 2], none)]
    hasFilter := fun _ => false
    hasWaiter := fun r => r == 2
    callFilter := fun _ _ => none
    callRemove := fun _ _ => none
    callWait := fun _ _ => none
    schedule := fun _ => [] }

/-- Three listers, the second of which fails. -/
def secondListerFails : Env Nat :=
  { listers := [([1], none), ([2], some "access denied"), ([3], none)]
    hasFilter := fun _ => false
    hasWaiter := fun _ => false
    callFilter := fun _ _ => none
    callRemove := fun _ _ => none
    callWait := fun _ _ => none
    schedule := fun _ => [] }

/-- Handles 1, 2, 3 from two listers; 2 and 3 have the `Filter` capability, which
rejects 2; `Remove` of 3 fails once. -/
def oneProtected : Env Nat :=
  { listers := [([1, 2], none), ([3], none)]
    hasFilter := fun r => r == 2 || r == 3
    hasWaiter := fun r => r == 1
    callFilter := fun _ r => if r = 2 then some "protected" else none
    callRemove := fun tr r => if r = 3 ∧ 3 ∉ removeCalls tr then some "busy" else none
    callWait := fun _ _ => none
    schedule := fun _ => [] }

/-- The bucket a handle is in: queue 0, waiting 1, skipped 2, failed 3, finished 4. -/
def bucketOf [DecidableEq R] (h : R) (n : Nuke R) : Option Nat :=
  if h ∈ n.queue then some 0
  else if h ∈ n.waiting then some 1
  else if h ∈ n.skipped then some 2
  else if h ∈ n.failed then some 3
  else if h ∈ n.finished then some 4
  else none

/-- The number of times a handle changes bucket along a sequence of states. -/
def transitions [DecidableEq R] (h : R) : List (Nuke R) → Nat
  | a :: b :: rest =>
    (if bucketOf h a = bucketOf h b then 0 else 1) + transitions h (b :: rest)
  | _ => 0

/-- An engine in execute mode whose waiting bucket holds handles 1 and 2. -/
def waitingBoth : State Nat :=
  { nuke := { (NewNuke execParams : Nuke Nat) with waiting := [1, 2] }, trace := [] }

/-- An engine in execute mode with wait off, handle 1 finished and handle 2 waiting. -/
def oneFinishedOneWaiting : State Nat :=
  { nuke := { (NewNuke execParams : Nuke Nat) with wait := false, waiting := [2], finished := [1] }
    trace := [] }

/-- An engine in execute mode with handles 1, 2, 3 queued. -/
def threeQueued : State Nat :=
  { nuke := { (NewNuke execParams : Nuke Nat) with queue := [1, 2, 3] }, trace := [] }

/-! ## StartSession -/

/-- What `StartSession` calls outside `nuke.go`: the methods `hasProfile` and
`hasKeys` of `NukeParameters`, and whether `session.New` returns a session (not
nil) for a given region and credentials, which is what the test `s == nil` asks.
The `session.New` of the SDK returns a session for every configuration; the theorem
on `StartSession` takes that as its hypothesis. -/
structure Sdk where
  hasProfile : NukeParameters → Bool
  hasKeys : NukeParameters → Bool
  sessionNew : Session → Bool

/-- The method `StartSession`: the engine afterwards and the returned error; `none`
when `&n.Config.Region` dereferences a nil `Config`. -/
def StartSession (sdk : Sdk) (n : Nuke R) : Option (Nuke R × Option String) :=
  if sdk.hasProfile n.Parameters then
    match n.Config with
    | none => none
    | some config =>
      let s : Session :=
        { Region := config.Region, Credentials := Credentials.shared n.Parameters.Profile }
      if !sdk.sessionNew s then
        some (n, some ("Unable to create session with profile \x27" ++ n.Parameters.Profile ++
          "\x27."))
      else some ({ n with session := some s }, none)
  else if sdk.hasKeys n.Parameters then
    match n.Config with
    | none => none
    | some config =>
      let s : Session :=
        { Region := config.Region
          Credentials :=
            Credentials.static n.Parameters.AccessKeyID n.Parameters.SecretAccessKey }
      if !sdk.sessionNew s then
        some (n, some ("Unable to create session with key ID \x27" ++ n.Parameters.AccessKeyID ++
          "\x27."))
      else some ({ n with session := some s }, none)
  else some (n, some "You have to specify a profile or credentials.")

/-- Parameters with a profile and a key pair. -/
def bothParams : NukeParameters :=
  { Profile := "dev", AccessKeyID := "AKIA", SecretAccessKey := "secret", NoDryRun := false }

/-- Parameters with a key pair only. -/
def keyParams : NukeParameters :=
  { Profile := "", AccessKeyID := "AKIA", SecretAccessKey := "secret", NoDryRun := false }

/-- Parameters with neither. -/
def noParams : NukeParameters :=
  { Profile := "", AccessKeyID := "", SecretAccessKey := "", NoDryRun := false }

/-- A profile is a non-empty name, a key pair two non-empty strings; `session.New`
always returns a session. -/
def goodSdk : Sdk :=
  { hasProfile := fun p => p.Profile != ""
    hasKeys := fun p => p.AccessKeyID != "" && p.SecretAccessKey != ""
    sessionNew := fun _ => true }

/-- A new engine with its `Config` set. -/
def configured (params : NukeParameters) : Nuke Nat :=
  { (NewNuke params : Nuke Nat) with Config := some { Region := "eu-west-1" } }

/-! ## A handle that is in no bucket but skipped stays out -/

/-- The handle `r` is in skipped and in no other bucket, and since the calls `A` of
`Remove` and `B` of `Wait` neither has been invoked on it. -/
def Apart (r : R) (A B : List R) (s : State R) : Prop :=
  r ∈ s.nuke.skipped ∧ r ∉ s.nuke.queue ∧ r ∉ s.nuke.waiting ∧ r ∉ s.nuke.failed ∧
    r ∉ s.nuke.finished ∧
    (∃ a, removeCalls s.trace = A ++ a ∧ r ∉ a) ∧ (∃ b, waitCalls s.trace = B ++ b ∧ r ∉ b)

/-- The same while the `Wait` stage runs: the handle is not among the handles
still to be treated, not the handle of a goroutine, and in no value read from a
bucket. -/
def WaitState.apart (r : R) (B : List R) (w : WaitState R) : Prop :=
  r ∉ w.rest ∧ r ∉ w.st.nuke.failed ∧ r ∉ w.st.nuke.finished ∧
    (∀ snap, w.held = some snap → r ∉ snap) ∧
    (∀ t ∈ w.tasks, t.resource ≠ r ∧ ∀ err snap, t.pc = TaskPc.loaded err snap → r ∉ snap) ∧
    (∃ b, waitCalls w.st.trace = B ++ b ∧ r ∉ b)

/-- Handle 2 with the `Waiter` capability listed before handle 1 without it; every
call succeeds; the goroutine of 2 reads finished, then the loop appends 1, then the
goroutine writes. -/
def waiterThenPlain : Env Nat :=
  { listers := [([2, 1], none)]
    hasFilter := fun _ => false
    hasWaiter := fun r => r == 2
    callFilter := fun _ _ => none
    callRemove := fun _ _ => none
    callWait := fun _ _ => none
    schedule := fun _ => [0, 1, 1, 0, 0, 1, 1] }

/-- An engine in execute mode whose waiting bucket holds handles 2 and 1. -/
def waitingWaiterFirst : State Nat :=
  { nuke := { (NewNuke execParams : Nuke Nat) with waiting := [2, 1] }, trace := [] }

/-- Handles 1 and 2, both with the `Waiter` capability; `Remove` fails in the first
pass and succeeds in every pass of `Retry`; `Wait` always succeeds; the two
goroutines of a `Wait` stage both read before either writes. -/
def transientRemove : Env Nat :=
  { listers := [([1, 2], none)]
    hasFilter := fun _ => false
    hasWaiter := fun _ => true
    callFilter := fun _ _ => none
    callRemove := fun tr _ => if retries tr = 0 then some "throttled" else none
    callWait := fun _ _ => none
    schedule := fun _ => bothReadFirst }

/-! ## Handles without the `Waiter` capability in the `Wait` stage -/

/-- While the `Wait` stage runs: the handle `r` has no goroutine, it is in no value of
failed (written, or read by a goroutine about to append to failed), and since the calls
`B` no `Wait()` has been invoked on it. -/
def WaitState.unwaited (r : R) (B : List R) (w : WaitState R) : Prop :=
  r ∉ w.st.nuke.failed ∧
    (∀ t ∈ w.tasks, t.resource ≠ r ∧ ∀ e snap, t.pc = TaskPc.loaded (some e) snap → r ∉ snap) ∧
    (∃ b, waitCalls w.st.trace = B ++ b ∧ r ∉ b)

/-- While a `Wait` stage over handles without `Waiter` runs: no goroutine exists, the
trace is untouched, and finished has grown by the handles the loop has passed. -/
def WaitState.plain (s : State R) (w : WaitState R) : Prop :=
  w.tasks = [] ∧ (w.held = none ∨ w.held = some w.st.nuke.finished) ∧
    ∃ passed, passed ++ w.rest = s.nuke.waiting ∧
      w.st = { s with nuke := { s.nuke with
        waiting := [], finished := s.nuke.finished ++ passed } }

/-! ## Buckets as slices over shared backing arrays -/

/-- A Go slice header: the backing array it points into, its length and its capacity. -/
structure Slice where
  arr : Nat
  len : Nat
  cap : Nat
  deriving DecidableEq

/-- The backing arrays: `cell a i` is element `i` of array `a`; the arrays numbered
below `next` have been allocated. -/
structure Heap (R : Type) where
  cell : Nat → Nat → R
  next : Nat

/-- The elements a slice shows. -/
def Heap.read (h : Heap R) (a : Slice) : List R :=
  (List.range a.len).map (h.cell a.arr)

/-- The builtin `append(a, x)`: with spare capacity the element is written into the
backing array in place; without, a new array is allocated, the elements are copied
and the new one written behind them.  The capacity of the new array is at least
`len + 1`; how much more is left to `grow`. -/
def appendS (grow : Nat → Nat) (h : Heap R) (a : Slice) (x : R) : Heap R × Slice :=
  if a.len < a.cap then
    ({ h with cell := fun b i => if b = a.arr ∧ i = a.len then x else h.cell b i },
      { a with len := a.len + 1 })
  else
    ({ next := h.next + 1
       cell := fun b i =>
          if b = h.next then
            (if i < a.len then h.cell a.arr i else if i = a.len then x else h.cell b i)
          else h.cell b i },
      { arr := h.next, len := a.len + 1, cap := a.len + 1 + grow a.cap })

/-- The five buckets. -/
inductive Bucket
  | queue
  | waiting
  | skipped
  | failed
  | finished
  deriving DecidableEq

/-- The struct `Nuke` with its buckets as slice headers. -/
structure NukeS where
  Parameters : NukeParameters
  Config : Option NukeConfig
  session : Option Session
  retry : Bool
  wait : Bool
  queue : Slice
  waiting : Slice
  skipped : Slice
  failed : Slice
  finished : Slice
  deriving DecidableEq

/-- The engine over slices: the struct, the backing arrays, the trace. -/
structure StateS (R : Type) where
  nuke : NukeS
  heap : Heap R
  trace : List (Action R)

/-- The slice header of a bucket. -/
def NukeS.get (n : NukeS) : Bucket → Slice
  | Bucket.queue => n.queue
  | Bucket.waiting => n.waiting
  | Bucket.skipped => n.skipped
  | Bucket.failed => n.failed
  | Bucket.finished => n.finished

/-- Assignment to a bucket. -/
def NukeS.set (n : NukeS) (b : Bucket) (a : Slice) : NukeS :=
  match b with
  | Bucket.queue => { n with queue := a }
  | Bucket.waiting => { n with waiting := a }
  | Bucket.skipped => { n with skipped := a }
  | Bucket.failed => { n with failed := a }
  | Bucket.finished => { n with finished := a }

/-- The statement `n.b = append(n.b, resource)`. -/
def StateS.push (grow : Nat → Nat) (b : Bucket) (resource : R) (s : StateS R) : StateS R :=
  let out := appendS grow s.heap (s.nuke.get b) resource
  { s with nuke := s.nuke.set b out.2, heap := out.1 }

/-- The call `Log(resource, reason, msg)`. -/
def LogS (resource : R) (reason : Reason) (msg : String) (s : StateS R) : StateS R :=
  { s with trace := s.trace ++ [Action.log resource reason msg] }

/-- One iteration of the loop of `FilterQueue`, over slices. -/
def filterStepS (grow : Nat → Nat) (env : Env R) (s : StateS R) (resource : R) : StateS R :=
  if env.hasFilter resource then
    let err := env.callFilter s.trace resource
    let s1 : StateS R := { s with trace := s.trace ++ [Action.filter resource err] }
    match err with
    | none => s1.push grow Bucket.queue resource
    | some e => (LogS resource Reason.ReasonSkip e s1).push grow Bucket.skipped resource
  else
    s.push grow Bucket.queue resource

/-- The method `FilterQueue` over slices: `temp := n.queue[:]` copies the header,
`n.queue = n.queue[0:0]` keeps array and capacity, and the loop reads element `i` of
`temp` from the backing array when it reaches it. -/
def FilterQueueS (grow : Nat → Nat) (env : Env R) (s : StateS R) : StateS R :=
  let temp := s.nuke.queue
  (List.range temp.len).foldl
    (fun st i => filterStepS grow env st (st.heap.cell temp.arr i))
    { s with nuke := { s.nuke with queue := { temp with len := 0 } } }

/-- One iteration of the loop of `HandleQueue`, over slices. -/
def handleStepS (grow : Nat → Nat) (env : Env R) (s : StateS R) (resource : R) : StateS R :=
  if !s.nuke.Parameters.NoDryRun then
    LogS resource Reason.ReasonSuccess "would remove" (s.push grow Bucket.skipped resource)
  else
    let err := env.callRemove s.trace resource
    let s1 : StateS R := { s with trace := s.trace ++ [Action.remove resource err] }
    match err with
    | some e => LogS resource Reason.ReasonError e (s1.push grow Bucket.failed resource)
    | none =>
      LogS resource Reason.ReasonRemoveTriggered "triggered remove"
        (s1.push grow Bucket.waiting resource)

/-- The method `HandleQueue` over slices. -/
def HandleQueueS (grow : Nat → Nat) (env : Env R) (s : StateS R) : StateS R :=
  let temp := s.nuke.queue
  (List.range temp.len).foldl
    (fun st i => handleStepS grow env st (st.heap.cell temp.arr i))
    { s with nuke := { s.nuke with queue := { temp with len := 0 } } }

/-- The assignments at the head of `Retry` over slices: `n.queue = n.failed[:]` makes
queue a view of the array of failed, `n.failed = n.failed[0:0]` keeps that array. -/
def requeueS (s : StateS R) : StateS R :=
  { s with nuke := { s.nuke with
      queue := s.nuke.failed, failed := { s.nuke.failed with len := 0 } } }

/-- The lists the slices show. -/
def StateS.abs (s : StateS R) : State R :=
  { nuke :=
      { Parameters := s.nuke.Parameters
        Config := s.nuke.Config
        session := s.nuke.session
        retry := s.nuke.retry
        wait := s.nuke.wait
        queue := s.heap.read s.nuke.queue
        waiting := s.heap.read s.nuke.waiting
        skipped := s.heap.read s.nuke.skipped
        failed := s.heap.read s.nuke.failed
        finished := s.heap.read s.nuke.finished }
    trace := s.trace }

/-- Two slices that cannot write into each other: different arrays, or one of them
without any capacity. -/
def Slice.sep (a b : Slice) : Prop :=
  a.arr ≠ b.arr ∨ a.cap = 0 ∨ b.cap = 0

/-- The buckets selected by `live` lie within their capacity in allocated arrays and
are pairwise separate. -/
def StateS.sound (live : Bucket → Prop) (s : StateS R) : Prop :=
  (∀ b, live b → (s.nuke.get b).len ≤ (s.nuke.get b).cap ∧ (s.nuke.get b).arr < s.heap.next) ∧
    (∀ b c, live b → live c → b ≠ c → (s.nuke.get b).sep (s.nuke.get c))

/-- The buckets selected by `live` are sound and the others are empty. -/
def StateS.inv (live : Bucket → Prop) (s : StateS R) : Prop :=
  s.sound live ∧ ∀ b, ¬ live b → (s.nuke.get b).len = 0

/-- The five buckets are pairwise separate. -/
def StateS.separated (s : StateS R) : Prop :=
  s.sound (fun _ => True)

/-- The loop over `temp` has reached index `i`: no append to a live bucket can hit
an element of `temp` from `i` on, and these elements are still those of `h0`. -/
def StateS.ahead (live : Bucket → Prop) (temp : Slice) (h0 : Heap R) (i : Nat)
    (s : StateS R) : Prop :=
  temp.arr < s.heap.next ∧
    (∀ b, live b → (s.nuke.get b).arr ≠ temp.arr ∨ (s.nuke.get b).len ≤ i ∨
      (s.nuke.get b).cap ≤ (s.nuke.get b).len ∨ temp.len ≤ i) ∧
    (∀ j, i ≤ j → j < temp.len → s.heap.cell temp.arr j = h0.cell temp.arr j)

/-- All three handles have the `Filter` capability, which rejects 1; `Remove`
succeeds on 1 only. -/
def firstOnly : Env Nat :=
  { listers := [([1, 2, 3], none)]
    hasFilter := fun _ => true
    hasWaiter := fun _ => false
    callFilter := fun _ r => if r = 1 then some "protected" else none
    callRemove := fun _ r => if r = 1 then none else some "busy"
    callWait := fun _ _ => none
    schedule := fun _ => [] }

/-- The engine after `Scan` in execute mode: queue is the scanned array 1 holding
1, 2, 3 with one spare slot, the other buckets are the empty slices of `NewNuke`. -/
def sliceScanned : StateS Nat :=
  { nuke :=
      { Parameters := execParams
        Config := none
        session := none
        retry := true
        wait := true
        queue := { arr := 1, len := 3, cap := 4 }
        waiting := { arr := 0, len := 0, cap := 0 }
        skipped := { arr := 0, len := 0, cap := 0 }
        failed := { arr := 0, len := 0, cap := 0 }
        finished := { arr := 0, len := 0, cap := 0 } }
    heap := { cell := fun a i => if a = 1 then i + 1 else 0, next := 2 }
    trace := [] }

/-- The engine before a `Retry`: failed is array 1 holding 1, 2, 3, queue is an empty
view of the same array, waiting is empty with room for two, finished holds 9. -/
def sliceFailed : StateS Nat :=
  { nuke :=
      { Parameters := execParams
        Config := none
        session := none
        retry := true
        wait := true
        queue := { arr := 1, len := 0, cap := 4 }
        waiting := { arr := 2, len := 0, cap := 2 }
        skipped := { arr := 0, len := 0, cap := 0 }
        failed := { arr := 1, len := 3, cap := 4 }
        finished := { arr := 3, len := 1, cap := 1 } }
    heap := { cell := fun a i => if a = 1 then i + 1 else if a = 3 then 9 else 0, next := 4 }
    trace := [] }

/-! ## Passes of the retry loop -/

/-- The error a goroutine of `Wait` holds, if any. -/
def TaskPc.held : TaskPc R → Option String
  | TaskPc.start => none
  | TaskPc.returned err => err
  | TaskPc.loaded err _ => err
  | TaskPc.stored err => err
  | TaskPc.done => none

/-- While a `Wait` stage runs in a pass where no `Wait()` fails: the pass number and
failed are as at the start and no goroutine holds an error. -/
def WaitState.calm (c : Nat) (F : List R) (w : WaitState R) : Prop :=
  retries w.st.trace = c ∧ w.st.nuke.failed = F ∧ ∀ t ∈ w.tasks, t.pc.held = none

/-! ## The trace readers distribute over concatenation -/

@[simp] theorem filterCalls_append (a b : List (Action R)) :
    filterCalls (a ++ b) = filterCalls a ++ filterCalls b := by
  induction a with
  | nil => rfl
  | cons x xs ih => cases x <;> simp [filterCalls, ih]

@[simp] theorem rejectedBy_append (a b : List (Action R)) :
    rejectedBy (a ++ b) = rejectedBy a ++ rejectedBy b := by
  induction a with
  | nil => rfl
  | cons x xs ih =>
    cases x with
    | filter r err => cases err <;> simp [rejectedBy, ih]
    | _ => simp [rejectedBy, ih]

@[simp] theorem removeCalls_append (a b : List (Action R)) :
    removeCalls (a ++ b) = removeCalls a ++ removeCalls b := by
  induction a with
  | nil => rfl
  | cons x xs ih => cases x <;> simp [removeCalls, ih]

@[simp] theorem waitCalls_append (a b : List (Action R)) :
    waitCalls (a ++ b) = waitCalls a ++ waitCalls b := by
  induction a with
  | nil => rfl
  | cons x xs ih => cases x <;> simp [waitCalls, ih]

@[simp] theorem listerCalls_append (a b : List (Action R)) :
    listerCalls (a ++ b) = listerCalls a ++ listerCalls b := by
  induction a with
  | nil => rfl
  | cons x xs ih => cases x <;> simp [listerCalls, ih]

@[simp] theorem events_append (a b : List (Action R)) :
    events (a ++ b) = events a ++ events b := by
  induction a with
  | nil => rfl
  | cons x xs ih => cases x <;> simp [events, ih]

@[simp] theorem eventsFor_append [DecidableEq R] (h : R) (a b : List (Action R)) :
    eventsFor h (a ++ b) = eventsFor h a + eventsFor h b := by
  simp [eventsFor]

/-! ## Scan -/

theorem scanLoop_error (pre post : List (List R × Option String)) (res : List R) (e : String)
    (hpre : ∀ l ∈ pre, l.2 = none) (i : Nat) (result : List R) (trace : List (Action R)) :
    scanLoop (pre ++ (res, some e) :: post) i result trace =
      (([], some e), trace ++ (List.range' i (pre.length + 1)).map Action.list) := by
  induction pre generalizing i result trace with
  | nil => simp [scanLoop]
  | cons l pre ih =>
    have hl : l.2 = none := hpre l (by simp)
    have hrest : ∀ x ∈ pre, x.2 = none := fun x hx => hpre x (by simp [hx])
    simp [scanLoop, hl, ih hrest, List.range'_succ]

theorem scanLoop_ok (listers : List (List R × Option String))
    (hok : ∀ l ∈ listers, l.2 = none) (i : Nat) (result : List R) (trace : List (Action R)) :
    scanLoop listers i result trace =
      ((result ++ (listers.map (fun l => l.1)).flatten, none),
        trace ++ (List.range' i listers.length).map Action.list) := by
  induction listers generalizing i result trace with
  | nil => simp [scanLoop]
  | cons l rest ih =>
    have hl : l.2 = none := hok l (by simp)
    have hrest : ∀ x ∈ rest, x.2 = none := fun x hx => hok x (by simp [hx])
    simp [scanLoop, hl, ih hrest, List.range'_succ]

/-! ## FilterQueue -/

/-- What one iteration of `FilterQueue` leaves alone. -/
theorem filterStep_frame (env : Env R) (s : State R) (r : R) :
    (filterStep env s r).nuke.settings = s.nuke.settings ∧
    (filterStep env s r).nuke.waiting = s.nuke.waiting ∧
    (filterStep env s r).nuke.failed = s.nuke.failed ∧
    (filterStep env s r).nuke.finished = s.nuke.finished ∧
    removeCalls (filterStep env s r).trace = removeCalls s.trace ∧
    waitCalls (filterStep env s r).trace = waitCalls s.trace ∧
    listerCalls (filterStep env s r).trace = listerCalls s.trace ∧
    filterCalls (filterStep env s r).trace =
      filterCalls s.trace ++ (if env.hasFilter r then [r] else []) := by
  unfold filterStep
  by_cases hf : env.hasFilter r = true
  · cases herr : env.callFilter s.trace r <;>
      simp [hf, herr, Log, Nuke.settings, removeCalls, waitCalls, listerCalls, filterCalls]
  · simp [hf, Nuke.settings]

/-- One iteration of `FilterQueue` either keeps the handle in the queue, silently,
or moves it to skipped with one skip event. -/
theorem filterStep_cases (env : Env R) (s : State R) (r : R) :
    ((filterStep env s r).nuke.queue = s.nuke.queue ++ [r] ∧
      (filterStep env s r).nuke.skipped = s.nuke.skipped ∧
      events (filterStep env s r).trace = events s.trace ∧
      rejectedBy (filterStep env s r).trace = rejectedBy s.trace) ∨
    ((filterStep env s r).nuke.queue = s.nuke.queue ∧
      (filterStep env s r).nuke.skipped = s.nuke.skipped ++ [r] ∧
      (∃ e, events (filterStep env s r).trace = events s.trace ++ [(r, Reason.ReasonSkip, e)]) ∧
      rejectedBy (filterStep env s r).trace = rejectedBy s.trace ++ [r]) := by
  unfold filterStep
  by_cases hf : env.hasFilter r = true
  · cases herr : env.callFilter s.trace r <;>
      simp [hf, herr, Log, events, rejectedBy]
  · simp [hf]

theorem foldl_filterStep_frame (env : Env R) (l : List R) (s : State R) :
    (l.foldl (filterStep env) s).nuke.settings = s.nuke.settings ∧
    (l.foldl (filterStep env) s).nuke.waiting = s.nuke.waiting ∧
    (l.foldl (filterStep env) s).nuke.failed = s.nuke.failed ∧
    (l.foldl (filterStep env) s).nuke.finished = s.nuke.finished ∧
    removeCalls (l.foldl (filterStep env) s).trace = removeCalls s.trace ∧
    waitCalls (l.foldl (filterStep env) s).trace = waitCalls s.trace ∧
    listerCalls (l.foldl (filterStep env) s).trace = listerCalls s.trace ∧
    filterCalls (l.foldl (filterStep env) s).trace =
      filterCalls s.trace ++ l.filter env.hasFilter := by
  induction l generalizing s with
  | nil => simp
  | cons r l ih =>
    obtain ⟨h1, h2, h3, h4, h5, h6, h7, h8⟩ := filterStep_frame env s r
    obtain ⟨i1, i2, i3, i4, i5, i6, i7, i8⟩ := ih (filterStep env s r)
    simp only [List.foldl_cons]
    refine ⟨i1.trans h1, i2.trans h2, i3.trans h3, i4.trans h4, i5.trans h5, i6.trans h6,
      i7.trans h7, ?_⟩
    rw [i8, h8]
    by_cases hf : env.hasFilter r = true <;> simp [hf, List.filter_cons]

/-- The loop of `FilterQueue` splits the handles it runs over into those appended
to the queue and those appended to skipped, keeping the order in both, and logs
one skip event for each of the latter and nothing else. -/
theorem foldl_filterStep_split (env : Env R) (l : List R) (s : State R) :
    ∃ (kept rejected : List R) (evs : List (R × Reason × String)),
      (l.foldl (filterStep env) s).nuke.queue = s.nuke.queue ++ kept ∧
      (l.foldl (filterStep env) s).nuke.skipped = s.nuke.skipped ++ rejected ∧
      kept.Sublist l ∧ rejected.Sublist l ∧ (rejected ++ kept).Perm l ∧
      events (l.foldl (filterStep env) s).trace = events s.trace ++ evs ∧
      evs.map (fun e => e.1) = rejected ∧ (∀ e ∈ evs, e.2.1 = Reason.ReasonSkip) ∧
      rejectedBy (l.foldl (filterStep env) s).trace = rejectedBy s.trace ++ rejected := by
  induction l generalizing s with
  | nil => exact ⟨[], [], [], by simp⟩
  | cons r l ih =>
    obtain ⟨kept, rejected, evs, hq, hs, hk, hr, hp, he, hm, hall, hrej⟩ := ih (filterStep env s r)
    simp only [List.foldl_cons]
    rcases filterStep_cases env s r with ⟨c1, c2, c3, c4⟩ | ⟨c1, c2, ⟨e, c3⟩, c4⟩
    · refine ⟨r :: kept, rejected, evs, ?_, ?_, hk.cons₂ r, hr.cons r, ?_, ?_, hm, hall, ?_⟩
      · rw [hq, c1]; simp
      · rw [hs, c2]
      · exact (List.perm_middle).trans (hp.cons r)
      · rw [he, c3]
      · rw [hrej, c4]
    · refine ⟨kept, r :: rejected, (r, Reason.ReasonSkip, e) :: evs, ?_, ?_, hk.cons r,
        hr.cons₂ r, ?_, ?_, ?_, ?_, ?_⟩
      · rw [hq, c1]
      · rw [hs, c2]; simp
      · exact hp.cons r
      · rw [he, c3]; simp
      · simp [hm]
      · intro x hx
        rcases List.mem_cons.mp hx with rfl | hx
        · rfl
        · exact hall x hx
      · rw [hrej, c4]; simp

/-! ## HandleQueue -/

/-- What one iteration of `HandleQueue` leaves alone. -/
theorem handleStep_frame (env : Env R) (s : State R) (r : R) :
    (handleStep env s r).nuke.settings = s.nuke.settings ∧
    (handleStep env s r).nuke.queue = s.nuke.queue ∧
    (handleStep env s r).nuke.finished = s.nuke.finished ∧
    filterCalls (handleStep env s r).trace = filterCalls s.trace ∧
    rejectedBy (handleStep env s r).trace = rejectedBy s.trace ∧
    waitCalls (handleStep env s r).trace = waitCalls s.trace ∧
    listerCalls (handleStep env s r).trace = listerCalls s.trace ∧
    (events (handleStep env s r).trace).map (fun e => e.1) =
      (events s.trace).map (fun e => e.1) ++ [r] := by
  unfold handleStep
  by_cases hd : s.nuke.Parameters.NoDryRun = true
  · cases herr : env.callRemove s.trace r <;>
      simp [hd, herr, Log, Nuke.settings, filterCalls, rejectedBy, waitCalls, listerCalls, events]
  · simp [hd, Log, Nuke.settings, filterCalls, rejectedBy, waitCalls, listerCalls, events]

/-- One iteration of `HandleQueue` with dry-run on. -/
theorem handleStep_dry (env : Env R) (s : State R) (r : R)
    (hd : s.nuke.Parameters.NoDryRun = false) :
    handleStep env s r =
      { nuke := { s.nuke with skipped := s.nuke.skipped ++ [r] }
        trace := s.trace ++ [Action.log r Reason.ReasonSuccess "would remove"] } := by
  simp [handleStep, hd, Log]

/-- One iteration of `HandleQueue` in execute mode: `Remove` is called once, and the
handle goes to waiting or to failed. -/
theorem handleStep_exec (env : Env R) (s : State R) (r : R)
    (hd : s.nuke.Parameters.NoDryRun = true) :
    (handleStep env s r).nuke.skipped = s.nuke.skipped ∧
    removeCalls (handleStep env s r).trace = removeCalls s.trace ++ [r] ∧
    (((handleStep env s r).nuke.waiting = s.nuke.waiting ++ [r] ∧
        (handleStep env s r).nuke.failed = s.nuke.failed) ∨
      ((handleStep env s r).nuke.waiting = s.nuke.waiting ∧
        (handleStep env s r).nuke.failed = s.nuke.failed ++ [r])) := by
  unfold handleStep
  cases herr : env.callRemove s.trace r <;> simp [hd, herr, Log, removeCalls]

theorem foldl_handleStep_frame (env : Env R) (l : List R) (s : State R) :
    (l.foldl (handleStep env) s).nuke.settings = s.nuke.settings ∧
    (l.foldl (handleStep env) s).nuke.queue = s.nuke.queue ∧
    (l.foldl (handleStep env) s).nuke.finished = s.nuke.finished ∧
    filterCalls (l.foldl (handleStep env) s).trace = filterCalls s.trace ∧
    rejectedBy (l.foldl (handleStep env) s).trace = rejectedBy s.trace ∧
    waitCalls (l.foldl (handleStep env) s).trace = waitCalls s.trace ∧
    listerCalls (l.foldl (handleStep env) s).trace = listerCalls s.trace ∧
    (events (l.foldl (handleStep env) s).trace).map (fun e => e.1) =
      (events s.trace).map (fun e => e.1) ++ l := by
  induction l generalizing s with
  | nil => simp
  | cons r l ih =>
    obtain ⟨h1, h2, h3, h4, h5, h6, h7, h8⟩ := handleStep_frame env s r
    obtain ⟨i1, i2, i3, i4, i5, i6, i7, i8⟩ := ih (handleStep env s r)
    simp only [List.foldl_cons]
    refine ⟨i1.trans h1, i2.trans h2, i3.trans h3, i4.trans h4, i5.trans h5, i6.trans h6,
      i7.trans h7, ?_⟩
    rw [i8, h8]; simp

/-- The loop of `HandleQueue` with dry-run on: every handle goes to skipped, with one
"would remove" event, and nothing else happens. -/
theorem foldl_handleStep_dry (env : Env R) (l : List R) (s : State R)
    (hd : s.nuke.Parameters.NoDryRun = false) :
    l.foldl (handleStep env) s =
      { nuke := { s.nuke with skipped := s.nuke.skipped ++ l }
        trace := s.trace ++ l.map (fun r => Action.log r Reason.ReasonSuccess "would remove") } := by
  induction l generalizing s with
  | nil => simp
  | cons r l ih =>
    simp only [List.foldl_cons]
    rw [handleStep_dry env s r hd, ih _ (by simpa using hd)]
    simp

/-- The loop of `HandleQueue` in execute mode: `Remove` is called on every handle in
order, and the handles are split between waiting and failed, keeping the order. -/
theorem foldl_handleStep_exec (env : Env R) (l : List R) (s : State R)
    (hd : s.nuke.Parameters.NoDryRun = true) :
    (l.foldl (handleStep env) s).nuke.skipped = s.nuke.skipped ∧
    removeCalls (l.foldl (handleStep env) s).trace = removeCalls s.trace ++ l ∧
    ∃ ok bad : List R,
      (l.foldl (handleStep env) s).nuke.waiting = s.nuke.waiting ++ ok ∧
      (l.foldl (handleStep env) s).nuke.failed = s.nuke.failed ++ bad ∧
      ok.Sublist l ∧ bad.Sublist l ∧ (ok ++ bad).Perm l := by
  induction l generalizing s with
  | nil => exact ⟨rfl, by simp, [], [], by simp⟩
  | cons r l ih =>
    have hset := (handleStep_frame env s r).1
    have hd2 : (handleStep env s r).nuke.Parameters.NoDryRun = true := by
      have := congrArg (fun x => x.1.NoDryRun) hset
      simpa [Nuke.settings, hd] using this
    obtain ⟨i1, i2, ok, bad, i3, i4, i5, i6, i7⟩ := ih (handleStep env s r) hd2
    obtain ⟨h1, h2, h3⟩ := handleStep_exec env s r hd
    simp only [List.foldl_cons]
    refine ⟨i1.trans h1, by rw [i2, h2]; simp, ?_⟩
    rcases h3 with ⟨c1, c2⟩ | ⟨c1, c2⟩
    · exact ⟨r :: ok, bad, by rw [i3, c1]; simp, by rw [i4, c2], i5.cons₂ r, i6.cons r,
        i7.cons r⟩
    · exact ⟨ok, r :: bad, by rw [i3, c1], by rw [i4, c2]; simp, i5.cons r, i6.cons₂ r,
        (List.perm_middle).trans (i7.cons r)⟩

/-! ## Wait: what no interleaving touches -/

theorem stepMain_fixed (env : Env R) (w : WaitState R) :
    (stepMain env w).fixed = w.fixed := by
  unfold stepMain
  cases hrest : w.rest with
  | nil => simp
  | cons r rest =>
    by_cases hw : env.hasWaiter r = true
    · simp [hw, WaitState.fixed, Log, Nuke.settings, filterCalls, rejectedBy, removeCalls,
        listerCalls]
    · cases hh : w.held <;> simp [hw, hh, WaitState.fixed, Nuke.settings]

theorem stepTask_fixed (env : Env R) (k : Nat) (w : WaitState R) :
    (stepTask env k w).fixed = w.fixed := by
  unfold stepTask
  cases hk : w.tasks[k]? with
  | none => simp
  | some t =>
    cases hpc : t.pc with
    | start =>
      simp [hpc, WaitState.fixed, Nuke.settings, filterCalls, rejectedBy, removeCalls,
        listerCalls]
    | returned err => simp [hpc, WaitState.fixed]
    | loaded err snap => cases err <;> simp [hpc, WaitState.fixed, Nuke.settings]
    | stored err =>
      cases err <;>
        simp [hpc, WaitState.fixed, Log, Nuke.settings, filterCalls, rejectedBy, removeCalls,
          listerCalls]
    | done => simp [hpc]

theorem step_fixed (env : Env R) (w : WaitState R) (id : Nat) :
    (step env w id).fixed = w.fixed := by
  cases id with
  | zero => exact stepMain_fixed env w
  | succ k => exact stepTask_fixed env k w

theorem foldl_step_fixed (env : Env R) (sched : List Nat) (w : WaitState R) :
    (sched.foldl (step env) w).fixed = w.fixed := by
  induction sched generalizing w with
  | nil => rfl
  | cons id sched ih => simp only [List.foldl_cons]; rw [ih, step_fixed]

/-- With nothing left to start and no goroutine running, no step does anything. -/
theorem foldl_step_idle (env : Env R) (sched : List Nat) (w : WaitState R)
    (hrest : w.rest = []) (htasks : w.tasks = []) :
    sched.foldl (step env) w = w := by
  induction sched with
  | nil => rfl
  | cons id sched ih =>
    simp only [List.foldl_cons]
    have : step env w id = w := by
      cases id with
      | zero => simp [step, stepMain, hrest]
      | succ k => simp [step, stepTask, htasks]
    rw [this, ih]

theorem Wait_on (env : Env R) (s : State R) (hw : s.nuke.wait = true) :
    Wait env s =
      ((env.schedule s.trace ++ drain s.nuke.waiting.length).foldl (step env) (waitInit s)).st := by
  simp [Wait, hw]

theorem Wait_off (env : Env R) (s : State R) (hw : s.nuke.wait = false) :
    Wait env s = { s with nuke := { s.nuke with finished := s.nuke.waiting, waiting := [] } } := by
  simp [Wait, hw]

/-- The method `Wait` leaves the settings, the queue, skipped and the calls of
`Filter` and `Remove` alone, and empties waiting, whatever the interleaving. -/
theorem Wait_fixed (env : Env R) (s : State R) :
    (Wait env s).nuke.settings = s.nuke.settings ∧
    (Wait env s).nuke.queue = s.nuke.queue ∧
    (Wait env s).nuke.waiting = [] ∧
    (Wait env s).nuke.skipped = s.nuke.skipped ∧
    filterCalls (Wait env s).trace = filterCalls s.trace ∧
    rejectedBy (Wait env s).trace = rejectedBy s.trace ∧
    removeCalls (Wait env s).trace = removeCalls s.trace ∧
    listerCalls (Wait env s).trace = listerCalls s.trace := by
  cases hw : s.nuke.wait with
  | true =>
    rw [Wait_on env s hw]
    have h := foldl_step_fixed env (env.schedule s.trace ++ drain s.nuke.waiting.length)
      (waitInit s)
    simp only [WaitState.fixed, Prod.mk.injEq] at h
    obtain ⟨h1, h2, h3, h4, h5, h6, h7, h8⟩ := h
    exact ⟨h1, h2, h3, h4, h5, h6, h7, h8⟩
  | false =>
    rw [Wait_off env s hw]
    simp [Nuke.settings]

/-- With an empty waiting bucket (and, when wait is off, an empty finished bucket)
the method `Wait` does nothing. -/
theorem Wait_idle (env : Env R) (s : State R) (hwaiting : s.nuke.waiting = [])
    (hfin : s.nuke.wait = false → s.nuke.finished = []) :
    Wait env s = s := by
  cases hw : s.nuke.wait with
  | true =>
    rw [Wait_on env s hw, foldl_step_idle env _ _ (by simpa [waitInit] using hwaiting) rfl]
    cases s with
    | mk nuke trace =>
      cases nuke
      simp_all [waitInit]
  | false =>
    rw [Wait_off env s hw]
    have := hfin hw
    cases s with
    | mk nuke trace =>
      cases nuke
      simp_all

/-! ## Run -/

theorem Run_scan_error (env : Env R) (fuel : Nat) (s : State R) (e : String)
    (herr : (Scan env s).1.2 = some e) :
    Run env fuel s = some (afterScan env s, some e) := by
  simp [Run, afterScan, herr]

theorem Run_scan_ok (env : Env R) (fuel : Nat) (s : State R)
    (hok : (Scan env s).1.2 = none) :
    Run env fuel s =
      (if (firstPass env (afterScan env s)).nuke.retry
        then retryLoop env fuel (firstPass env (afterScan env s))
        else some (firstPass env (afterScan env s))).map (fun s3 => (printComplete s3, none)) := by
  unfold Run
  simp only [hok]
  show (match (if (firstPass env (afterScan env s)).nuke.retry
        then retryLoop env fuel (firstPass env (afterScan env s))
        else some (firstPass env (afterScan env s))) with
      | none => none
      | some s3 => some (printComplete s3, none)) = _
  cases (if (firstPass env (afterScan env s)).nuke.retry
        then retryLoop env fuel (firstPass env (afterScan env s))
        else some (firstPass env (afterScan env s))) <;> rfl

/-- When the retry loop ends, it has run its body some number of times, at most
the bound, and failed is empty. -/
theorem retryLoop_some (env : Env R) (fuel : Nat) (s s' : State R)
    (h : retryLoop env fuel s = some s') :
    ∃ k, k ≤ fuel ∧ s' = retryPasses env k s ∧ s'.nuke.failed = [] := by
  induction fuel generalizing s with
  | zero =>
    unfold retryLoop at h
    by_cases hf : s.nuke.failed.length > 0
    · simp [hf] at h
    · simp only [hf, if_false, Option.some.injEq] at h
      subst h
      exact ⟨0, le_refl _, rfl, by simpa using hf⟩
  | succ fuel ih =>
    unfold retryLoop at h
    by_cases hf : s.nuke.failed.length > 0
    · simp only [hf, if_true] at h
      obtain ⟨k, hk, hs, hfail⟩ := ih _ h
      exact ⟨k + 1, by omega, hs, hfail⟩
    · simp only [hf, if_false, Option.some.injEq] at h
      subst h
      exact ⟨0, by omega, rfl, by simpa using hf⟩

/-- With failed empty the retry loop ends at once. -/
theorem retryLoop_done (env : Env R) (fuel : Nat) (s : State R) (h : s.nuke.failed = []) :
    retryLoop env fuel s = some s := by
  cases fuel <;> simp [retryLoop, h]

theorem Scan_state (env : Env R) (s : State R) :
    (Scan env s).2.nuke = s.nuke := rfl

theorem Scan_ok (env : Env R) (s : State R) (hok : ∀ l ∈ env.listers, l.2 = none) :
    (Scan env s).1 = ((env.listers.map (fun l => l.1)).flatten, none) ∧
    (Scan env s).2.trace = s.trace ++ (List.range env.listers.length).map Action.list := by
  unfold Scan
  simp only [scanLoop_ok env.listers hok]
  simp [List.range_eq_range']

theorem filterCalls_map_list (l : List Nat) :
    filterCalls (l.map (Action.list : Nat → Action R)) = [] := by
  induction l with
  | nil => rfl
  | cons i l ih => simpa [filterCalls] using ih

theorem removeCalls_map_list (l : List Nat) :
    removeCalls (l.map (Action.list : Nat → Action R)) = [] := by
  induction l with
  | nil => rfl
  | cons i l ih => simpa [removeCalls] using ih

theorem waitCalls_map_list (l : List Nat) :
    waitCalls (l.map (Action.list : Nat → Action R)) = [] := by
  induction l with
  | nil => rfl
  | cons i l ih => simpa [waitCalls] using ih

theorem rejectedBy_map_list (l : List Nat) :
    rejectedBy (l.map (Action.list : Nat → Action R)) = [] := by
  induction l with
  | nil => rfl
  | cons i l ih => simpa [rejectedBy] using ih

theorem events_map_list (l : List Nat) :
    events (l.map (Action.list : Nat → Action R)) = [] := by
  induction l with
  | nil => rfl
  | cons i l ih => simpa [events] using ih

theorem listerCalls_map_list (l : List Nat) :
    listerCalls (l.map (Action.list : Nat → Action R)) = l := by
  induction l with
  | nil => rfl
  | cons i l ih => simpa [listerCalls] using ih

/-! ## Whole stages -/

theorem FilterQueue_frame (env : Env R) (s : State R) :
    (FilterQueue env s).nuke.settings = s.nuke.settings ∧
    (FilterQueue env s).nuke.waiting = s.nuke.waiting ∧
    (FilterQueue env s).nuke.failed = s.nuke.failed ∧
    (FilterQueue env s).nuke.finished = s.nuke.finished ∧
    removeCalls (FilterQueue env s).trace = removeCalls s.trace ∧
    waitCalls (FilterQueue env s).trace = waitCalls s.trace ∧
    listerCalls (FilterQueue env s).trace = listerCalls s.trace ∧
    filterCalls (FilterQueue env s).trace =
      filterCalls s.trace ++ s.nuke.queue.filter env.hasFilter :=
  foldl_filterStep_frame env s.nuke.queue { s with nuke := { s.nuke with queue := [] } }

theorem FilterQueue_split (env : Env R) (s : State R) :
    ∃ (kept rejected : List R) (evs : List (R × Reason × String)),
      (FilterQueue env s).nuke.queue = kept ∧
      (FilterQueue env s).nuke.skipped = s.nuke.skipped ++ rejected ∧
      kept.Sublist s.nuke.queue ∧ rejected.Sublist s.nuke.queue ∧
      (rejected ++ kept).Perm s.nuke.queue ∧
      events (FilterQueue env s).trace = events s.trace ++ evs ∧
      evs.map (fun e => e.1) = rejected ∧ (∀ e ∈ evs, e.2.1 = Reason.ReasonSkip) ∧
      rejectedBy (FilterQueue env s).trace = rejectedBy s.trace ++ rejected := by
  obtain ⟨kept, rejected, evs, h1, h2, h3, h4, h5, h6, h7, h8, h9⟩ :=
    foldl_filterStep_split env s.nuke.queue { s with nuke := { s.nuke with queue := [] } }
  exact ⟨kept, rejected, evs, by simpa using h1, h2, h3, h4, h5, h6, h7, h8, h9⟩

theorem HandleQueue_frame (env : Env R) (s : State R) :
    (HandleQueue env s).nuke.settings = s.nuke.settings ∧
    (HandleQueue env s).nuke.queue = [] ∧
    (HandleQueue env s).nuke.finished = s.nuke.finished ∧
    filterCalls (HandleQueue env s).trace = filterCalls s.trace ∧
    rejectedBy (HandleQueue env s).trace = rejectedBy s.trace ∧
    waitCalls (HandleQueue env s).trace = waitCalls s.trace ∧
    listerCalls (HandleQueue env s).trace = listerCalls s.trace ∧
    (events (HandleQueue env s).trace).map (fun e => e.1) =
      (events s.trace).map (fun e => e.1) ++ s.nuke.queue :=
  foldl_handleStep_frame env s.nuke.queue { s with nuke := { s.nuke with queue := [] } }

theorem HandleQueue_dry (env : Env R) (s : State R)
    (hd : s.nuke.Parameters.NoDryRun = false) :
    HandleQueue env s =
      { nuke := { s.nuke with queue := [], skipped := s.nuke.skipped ++ s.nuke.queue }
        trace := s.trace ++
          s.nuke.queue.map (fun r => Action.log r Reason.ReasonSuccess "would remove") } :=
  foldl_handleStep_dry env s.nuke.queue { s with nuke := { s.nuke with queue := [] } } hd

theorem HandleQueue_exec (env : Env R) (s : State R)
    (hd : s.nuke.Parameters.NoDryRun = true) :
    (HandleQueue env s).nuke.skipped = s.nuke.skipped ∧
    removeCalls (HandleQueue env s).trace = removeCalls s.trace ++ s.nuke.queue ∧
    ∃ ok bad : List R,
      (HandleQueue env s).nuke.waiting = s.nuke.waiting ++ ok ∧
      (HandleQueue env s).nuke.failed = s.nuke.failed ++ bad ∧
      ok.Sublist s.nuke.queue ∧ bad.Sublist s.nuke.queue ∧ (ok ++ bad).Perm s.nuke.queue :=
  foldl_handleStep_exec env s.nuke.queue { s with nuke := { s.nuke with queue := [] } } hd

theorem events_map_wouldRemove (l : List R) :
    events (l.map (fun r => Action.log r Reason.ReasonSuccess "would remove")) =
      l.map (fun r => (r, Reason.ReasonSuccess, "would remove")) := by
  induction l with
  | nil => rfl
  | cons r l ih => simp [events, ih]

theorem removeCalls_map_log (l : List R) (reason : Reason) (msg : String) :
    removeCalls (l.map (fun r => Action.log r reason msg)) = [] := by
  induction l with
  | nil => rfl
  | cons r l ih => simpa [removeCalls] using ih

theorem waitCalls_map_log (l : List R) (reason : Reason) (msg : String) :
    waitCalls (l.map (fun r => Action.log r reason msg)) = [] := by
  induction l with
  | nil => rfl
  | cons r l ih => simpa [waitCalls] using ih

theorem rejectedBy_map_log (l : List R) (reason : Reason) (msg : String) :
    rejectedBy (l.map (fun r => Action.log r reason msg)) = [] := by
  induction l with
  | nil => rfl
  | cons r l ih => simpa [rejectedBy] using ih

theorem first_error (l : List (List R × Option String)) (h : ∃ x ∈ l, x.2 ≠ none) :
    ∃ (pre post : List (List R × Option String)) (res : List R) (e : String),
      l = pre ++ (res, some e) :: post ∧ ∀ x ∈ pre, x.2 = none := by
  induction l with
  | nil => simp at h
  | cons x xs ih =>
    obtain ⟨res, err⟩ := x
    cases err with
    | some e => exact ⟨[], xs, res, e, rfl, by simp⟩
    | none =>
      have h2 : ∃ y ∈ xs, y.2 ≠ none := by
        obtain ⟨y, hy, hne⟩ := h
        rcases List.mem_cons.mp hy with rfl | hy
        · exact absurd rfl hne
        · exact ⟨y, hy, hne⟩
      obtain ⟨pre, post, r, e, hl, hp⟩ := ih h2
      refine ⟨(res, none) :: pre, post, r, e, by simp [hl], ?_⟩
      intro y hy
      rcases List.mem_cons.mp hy with rfl | hy
      · rfl
      · exact hp y hy

/-! ## Claims about whole runs -/

/-- C2, fail-fast on enumeration: if some registered lister returns an error, then
there is a first one that does; `Scan` returns no resources and the error of that
lister, having invoked the listers up to it and none after it; `Run` returns that
error, the only actions of the run are those lister calls (no `Filter`, `Remove`,
`Wait` or `Log`), the queue is empty and the other buckets are untouched. -/
theorem scan_error_aborts_run (env : Env R) (fuel : Nat) (s : State R)
    (herr : ∃ l ∈ env.listers, l.2 ≠ none) :
    ∃ (pre post : List (List R × Option String)) (res : List R) (e : String),
      env.listers = pre ++ (res, some e) :: post ∧ (∀ l ∈ pre, l.2 = none) ∧
      (Scan env s).1 = ([], some e) ∧
      listerCalls (Scan env s).2.trace = listerCalls s.trace ++ List.range (pre.length + 1) ∧
      Run env fuel s = some
        ({ nuke := { s.nuke with queue := [] }
           trace := s.trace ++ (List.range (pre.length + 1)).map Action.list }, some e) := by
  obtain ⟨pre, post, res, e, hl, hpre⟩ := first_error env.listers herr
  have hscan : Scan env s =
      (([], some e),
        { s with trace := s.trace ++ (List.range (pre.length + 1)).map Action.list }) := by
    unfold Scan
    rw [hl, scanLoop_error pre post res e hpre]
    simp [List.range_eq_range']
  refine ⟨pre, post, res, e, hl, hpre, by rw [hscan], ?_, ?_⟩
  · rw [hscan]; simp [listerCalls_map_list]
  · rw [Run_scan_error env fuel s e (by rw [hscan])]
    simp [afterScan, hscan]

/-- C3, dry-run purity: with dry-run on (`NoDryRun` false), every lister succeeding
and an engine whose buckets are empty, `Run` returns for every bound on the retry
loop and returns no error; no `Remove` and no `Wait` is invoked; the events of the
run are one skip event per filter-rejected handle followed by exactly one
"would remove" event per handle that passed filtering; and at return skipped holds
the rejected handles followed by the handles that passed, each group in scan order,
while queue, waiting, failed and finished are empty. -/
theorem dry_run_purity (env : Env R) (fuel : Nat) (s : State R)
    (hdry : s.nuke.Parameters.NoDryRun = false)
    (hscan : ∀ l ∈ env.listers, l.2 = none)
    (hfresh : s.nuke.waiting = [] ∧ s.nuke.skipped = [] ∧ s.nuke.failed = [] ∧
      s.nuke.finished = []) :
    ∃ (final : State R) (rejected passed : List R) (evs : List (R × Reason × String)),
      Run env fuel s = some (final, none) ∧
      (FilterQueue env (afterScan env s)).nuke.skipped = rejected ∧
      (FilterQueue env (afterScan env s)).nuke.queue = passed ∧
      rejectedBy final.trace = rejectedBy s.trace ++ rejected ∧
      rejected.Sublist (Scan env s).1.1 ∧ passed.Sublist (Scan env s).1.1 ∧
      (rejected ++ passed).Perm (Scan env s).1.1 ∧
      final.nuke.skipped = rejected ++ passed ∧
      final.nuke.queue = [] ∧ final.nuke.waiting = [] ∧ final.nuke.failed = [] ∧
      final.nuke.finished = [] ∧
      removeCalls final.trace = removeCalls s.trace ∧
      waitCalls final.trace = waitCalls s.trace ∧
      events final.trace = events s.trace ++ evs ++
        passed.map (fun r => (r, Reason.ReasonSuccess, "would remove")) ∧
      evs.map (fun e => e.1) = rejected ∧ (∀ e ∈ evs, e.2.1 = Reason.ReasonSkip) := by
  obtain ⟨hw, hs, hf, hfin⟩ := hfresh
  obtain ⟨hscan1, hscan2⟩ := Scan_ok env s hscan
  have hok : (Scan env s).1.2 = none := by rw [hscan1]
  -- the state after the scan
  have ha_nuke : (afterScan env s).nuke = { s.nuke with queue := (Scan env s).1.1 } := rfl
  have ha_trace : (afterScan env s).trace =
      s.trace ++ (List.range env.listers.length).map Action.list := hscan2
  -- filtering
  obtain ⟨f1, f2, f3, f4, f5, f6, _, _⟩ := FilterQueue_frame env (afterScan env s)
  obtain ⟨kept, rejected, evs, g1, g2, g3, g4, g5, g6, g7, g8, g9⟩ :=
    FilterQueue_split env (afterScan env s)
  rw [ha_nuke] at f1 f2 f3 f4 g2 g3 g4 g5
  simp only [hw, hs, hf, hfin, List.nil_append] at f2 f3 f4 g2 g3 g4 g5
  have hset : (FilterQueue env (afterScan env s)).nuke.Parameters.NoDryRun = false := by
    have := congrArg (fun x => x.1.NoDryRun) f1
    simpa [Nuke.settings, hdry] using this
  -- handling, waiting, the retry loop
  have hH := HandleQueue_dry env (FilterQueue env (afterScan env s)) hset
  have hWait : firstPass env (afterScan env s) =
      HandleQueue env (FilterQueue env (afterScan env s)) := by
    unfold firstPass
    apply Wait_idle
    · rw [hH]; exact f2
    · intro _; rw [hH]; exact f4
  have hfailed : (firstPass env (afterScan env s)).nuke.failed = [] := by
    rw [hWait, hH]; exact f3
  have hrun : Run env fuel s = some (printComplete (firstPass env (afterScan env s)), none) := by
    rw [Run_scan_ok env fuel s hok, retryLoop_done env fuel _ hfailed]
    simp
  refine ⟨_, rejected, kept, evs, hrun, g2, g1, ?_, g4, g3, g5, ?_, ?_, ?_, ?_, ?_, ?_, ?_, ?_,
    g7, g8⟩
  · simp [printComplete, hWait, hH, rejectedBy, rejectedBy_map_log, g9, ha_trace,
      rejectedBy_map_list]
  · simp [printComplete, hWait, hH, g1, g2]
  · simp [printComplete, hWait, hH]
  · simp [printComplete, hWait, hH, f2]
  · simp [printComplete, hWait, hH, f3]
  · simp [printComplete, hWait, hH, f4]
  · simp [printComplete, hWait, hH, removeCalls, removeCalls_map_log, f5, ha_trace,
      removeCalls_map_list]
  · simp [printComplete, hWait, hH, waitCalls, waitCalls_map_log, f6, ha_trace,
      waitCalls_map_list]
  · simp [printComplete, hWait, hH, events, events_map_wouldRemove, g6, g1, ha_trace,
      events_map_list]

theorem Retry_filterCalls (env : Env R) (s : State R) :
    filterCalls (Retry env s).trace = filterCalls s.trace := by
  unfold Retry
  rw [(Wait_fixed env _).2.2.2.2.1, (HandleQueue_frame env _).2.2.2.1]
  rfl

theorem retryPasses_filterCalls (env : Env R) (k : Nat) (s : State R) :
    filterCalls (retryPasses env k s).trace = filterCalls s.trace := by
  induction k generalizing s with
  | zero => rfl
  | succ k ih =>
    rw [retryPasses, ih, Retry_filterCalls]
    simp [printRetrying, filterCalls]

/-- C8, Filter runs once and never on retry: when `Scan` succeeds, `FilterQueue`
invokes `Filter` exactly once on each scanned handle that has the capability, in
scan order; the rest of the first pass and any number of retry passes invoke it on
no handle; so whenever `Run` returns, the `Filter` calls of the run are exactly
those, and a `Retry` never invokes `Filter`. -/
theorem filter_runs_once (env : Env R) (s : State R) (hscan : (Scan env s).1.2 = none) :
    filterCalls (FilterQueue env (afterScan env s)).trace =
      filterCalls s.trace ++ (Scan env s).1.1.filter env.hasFilter ∧
    (∀ k, filterCalls (retryPasses env k (firstPass env (afterScan env s))).trace =
      filterCalls s.trace ++ (Scan env s).1.1.filter env.hasFilter) ∧
    (∀ fuel final err, Run env fuel s = some (final, err) →
      filterCalls final.trace =
        filterCalls s.trace ++ (Scan env s).1.1.filter env.hasFilter) ∧
    (∀ s1, filterCalls (Retry env s1).trace = filterCalls s1.trace) := by
  have hscanTrace : filterCalls (afterScan env s).trace = filterCalls s.trace := by
    show filterCalls (scanLoop env.listers 0 [] s.trace).2 = filterCalls s.trace
    generalize (0 : Nat) = i
    generalize ([] : List R) = acc
    generalize s.trace = tr
    induction env.listers generalizing i acc tr with
    | nil => rfl
    | cons l ls ih =>
      unfold scanLoop
      cases h2 : l.2 with
      | some e => simp [filterCalls]
      | none => simp only []; rw [ih]; simp [filterCalls]
  have hF : filterCalls (FilterQueue env (afterScan env s)).trace =
      filterCalls s.trace ++ (Scan env s).1.1.filter env.hasFilter := by
    rw [(FilterQueue_frame env _).2.2.2.2.2.2.2, hscanTrace]
    rfl
  have hP : filterCalls (firstPass env (afterScan env s)).trace =
      filterCalls s.trace ++ (Scan env s).1.1.filter env.hasFilter := by
    unfold firstPass
    rw [(Wait_fixed env _).2.2.2.2.1, (HandleQueue_frame env _).2.2.2.1, hF]
  refine ⟨hF, fun k => by rw [retryPasses_filterCalls, hP], ?_, Retry_filterCalls env⟩
  intro fuel final err hrun
  rw [Run_scan_ok env fuel s hscan] at hrun
  by_cases hr : (firstPass env (afterScan env s)).nuke.retry = true
  · simp only [hr, if_true, Option.map_eq_some'] at hrun
    obtain ⟨s3, hloop, heq⟩ := hrun
    obtain ⟨k, _, hk, _⟩ := retryLoop_some env fuel _ _ hloop
    have : final = printComplete s3 := (Prod.mk.inj heq).1.symm
    rw [this, hk]
    simp [printComplete, filterCalls, retryPasses_filterCalls, hP]
  · simp only [hr, Bool.false_eq_true, if_false, Option.map_some', Option.some.injEq] at hrun
    have : final = printComplete (firstPass env (afterScan env s)) := (Prod.mk.inj hrun).1.symm
    rw [this]
    simp [printComplete, filterCalls, hP]

/-! ## Wait: every goroutine runs to its end, and what is logged on the way -/

theorem TaskPc.rank_le (pc : TaskPc R) : pc.rank ≤ 4 := by
  cases pc <;> simp [TaskPc.rank]

theorem set_same {α : Type} (l : List α) (k : Nat) (a : α) (h : l[k]? = some a) :
    l.set k a = l := by
  induction l generalizing k with
  | nil => rfl
  | cons x xs ih =>
    cases k with
    | zero => simp at h; simp [h]
    | succ k => simp at h; simp [ih k h]

theorem sum_map_set {α : Type} (f : α → Nat) (l : List α) (k : Nat) (a b : α)
    (h : l[k]? = some a) :
    ((l.set k b).map f).sum + f a = (l.map f).sum + f b := by
  induction l generalizing k with
  | nil => simp at h
  | cons x xs ih =>
    cases k with
    | zero =>
      simp at h
      subst h
      simp; omega
    | succ k =>
      simp at h
      have := ih k h
      simp only [List.set_cons_succ, List.map_cons, List.sum_cons]
      omega

/-- One step of a goroutine: the spawning loop is not touched; either there is no
such goroutine or it has ended, and nothing changes, or it moves one step on, and
logs one event exactly when that step was its last. -/
theorem stepTask_spec [DecidableEq R] (env : Env R) (k : Nat) (w : WaitState R) (h : R) :
    (stepTask env k w).rest = w.rest ∧ (stepTask env k w).held = w.held ∧
    ((w.tasks[k]? = none ∧ stepTask env k w = w) ∨
      ∃ (t : Task R) (pc : TaskPc R), w.tasks[k]? = some t ∧
        (stepTask env k w).tasks = w.tasks.set k { resource := t.resource, pc := pc } ∧
        pc.rank = t.pc.rank - 1 ∧
        eventsFor h (stepTask env k w).st.trace + debt h { resource := t.resource, pc := pc } =
          eventsFor h w.st.trace + debt h t) := by
  unfold stepTask
  cases hk : w.tasks[k]? with
  | none => simp
  | some t =>
    obtain ⟨r, pc0⟩ := t
    cases pc0 with
    | start =>
      refine ⟨rfl, rfl, Or.inr ⟨_, TaskPc.returned (env.callWait w.st.trace r), rfl, rfl, rfl, ?_⟩⟩
      simp [eventsFor, events, debt, TaskPc.rank]
    | returned err =>
      refine ⟨rfl, rfl, Or.inr ⟨_, TaskPc.loaded err _, rfl, rfl, rfl, ?_⟩⟩
      simp [debt, TaskPc.rank]
    | loaded err snap =>
      refine ⟨rfl, rfl, Or.inr ⟨_, TaskPc.stored err, rfl, rfl, rfl, ?_⟩⟩
      simp [debt, TaskPc.rank]
    | stored err =>
      refine ⟨rfl, rfl, Or.inr ⟨_, TaskPc.done, rfl, rfl, rfl, ?_⟩⟩
      cases err <;> by_cases hr : r = h <;>
        simp [Log, eventsFor, events, debt, TaskPc.rank, hr, List.count_cons]
    | done =>
      refine ⟨rfl, rfl, Or.inr ⟨_, TaskPc.done, rfl, ?_, rfl, rfl⟩⟩
      simp [set_same _ _ _ hk]

theorem stepTask_shape (env : Env R) (k : Nat) (w : WaitState R) :
    (stepTask env k w).rest = w.rest ∧ (stepTask env k w).held = w.held ∧
    ((w.tasks[k]? = none ∧ stepTask env k w = w) ∨
      ∃ (t : Task R) (pc : TaskPc R), w.tasks[k]? = some t ∧
        (stepTask env k w).tasks = w.tasks.set k { resource := t.resource, pc := pc } ∧
        pc.rank = t.pc.rank - 1) := by
  classical
  cases hk : w.tasks[k]? with
  | none => exact ⟨by simp [stepTask, hk], by simp [stepTask, hk], Or.inl ⟨rfl, by simp [stepTask, hk]⟩⟩
  | some t =>
    obtain ⟨h1, h2, h3⟩ := stepTask_spec env k w t.resource
    refine ⟨h1, h2, ?_⟩
    rcases h3 with ⟨hn, _⟩ | ⟨t2, pc, ht, hs, hr, _⟩
    · rw [hk] at hn; cases hn
    · rw [hk] at ht
      exact Or.inr ⟨t2, pc, ht, hs, hr⟩

theorem stepTask_length (env : Env R) (k : Nat) (w : WaitState R) :
    (stepTask env k w).tasks.length = w.tasks.length := by
  rcases (stepTask_shape env k w).2.2 with ⟨_, h⟩ | ⟨t, pc, _, hs, _⟩
  · rw [h]
  · rw [hs, List.length_set]

theorem stepTask_rank_self (env : Env R) (k : Nat) (w : WaitState R) :
    (stepTask env k w).rankAt k = w.rankAt k - 1 := by
  rcases (stepTask_shape env k w).2.2 with ⟨hn, h⟩ | ⟨t, pc, ht, hs, hr⟩
  · rw [h]; simp [WaitState.rankAt, hn]
  · have hlt : k < w.tasks.length := by
      obtain ⟨hlt, _⟩ := List.getElem?_eq_some.mp ht
      exact hlt
    simp [WaitState.rankAt, hs, ht, hr, List.getElem?_set, hlt]

theorem stepTask_rank_other (env : Env R) (k j : Nat) (w : WaitState R) (hjk : j ≠ k) :
    (stepTask env k w).rankAt j = w.rankAt j := by
  rcases (stepTask_shape env k w).2.2 with ⟨_, h⟩ | ⟨t, pc, _, hs, _⟩
  · rw [h]
  · simp [WaitState.rankAt, hs, List.getElem?_set_ne (Ne.symm hjk)]

theorem WaitState.rankAt_le (w : WaitState R) (j : Nat) : w.rankAt j ≤ 4 := by
  unfold WaitState.rankAt
  cases w.tasks[j]? with
  | none => simp
  | some t => exact t.pc.rank_le

theorem stepTask_due [DecidableEq R] (env : Env R) (k : Nat) (w : WaitState R) (h : R) :
    (stepTask env k w).due env h = w.due env h := by
  obtain ⟨h1, _, h3⟩ := stepTask_spec env k w h
  rcases h3 with ⟨_, hsame⟩ | ⟨t, pc, ht, hs, _, hev⟩
  · rw [hsame]
  · have hsum := sum_map_set (debt h) w.tasks k t { resource := t.resource, pc := pc } ht
    unfold WaitState.due
    rw [h1, hs]
    omega

/-- One step of the spawning loop: it comes nearer to its end, it starts at most as
many goroutines as it passes handles, and what it logs for a handle was due. -/
theorem stepMain_spec [DecidableEq R] (env : Env R) (w : WaitState R) (h : R) :
    (stepMain env w).mainLeft ≤ w.mainLeft - 1 ∧
    (stepMain env w).tasks.length + (stepMain env w).rest.length ≤
      w.tasks.length + w.rest.length ∧
    (stepMain env w).due env h = w.due env h := by
  obtain ⟨st, rest, held, tasks⟩ := w
  cases rest with
  | nil => simp [stepMain, WaitState.mainLeft, WaitState.due]
  | cons r rest =>
    by_cases hw : env.hasWaiter r = true
    · refine ⟨?_, ?_, ?_⟩
      · simp only [stepMain, hw, if_true, WaitState.mainLeft, List.length_cons]
        split <;> omega
      · simp [stepMain, hw]
        omega
      · by_cases hr : r = h
        · subst hr
          simp [stepMain, hw, WaitState.due, Log, eventsFor, events, debt, TaskPc.rank,
            List.filter_cons]
          omega
        · simp [stepMain, hw, WaitState.due, Log, eventsFor, events, debt, TaskPc.rank, hr,
            List.filter_cons, List.count_cons]
    · cases held with
      | none =>
        simp [stepMain, hw, WaitState.mainLeft, WaitState.due, List.filter_cons]
      | some snap =>
        simp [stepMain, hw, WaitState.mainLeft, WaitState.due, List.filter_cons]
        omega

theorem stepMain_idle (env : Env R) (w : WaitState R) (hrest : w.rest = []) :
    stepMain env w = w := by
  simp [stepMain, hrest]

theorem WaitState.rest_of_mainLeft (w : WaitState R) (h : w.mainLeft = 0) : w.rest = [] := by
  unfold WaitState.mainLeft at h
  have : w.rest.length = 0 := by
    split at h <;> omega
  exact List.length_eq_zero.mp this

theorem step_inv [DecidableEq R] (env : Env R) (h : R) (w : WaitState R) (id : Nat) :
    (step env w id).mainLeft ≤ w.mainLeft ∧
    (step env w id).tasks.length + (step env w id).rest.length ≤
      w.tasks.length + w.rest.length ∧
    (step env w id).due env h = w.due env h := by
  cases id with
  | zero =>
    obtain ⟨h1, h2, h3⟩ := stepMain_spec env w h
    exact ⟨by show (stepMain env w).mainLeft ≤ _; omega, h2, h3⟩
  | succ k =>
    obtain ⟨h1, h2, _⟩ := stepTask_shape env k w
    refine ⟨?_, ?_, stepTask_due env k w h⟩
    · show (stepTask env k w).mainLeft ≤ _
      simp [WaitState.mainLeft, h1, h2]
    · show (stepTask env k w).tasks.length + (stepTask env k w).rest.length ≤ _
      rw [stepTask_length, h1]

theorem foldl_step_inv [DecidableEq R] (env : Env R) (h : R) (sched : List Nat)
    (w : WaitState R) :
    (sched.foldl (step env) w).mainLeft ≤ w.mainLeft ∧
    (sched.foldl (step env) w).tasks.length + (sched.foldl (step env) w).rest.length ≤
      w.tasks.length + w.rest.length ∧
    (sched.foldl (step env) w).due env h = w.due env h := by
  induction sched generalizing w with
  | nil => simp
  | cons id sched ih =>
    obtain ⟨a1, a2, a3⟩ := step_inv env h w id
    obtain ⟨b1, b2, b3⟩ := ih (step env w id)
    simp only [List.foldl_cons]
    exact ⟨by omega, by omega, by rw [b3, a3]⟩

/-- After `j` steps in a row the spawning loop is `j` nearer to its end. -/
theorem foldl_main_left (env : Env R) (j : Nat) (w : WaitState R) :
    ((List.replicate j 0).foldl (step env) w).mainLeft ≤ w.mainLeft - j := by
  classical
  induction j generalizing w with
  | zero => simp
  | succ j ih =>
    simp only [List.replicate_succ, List.foldl_cons]
    have h1 := ih (step env w 0)
    have h2 : (step env w 0).mainLeft ≤ w.mainLeft - 1 := by
      cases hr : w.rest with
      | nil =>
        have : step env w 0 = w := stepMain_idle env w hr
        rw [this]
        simp [WaitState.mainLeft, hr]
      | cons r rest =>
        cases hl : w.held <;>
          by_cases hw : env.hasWaiter r = true <;>
            simp [step, stepMain, hr, hl, hw, WaitState.mainLeft] <;> omega
    omega

theorem four_steps (env : Env R) (k : Nat) (w : WaitState R) :
    let w4 := stepTask env k (stepTask env k (stepTask env k (stepTask env k w)))
    w4.rest = w.rest ∧ w4.tasks.length = w.tasks.length ∧ w4.rankAt k = 0 ∧
      ∀ j, j ≠ k → w4.rankAt j = w.rankAt j := by
  intro w4
  refine ⟨?_, ?_, ?_, ?_⟩
  · simp only [w4, (stepTask_shape env k _).1]
  · simp only [w4, stepTask_length]
  · have := w.rankAt_le k
    simp only [w4, stepTask_rank_self]
    omega
  · intro j hj
    simp only [w4, stepTask_rank_other env k j _ hj]

/-- Letting goroutines `k`, ..., `k + m - 1` take four steps each ends them all and
moves no other. -/
theorem foldl_drainTasks (env : Env R) (m k : Nat) (w : WaitState R) :
    ((drainTasks m k).foldl (step env) w).rest = w.rest ∧
    ((drainTasks m k).foldl (step env) w).tasks.length = w.tasks.length ∧
    ∀ j, (k ≤ j → j < k + m → ((drainTasks m k).foldl (step env) w).rankAt j = 0) ∧
      (j < k → ((drainTasks m k).foldl (step env) w).rankAt j = w.rankAt j) := by
  induction m generalizing k w with
  | zero =>
    refine ⟨rfl, rfl, fun j => ⟨fun h1 h2 => by omega, fun _ => rfl⟩⟩
  | succ m ih =>
    obtain ⟨f1, f2, f3, f4⟩ := four_steps env k w
    obtain ⟨i1, i2, i3⟩ :=
      ih (k + 1) (stepTask env k (stepTask env k (stepTask env k (stepTask env k w))))
    simp only [drainTasks, List.cons_append, List.nil_append, List.foldl_cons, step]
    refine ⟨i1.trans f1, i2.trans f2, fun j => ⟨fun h1 h2 => ?_, fun h1 => ?_⟩⟩
    · by_cases hjk : j = k
      · subst hjk
        rw [(i3 j).2 (by omega)]
        exact f3
      · exact (i3 j).1 (by omega) (by omega)
    · rw [(i3 j).2 (by omega)]
      exact f4 j (by omega)

theorem sum_map_debt_zero [DecidableEq R] (h : R) (w : WaitState R)
    (hz : ∀ j, w.rankAt j = 0) : (w.tasks.map (debt h)).sum = 0 := by
  apply List.sum_eq_zero
  intro x hx
  obtain ⟨t, ht, rfl⟩ := List.mem_map.mp hx
  obtain ⟨j, hj⟩ := List.mem_iff_getElem?.mp ht
  have := hz j
  simp only [WaitState.rankAt, hj] at this
  simp [debt, this]

/-- The `Wait` stage ends with the spawning loop through and every goroutine done,
whatever the schedule. -/
theorem Wait_complete (env : Env R) (sched : List Nat) (s : State R) :
    ((sched ++ drain s.nuke.waiting.length).foldl (step env) (waitInit s)).rest = [] ∧
    ∀ j, ((sched ++ drain s.nuke.waiting.length).foldl (step env) (waitInit s)).rankAt j = 0 := by
  classical
  have hR : Nonempty R ∨ ¬ Nonempty R := Classical.em _
  have hnil : ¬ Nonempty R → s.nuke.waiting = [] := by
    intro hN
    cases hq : s.nuke.waiting with
    | nil => rfl
    | cons r _ => exact absurd ⟨r⟩ hN
  -- after the schedule
  obtain ⟨w1, hw1⟩ : ∃ w1, w1 = sched.foldl (step env) (waitInit s) := ⟨_, rfl⟩
  have h1 : w1.mainLeft ≤ 2 * s.nuke.waiting.length ∧
      w1.tasks.length + w1.rest.length ≤ s.nuke.waiting.length := by
    rcases hR with ⟨⟨h⟩⟩ | hN
    · obtain ⟨a, b, _⟩ := foldl_step_inv env h sched (waitInit s)
      rw [← hw1] at a b
      exact ⟨by simpa [WaitState.mainLeft, waitInit] using a, by simpa [waitInit] using b⟩
    · have : w1 = waitInit s := by
        rw [hw1]
        exact foldl_step_idle env sched _ (by simpa [waitInit] using hnil hN) rfl
      rw [this]
      simp [WaitState.mainLeft, waitInit, hnil hN]
  -- after the spawning loop has been let through
  obtain ⟨w2, hw2⟩ :
      ∃ w2, w2 = (List.replicate (2 * s.nuke.waiting.length) 0).foldl (step env) w1 := ⟨_, rfl⟩
  have h2 : w2.rest = [] := by
    apply WaitState.rest_of_mainLeft
    have := foldl_main_left env (2 * s.nuke.waiting.length) w1
    rw [← hw2] at this
    omega
  have h2len : w2.tasks.length ≤ s.nuke.waiting.length := by
    rcases hR with ⟨⟨h⟩⟩ | hN
    · obtain ⟨_, b, _⟩ := foldl_step_inv env h (List.replicate (2 * s.nuke.waiting.length) 0) w1
      rw [← hw2] at b
      omega
    · have h0 : s.nuke.waiting.length = 0 := by rw [hnil hN]; rfl
      have : w2 = w1 := by rw [hw2, h0]; rfl
      rw [this]
      omega
  obtain ⟨d1, d2, d3⟩ := foldl_drainTasks env s.nuke.waiting.length 0 w2
  have hfold : (sched ++ drain s.nuke.waiting.length).foldl (step env) (waitInit s) =
      (drainTasks s.nuke.waiting.length 0).foldl (step env) w2 := by
    simp [drain, List.foldl_append, hw1, hw2]
  rw [hfold]
  refine ⟨d1.trans h2, fun j => ?_⟩
  by_cases hj : j < s.nuke.waiting.length
  · exact (d3 j).1 (by omega) (by omega)
  · have : ((drainTasks s.nuke.waiting.length 0).foldl (step env) w2).tasks[j]? = none := by
      apply List.getElem?_eq_none
      rw [d2]
      omega
    simp [WaitState.rankAt, this]

/-- With wait on, the `Wait` stage logs exactly two events for every handle of the
waiting bucket that has the `Waiter` capability and none for the others, whatever
the schedule. -/
theorem Wait_events [DecidableEq R] (env : Env R) (s : State R) (h : R)
    (hw : s.nuke.wait = true) :
    eventsFor h (Wait env s).trace =
      eventsFor h s.trace + 2 * (s.nuke.waiting.filter env.hasWaiter).count h := by
  rw [Wait_on env s hw]
  obtain ⟨c1, c2⟩ := Wait_complete env (env.schedule s.trace) s
  obtain ⟨_, _, hdue⟩ :=
    foldl_step_inv env h (env.schedule s.trace ++ drain s.nuke.waiting.length) (waitInit s)
  have hz := sum_map_debt_zero h _ c2
  unfold WaitState.due at hdue
  rw [c1, hz] at hdue
  simpa [waitInit] using hdue

@[simp] theorem eventsOf_append [DecidableEq R] (p : Reason → Bool) (h : R)
    (a b : List (Action R)) :
    eventsOf p h (a ++ b) = eventsOf p h a + eventsOf p h b := by
  simp [eventsOf]

/-- One step of the `Wait` stage keeps two balances for the handle `h`: the "waiting"
events logged plus the goroutines still to be started, and the outcome events logged
plus the goroutines that have not yet logged theirs. -/
theorem step_kinds [DecidableEq R] (env : Env R) (h : R) (w : WaitState R) (id : Nat) :
    eventsOf isPending h (step env w id).st.trace +
        ((step env w id).rest.filter env.hasWaiter).count h =
      eventsOf isPending h w.st.trace + (w.rest.filter env.hasWaiter).count h ∧
    eventsOf isOutcome h (step env w id).st.trace +
        ((step env w id).rest.filter env.hasWaiter).count h +
        ((step env w id).tasks.map (debt h)).sum =
      eventsOf isOutcome h w.st.trace + (w.rest.filter env.hasWaiter).count h +
        (w.tasks.map (debt h)).sum := by
  cases id with
  | zero =>
    obtain ⟨st, rest, held, tasks⟩ := w
    cases rest with
    | nil => exact ⟨rfl, rfl⟩
    | cons r rest =>
      by_cases hw : env.hasWaiter r = true
      · by_cases hr : r = h
        · subst hr
          simp [step, stepMain, hw, Log, eventsOf, events, debt, TaskPc.rank, List.filter_cons,
            isPending, isOutcome]
          omega
        · simp [step, stepMain, hw, Log, eventsOf, events, debt, TaskPc.rank, hr,
            List.filter_cons, List.count_cons, isPending, isOutcome]
      · cases held with
        | none => simp [step, stepMain, hw, List.filter_cons]
        | some snap => simp [step, stepMain, hw, List.filter_cons]
  | succ k =>
    simp only [step]
    unfold stepTask
    cases hk : w.tasks[k]? with
    | none => exact ⟨rfl, rfl⟩
    | some t =>
      obtain ⟨r, pc0⟩ := t
      cases pc0 with
      | start =>
        have hs := sum_map_set (debt h) w.tasks k _
          { resource := r, pc := TaskPc.returned (env.callWait w.st.trace r) } hk
        simp only [debt, TaskPc.rank] at hs
        simp [eventsOf, events, debt, TaskPc.rank] at hs ⊢
        omega
      | returned err =>
        have hs := sum_map_set (debt h) w.tasks k _
          { resource := r, pc := TaskPc.loaded err (match err with
            | some _ => w.st.nuke.failed
            | none => w.st.nuke.finished) } hk
        simp [debt, TaskPc.rank] at hs ⊢
        omega
      | loaded err snap =>
        have hs := sum_map_set (debt h) w.tasks k _
          { resource := r, pc := TaskPc.stored err } hk
        simp [debt, TaskPc.rank] at hs ⊢
        omega
      | stored err =>
        have hs := sum_map_set (debt h) w.tasks k _
          { resource := r, pc := TaskPc.done } hk
        cases err <;> by_cases hr : r = h <;>
          simp [Log, eventsOf, events, debt, TaskPc.rank, hr, List.count_cons, isPending,
            isOutcome] at hs ⊢ <;> omega
      | done => exact ⟨rfl, rfl⟩

theorem foldl_step_kinds [DecidableEq R] (env : Env R) (h : R) (sched : List Nat)
    (w : WaitState R) :
    eventsOf isPending h (sched.foldl (step env) w).st.trace +
        ((sched.foldl (step env) w).rest.filter env.hasWaiter).count h =
      eventsOf isPending h w.st.trace + (w.rest.filter env.hasWaiter).count h ∧
    eventsOf isOutcome h (sched.foldl (step env) w).st.trace +
        ((sched.foldl (step env) w).rest.filter env.hasWaiter).count h +
        ((sched.foldl (step env) w).tasks.map (debt h)).sum =
      eventsOf isOutcome h w.st.trace + (w.rest.filter env.hasWaiter).count h +
        (w.tasks.map (debt h)).sum := by
  induction sched generalizing w with
  | nil => exact ⟨rfl, rfl⟩
  | cons id sched ih =>
    obtain ⟨a1, a2⟩ := step_kinds env h w id
    obtain ⟨b1, b2⟩ := ih (step env w id)
    simp only [List.foldl_cons]
    exact ⟨by rw [b1, a1], by rw [b2, a2]⟩

/-- With wait on, of the events the `Wait` stage logs for a handle, as many are
"waiting" events as the handle has occurrences with the `Waiter` capability in
waiting, and as many are outcome events (success or error), whatever the schedule. -/
theorem Wait_event_kinds [DecidableEq R] (env : Env R) (s : State R) (h : R)
    (hw : s.nuke.wait = true) :
    eventsOf isPending h (Wait env s).trace =
      eventsOf isPending h s.trace + (s.nuke.waiting.filter env.hasWaiter).count h ∧
    eventsOf isOutcome h (Wait env s).trace =
      eventsOf isOutcome h s.trace + (s.nuke.waiting.filter env.hasWaiter).count h := by
  rw [Wait_on env s hw]
  obtain ⟨c1, c2⟩ := Wait_complete env (env.schedule s.trace) s
  obtain ⟨k1, k2⟩ :=
    foldl_step_kinds env h (env.schedule s.trace ++ drain s.nuke.waiting.length) (waitInit s)
  have hz := sum_map_debt_zero h _ c2
  rw [c1] at k1 k2
  rw [hz] at k2
  constructor
  · simpa [waitInit] using k1
  · simpa [waitInit] using k2

/-- C7 as the code has it, stage by stage, for every handle `h`. `FilterQueue` logs
as many events for `h` as it moves occurrences of `h` from queue to skipped, and
every occurrence of `h` in queue is either kept in queue or moved to skipped.
`HandleQueue` logs one event for every occurrence of `h` in queue, empties queue and
moves every occurrence to skipped, waiting or failed. With wait on, `Wait` logs, for
every occurrence of `h` in waiting that has the `Waiter` capability, exactly two
events, one with reason `ReasonWaitPending` and one with reason `ReasonSuccess` or
`ReasonError`, and no event for an occurrence without the capability, whatever the
schedule. With wait off, `Wait` logs nothing. The assignments at the head of `Retry`
and the summary line before it log nothing. -/
theorem events_per_stage [DecidableEq R] (env : Env R) (s : State R) (h : R) :
    (eventsFor h (FilterQueue env s).trace + s.nuke.skipped.count h =
      eventsFor h s.trace + (FilterQueue env s).nuke.skipped.count h) ∧
    ((FilterQueue env s).nuke.queue.count h + (FilterQueue env s).nuke.skipped.count h =
      s.nuke.queue.count h + s.nuke.skipped.count h) ∧
    (eventsFor h (HandleQueue env s).trace = eventsFor h s.trace + s.nuke.queue.count h) ∧
    ((HandleQueue env s).nuke.queue = [] ∧
      (HandleQueue env s).nuke.skipped.count h + (HandleQueue env s).nuke.waiting.count h +
          (HandleQueue env s).nuke.failed.count h =
        s.nuke.skipped.count h + s.nuke.waiting.count h + s.nuke.failed.count h +
          s.nuke.queue.count h) ∧
    (s.nuke.wait = true →
      eventsFor h (Wait env s).trace =
        eventsFor h s.trace + 2 * (s.nuke.waiting.filter env.hasWaiter).count h ∧
      eventsOf isPending h (Wait env s).trace =
        eventsOf isPending h s.trace + (s.nuke.waiting.filter env.hasWaiter).count h ∧
      eventsOf isOutcome h (Wait env s).trace =
        eventsOf isOutcome h s.trace + (s.nuke.waiting.filter env.hasWaiter).count h) ∧
    (s.nuke.wait = false → (Wait env s).trace = s.trace) ∧
    (requeue s).trace = s.trace ∧ events (printRetrying s).trace = events s.trace := by
  obtain ⟨kept, rejected, evs, g1, g2, _, _, g5, g6, g7, _, _⟩ := FilterQueue_split env s
  obtain ⟨_, f2, _, _, _, _, _, f8⟩ := HandleQueue_frame env s
  refine ⟨?_, ?_, ?_, ⟨f2, ?_⟩,
    fun hw => ⟨Wait_events env s h hw, Wait_event_kinds env s h hw⟩, ?_, rfl, ?_⟩
  · simp only [eventsFor, g6, g2, List.map_append, List.count_append, g7]
    omega
  · have := g5.count_eq h
    simp only [List.count_append] at this
    rw [g1, g2, List.count_append]
    omega
  · simp only [eventsFor, f8, List.count_append]
  · cases hd : s.nuke.Parameters.NoDryRun with
    | false =>
      rw [HandleQueue_dry env s hd]
      simp only [List.count_append]
      omega
    | true =>
      obtain ⟨e1, _, ok, bad, e3, e4, _, _, e7⟩ := HandleQueue_exec env s hd
      have := e7.count_eq h
      simp only [List.count_append] at this
      rw [e1, e3, e4, List.count_append, List.count_append]
      omega
  · intro hw
    rw [Wait_off env s hw]
  · simp [printRetrying, events]

/-! ## Where the code departs from the claims -/

/-- C1 fails on the code. With wait off, `Wait` assigns waiting to finished instead
of appending: handles 1 and 2 are scanned, 1 is finished in the first pass, and the
`Retry` that removes 2 overwrites finished, so after it the buckets hold 2 only.
With the default toggles, two goroutines of `Wait` that both read finished before
either writes it leave 2 only as well. -/
theorem partition_broken :
    (Scan flakyRemove freshNoWait).1 = ([1, 2], none) ∧
    (firstPass flakyRemove (afterScan flakyRemove freshNoWait)).nuke.all = [2, 1] ∧
    (Retry flakyRemove
      (printRetrying (firstPass flakyRemove (afterScan flakyRemove freshNoWait)))).nuke.all = [2] ∧
    (∃ final, Run flakyRemove 1 freshNoWait = some (final, none) ∧
      final.nuke.all = [2] ∧ ¬ final.nuke.all.Perm [1, 2]) ∧
    (Scan twoWaiters (fresh execParams)).1 = ([1, 2], none) ∧
    (HandleQueue twoWaiters
      (FilterQueue twoWaiters (afterScan twoWaiters (fresh execParams)))).nuke.all = [1, 2] ∧
    (∃ final, Run twoWaiters 0 (fresh execParams) = some (final, none) ∧
      final.nuke.all = [2] ∧ ¬ final.nuke.all.Perm [1, 2]) :=
  ⟨rfl, rfl, rfl, ⟨_, rfl, rfl, by decide⟩, rfl, rfl, ⟨_, rfl, rfl, by decide⟩⟩

/-- C4 fails on the code in its last part. `Run` returns with retry on and queue,
waiting and failed empty, yet the scanned handle 1 is neither in skipped nor in
finished: with wait off because the second `Wait` overwrote finished, with the
default toggles because of two unsynchronised appends to finished. -/
theorem terminal_state_misses_handle :
    (∃ final, Run flakyRemove 1 freshNoWait = some (final, none) ∧
      final.nuke.retry = true ∧ final.nuke.queue = [] ∧ final.nuke.waiting = [] ∧
      final.nuke.failed = [] ∧ 1 ∈ (Scan flakyRemove freshNoWait).1.1 ∧
      1 ∉ final.nuke.skipped ∧ 1 ∉ final.nuke.finished) ∧
    (∃ final, Run twoWaiters 0 (fresh execParams) = some (final, none) ∧
      final.nuke.retry = true ∧ final.nuke.queue = [] ∧ final.nuke.waiting = [] ∧
      final.nuke.failed = [] ∧ 1 ∈ (Scan twoWaiters (fresh execParams)).1.1 ∧
      1 ∉ final.nuke.skipped ∧ 1 ∉ final.nuke.finished) :=
  ⟨⟨_, rfl, rfl, rfl, rfl, rfl, by decide, by decide, by decide⟩,
    ⟨_, rfl, rfl, rfl, rfl, rfl, by decide, by decide, by decide⟩⟩

/-- C5 fails on the code. Handles 1 and 2 wait concurrently and both waits return no
error; when both goroutines read finished before either writes it, `Wait` returns
with 1 in neither finished nor failed; when they run in turn, finished holds both:
the outcome depends on the interleaving. -/
theorem concurrent_wait_loses_handle :
    (Wait twoWaiters waitingBoth).trace =
      [Action.log 1 Reason.ReasonWaitPending "waiting",
        Action.log 2 Reason.ReasonWaitPending "waiting",
        Action.wait 1 none, Action.wait 2 none,
        Action.log 1 Reason.ReasonSuccess "removed",
        Action.log 2 Reason.ReasonSuccess "removed"] ∧
    (Wait twoWaiters waitingBoth).nuke.waiting = [] ∧
    (Wait twoWaiters waitingBoth).nuke.finished = [2] ∧
    (Wait twoWaiters waitingBoth).nuke.failed = [] ∧
    (Wait twoWaitersInTurn waitingBoth).nuke.finished = [1, 2] :=
  ⟨rfl, rfl, rfl, rfl, rfl⟩

/-- C6 fails on the code. Nothing orders the appends of two goroutines: after the
steps 0, 0, 1, 2, 1, 2 both goroutines stand between reading finished and writing
it, each holding the same empty value, and after both have written finished holds
one handle. -/
theorem appends_overlap :
    ([0, 0, 1, 2, 1, 2].foldl (step twoWaiters) (waitInit waitingBoth)).tasks =
      [{ resource := 1, pc := TaskPc.loaded none [] },
        { resource := 2, pc := TaskPc.loaded none [] }] ∧
    ([0, 0, 1, 2, 1, 2, 1].foldl (step twoWaiters) (waitInit waitingBoth)).st.nuke.finished =
      [1] ∧
    ([0, 0, 1, 2, 1, 2, 1, 2].foldl (step twoWaiters) (waitInit waitingBoth)).st.nuke.finished =
      [2] :=
  ⟨rfl, rfl, rfl⟩

/-- C7 fails on the code. In a run over handle 1 (no `Waiter`) and handle 2
(`Waiter`), each handle changes bucket twice (queue to waiting, waiting to
finished); 1 gets one event (none for its move to finished) and 2 gets three (one
of them, "waiting", while it changes no bucket). -/
theorem events_differ_from_transitions :
    ∃ final, Run plainAndWaiter 0 (fresh execParams) = some (final, none) ∧
      transitions 1
        [(afterScan plainAndWaiter (fresh execParams)).nuke,
          (FilterQueue plainAndWaiter (afterScan plainAndWaiter (fresh execParams))).nuke,
          (HandleQueue plainAndWaiter
            (FilterQueue plainAndWaiter (afterScan plainAndWaiter (fresh execParams)))).nuke,
          (firstPass plainAndWaiter (afterScan plainAndWaiter (fresh execParams))).nuke,
          final.nuke] = 2 ∧
      eventsFor 1 final.trace = 1 ∧
      transitions 2
        [(afterScan plainAndWaiter (fresh execParams)).nuke,
          (FilterQueue plainAndWaiter (afterScan plainAndWaiter (fresh execParams))).nuke,
          (HandleQueue plainAndWaiter
            (FilterQueue plainAndWaiter (afterScan plainAndWaiter (fresh execParams)))).nuke,
          (firstPass plainAndWaiter (afterScan plainAndWaiter (fresh execParams))).nuke,
          final.nuke] = 2 ∧
      eventsFor 2 final.trace = 3 :=
  ⟨_, rfl, by decide, by decide, by decide, by decide⟩

/-- C9 fails on the code. Handle 1 passes filtering, its `Remove` always succeeds and
its `Wait` always returns an error; when its goroutine and that of handle 2 both
read failed before either writes it, failed holds 2 only after the first pass, and
`Run` returns after one `Retry` with failed empty and 1 in no bucket. -/
theorem retry_loop_exits_with_stuck_handle :
    (∀ tr, stuckWaiter.callRemove tr 1 = none) ∧
    (∀ tr, stuckWaiter.callWait tr 1 = some "stuck") ∧
    (FilterQueue stuckWaiter (afterScan stuckWaiter (fresh execParams))).nuke.queue = [1, 2] ∧
    (firstPass stuckWaiter (afterScan stuckWaiter (fresh execParams))).nuke.failed = [2] ∧
    (∃ final, Run stuckWaiter 1 (fresh execParams) = some (final, none) ∧
      final.nuke.failed = [] ∧ final.nuke.all = [2]) :=
  ⟨fun _ => rfl, fun _ => rfl, rfl, rfl, ⟨_, rfl, rfl, rfl⟩⟩

/-- C10 fails on the code in its last part. With retry off, the waits of handles 1
and 2 both return an error in the one pass; when both goroutines read failed before
either writes it, `Run` returns with failed holding 2 only. -/
theorem single_pass_loses_failure :
    ∃ final, Run twoFailingWaiters 0 freshNoRetry = some (final, none) ∧
      Action.wait 1 (some "timeout") ∈ final.trace ∧
      Action.wait 2 (some "timeout") ∈ final.trace ∧
      final.nuke.failed = [2] ∧ 1 ∉ final.nuke.failed :=
  ⟨_, rfl, by decide, by decide, rfl, by decide⟩

/-! ## The general theorems at concrete inputs -/

/-- C2 at three listers of which the second fails. -/
theorem scan_error_aborts_run_witness :
    (∃ l ∈ secondListerFails.listers, l.2 ≠ none) ∧
    ∃ (pre post : List (List Nat × Option String)) (res : List Nat) (e : String),
      secondListerFails.listers = pre ++ (res, some e) :: post ∧ (∀ l ∈ pre, l.2 = none) ∧
      (Scan secondListerFails (fresh execParams)).1 = ([], some e) ∧
      listerCalls (Scan secondListerFails (fresh execParams)).2.trace =
        listerCalls (fresh execParams).trace ++ List.range (pre.length + 1) ∧
      Run secondListerFails 5 (fresh execParams) = some
        ({ nuke := { (fresh execParams).nuke with queue := [] }
           trace := (fresh execParams).trace ++
             (List.range (pre.length + 1)).map Action.list }, some e) :=
  ⟨⟨([2], some "access denied"), by decide, by decide⟩,
    scan_error_aborts_run secondListerFails 5 (fresh execParams)
      ⟨([2], some "access denied"), by decide, by decide⟩⟩

/-- C3 at three handles of which one is rejected by its filter. -/
theorem dry_run_purity_witness :
    (fresh dryParams).nuke.Parameters.NoDryRun = false ∧
    (∀ l ∈ oneProtected.listers, l.2 = none) ∧
    ((fresh dryParams).nuke.waiting = [] ∧ (fresh dryParams).nuke.skipped = [] ∧
      (fresh dryParams).nuke.failed = [] ∧ (fresh dryParams).nuke.finished = []) ∧
    ∃ (final : State Nat) (rejected passed : List Nat) (evs : List (Nat × Reason × String)),
      Run oneProtected 0 (fresh dryParams) = some (final, none) ∧
      (FilterQueue oneProtected (afterScan oneProtected (fresh dryParams))).nuke.skipped =
        rejected ∧
      (FilterQueue oneProtected (afterScan oneProtected (fresh dryParams))).nuke.queue =
        passed ∧
      rejectedBy final.trace = rejectedBy (fresh dryParams).trace ++ rejected ∧
      rejected.Sublist (Scan oneProtected (fresh dryParams)).1.1 ∧
      passed.Sublist (Scan oneProtected (fresh dryParams)).1.1 ∧
      (rejected ++ passed).Perm (Scan oneProtected (fresh dryParams)).1.1 ∧
      final.nuke.skipped = rejected ++ passed ∧
      final.nuke.queue = [] ∧ final.nuke.waiting = [] ∧ final.nuke.failed = [] ∧
      final.nuke.finished = [] ∧
      removeCalls final.trace = removeCalls (fresh dryParams).trace ∧
      waitCalls final.trace = waitCalls (fresh dryParams).trace ∧
      events final.trace = events (fresh dryParams).trace ++ evs ++
        passed.map (fun r => (r, Reason.ReasonSuccess, "would remove")) ∧
      evs.map (fun e => e.1) = rejected ∧ (∀ e ∈ evs, e.2.1 = Reason.ReasonSkip) :=
  ⟨rfl, by decide, ⟨rfl, rfl, rfl, rfl⟩,
    dry_run_purity oneProtected 0 (fresh dryParams) rfl (by decide) ⟨rfl, rfl, rfl, rfl⟩⟩

/-- C8 at three handles, two of them with a filter, one of them retried. -/
theorem filter_runs_once_witness :
    (Scan oneProtected (fresh execParams)).1.2 = none ∧
    (filterCalls (FilterQueue oneProtected (afterScan oneProtected (fresh execParams))).trace =
      filterCalls (fresh execParams).trace ++
        (Scan oneProtected (fresh execParams)).1.1.filter oneProtected.hasFilter ∧
    (∀ k, filterCalls
        (retryPasses oneProtected k
          (firstPass oneProtected (afterScan oneProtected (fresh execParams)))).trace =
      filterCalls (fresh execParams).trace ++
        (Scan oneProtected (fresh execParams)).1.1.filter oneProtected.hasFilter) ∧
    (∀ fuel final err, Run oneProtected fuel (fresh execParams) = some (final, err) →
      filterCalls final.trace =
        filterCalls (fresh execParams).trace ++
          (Scan oneProtected (fresh execParams)).1.1.filter oneProtected.hasFilter) ∧
    (∀ s1, filterCalls (Retry oneProtected s1).trace = filterCalls s1.trace)) :=
  ⟨rfl, filter_runs_once oneProtected (fresh execParams) rfl⟩

/-- C7, as the code has it, at the `Wait` stage over handle 1 without and handle 2 with
the `Waiter` capability: two events for 2, one of them a "waiting" event and one an
outcome event, and none for 1. -/
theorem events_per_stage_witness :
    waitingBoth.nuke.wait = true ∧
    (waitingBoth.nuke.waiting.filter plainAndWaiter.hasWaiter).count 2 = 1 ∧
    (waitingBoth.nuke.waiting.filter plainAndWaiter.hasWaiter).count 1 = 0 ∧
    (eventsFor 2 (Wait plainAndWaiter waitingBoth).trace =
        eventsFor 2 waitingBoth.trace +
          2 * (waitingBoth.nuke.waiting.filter plainAndWaiter.hasWaiter).count 2 ∧
      eventsOf isPending 2 (Wait plainAndWaiter waitingBoth).trace =
        eventsOf isPending 2 waitingBoth.trace +
          (waitingBoth.nuke.waiting.filter plainAndWaiter.hasWaiter).count 2 ∧
      eventsOf isOutcome 2 (Wait plainAndWaiter waitingBoth).trace =
        eventsOf isOutcome 2 waitingBoth.trace +
          (waitingBoth.nuke.waiting.filter plainAndWaiter.hasWaiter).count 2) ∧
    (eventsFor 1 (Wait plainAndWaiter waitingBoth).trace =
        eventsFor 1 waitingBoth.trace +
          2 * (waitingBoth.nuke.waiting.filter plainAndWaiter.hasWaiter).count 1 ∧
      eventsOf isPending 1 (Wait plainAndWaiter waitingBoth).trace =
        eventsOf isPending 1 waitingBoth.trace +
          (waitingBoth.nuke.waiting.filter plainAndWaiter.hasWaiter).count 1 ∧
      eventsOf isOutcome 1 (Wait plainAndWaiter waitingBoth).trace =
        eventsOf isOutcome 1 waitingBoth.trace +
          (waitingBoth.nuke.waiting.filter plainAndWaiter.hasWaiter).count 1) :=
  ⟨rfl, by decide, by decide, (events_per_stage plainAndWaiter waitingBoth 2).2.2.2.2.1 rfl,
    (events_per_stage plainAndWaiter waitingBoth 1).2.2.2.2.1 rfl⟩

/-! ## What holds of every run that returns -/

theorem retryPasses_queue_waiting (env : Env R) (k : Nat) (s : State R)
    (h : s.nuke.queue = [] ∧ s.nuke.waiting = []) :
    (retryPasses env k s).nuke.queue = [] ∧ (retryPasses env k s).nuke.waiting = [] := by
  induction k generalizing s with
  | zero => exact h
  | succ k ih =>
    apply ih
    unfold Retry
    obtain ⟨_, w2, w3, _⟩ := Wait_fixed env (HandleQueue env (requeue (printRetrying s)))
    exact ⟨w2.trans (HandleQueue_frame env _).2.1, w3⟩

/-- Whenever `Run` returns after a successful `Scan`, it returns no error, queue and
waiting are empty, and with retry on failed is empty too. -/
theorem Run_terminal (env : Env R) (fuel : Nat) (s final : State R) (err : Option String)
    (hscan : (Scan env s).1.2 = none) (hrun : Run env fuel s = some (final, err)) :
    err = none ∧ final.nuke.queue = [] ∧ final.nuke.waiting = [] ∧
      (final.nuke.retry = true → final.nuke.failed = []) := by
  have hfirst : (firstPass env (afterScan env s)).nuke.queue = [] ∧
      (firstPass env (afterScan env s)).nuke.waiting = [] := by
    unfold firstPass
    obtain ⟨_, w2, w3, _⟩ := Wait_fixed env (HandleQueue env (FilterQueue env (afterScan env s)))
    exact ⟨w2.trans (HandleQueue_frame env _).2.1, w3⟩
  rw [Run_scan_ok env fuel s hscan] at hrun
  by_cases hr : (firstPass env (afterScan env s)).nuke.retry = true
  · simp only [hr, if_true, Option.map_eq_some'] at hrun
    obtain ⟨s3, hloop, heq⟩ := hrun
    obtain ⟨k, _, hk, hfail⟩ := retryLoop_some env fuel _ _ hloop
    obtain ⟨e1, e2⟩ := Prod.mk.inj heq
    have hq := retryPasses_queue_waiting env k _ hfirst
    rw [← hk] at hq
    subst e1 e2
    exact ⟨rfl, hq.1, hq.2, fun _ => hfail⟩
  · simp only [hr, Bool.false_eq_true, if_false, Option.map_some', Option.some.injEq] at hrun
    obtain ⟨e1, e2⟩ := Prod.mk.inj hrun
    subst e1 e2
    refine ⟨rfl, hfirst.1, hfirst.2, fun h => ?_⟩
    exact absurd h hr

/-- With retry off and a successful `Scan`, `Run` returns for every bound on the
retry loop, after exactly one `FilterQueue`, one `HandleQueue` and one `Wait`. -/
theorem Run_single_pass (env : Env R) (fuel : Nat) (s : State R)
    (hscan : (Scan env s).1.2 = none) (hretry : s.nuke.retry = false) :
    Run env fuel s =
      some (printComplete (Wait env (HandleQueue env (FilterQueue env (afterScan env s)))),
        none) := by
  have hset : (firstPass env (afterScan env s)).nuke.settings = s.nuke.settings := by
    unfold firstPass
    rw [(Wait_fixed env _).1, (HandleQueue_frame env _).1, (FilterQueue_frame env _).1]
    rfl
  have hr : (firstPass env (afterScan env s)).nuke.retry = false := by
    have := congrArg (fun x => x.2.2.2.1) hset
    simpa [Nuke.settings, hretry] using this
  rw [Run_scan_ok env fuel s hscan, hr]
  rfl

/-! ## The stages one by one -/

theorem foldl_filterStep_exact (env : Env R) (l : List R) (s : State R) :
    ∃ outcomes : List (R × Option String),
      outcomes.map (fun p => p.1) = l ∧
      (∀ p ∈ outcomes, env.hasFilter p.1 = false → p.2 = none) ∧
      (∀ p ∈ outcomes, env.hasFilter p.1 = true → ∃ tr, p.2 = env.callFilter tr p.1) ∧
      (l.foldl (filterStep env) s).nuke.queue =
        s.nuke.queue ++ (outcomes.filter (fun p => p.2.isNone)).map (fun p => p.1) ∧
      (l.foldl (filterStep env) s).nuke.skipped =
        s.nuke.skipped ++ (outcomes.filter (fun p => p.2.isSome)).map (fun p => p.1) ∧
      (l.foldl (filterStep env) s).trace =
        s.trace ++ outcomes.flatMap (fun p =>
          if env.hasFilter p.1 then
            Action.filter p.1 p.2 ::
              p.2.toList.map (fun e => Action.log p.1 Reason.ReasonSkip e)
          else []) := by
  induction l generalizing s with
  | nil => exact ⟨[], by simp⟩
  | cons r l ih =>
    obtain ⟨outcomes, h1, h2, h3, h4, h5, h6⟩ := ih (filterStep env s r)
    simp only [List.foldl_cons]
    by_cases hf : env.hasFilter r = true
    · cases herr : env.callFilter s.trace r with
      | none =>
        refine ⟨(r, none) :: outcomes, by simp [h1], ?_, ?_, ?_, ?_, ?_⟩
        · intro p hp; rcases List.mem_cons.mp hp with rfl | hp
          · intro _; rfl
          · exact h2 p hp
        · intro p hp; rcases List.mem_cons.mp hp with rfl | hp
          · intro _; exact ⟨s.trace, herr.symm⟩
          · exact h3 p hp
        · rw [h4]; simp [filterStep, hf, herr]
        · rw [h5]; simp [filterStep, hf, herr]
        · rw [h6]; simp [filterStep, hf, herr]
      | some e =>
        refine ⟨(r, some e) :: outcomes, by simp [h1], ?_, ?_, ?_, ?_, ?_⟩
        · intro p hp; rcases List.mem_cons.mp hp with rfl | hp
          · intro h; simp [hf] at h
          · exact h2 p hp
        · intro p hp; rcases List.mem_cons.mp hp with rfl | hp
          · intro _; exact ⟨s.trace, herr.symm⟩
          · exact h3 p hp
        · rw [h4]; simp [filterStep, hf, herr, Log]
        · rw [h5]; simp [filterStep, hf, herr, Log]
        · rw [h6]; simp [filterStep, hf, herr, Log]
    · have hf2 : env.hasFilter r = false := by simpa using hf
      refine ⟨(r, none) :: outcomes, by simp [h1], ?_, ?_, ?_, ?_, ?_⟩
      · intro p hp; rcases List.mem_cons.mp hp with rfl | hp
        · intro _; rfl
        · exact h2 p hp
      · intro p hp; rcases List.mem_cons.mp hp with rfl | hp
        · intro h; simp [hf2] at h
        · exact h3 p hp
      · rw [h4]; simp [filterStep, hf2]
      · rw [h5]; simp [filterStep, hf2]
      · rw [h6]; simp [filterStep, hf2]

theorem foldl_handleStep_exact (env : Env R) (l : List R) (s : State R)
    (hd : s.nuke.Parameters.NoDryRun = true) :
    ∃ outcomes : List (R × Option String),
      outcomes.map (fun p => p.1) = l ∧
      (∀ p ∈ outcomes, ∃ tr, p.2 = env.callRemove tr p.1) ∧
      (l.foldl (handleStep env) s).nuke.waiting =
        s.nuke.waiting ++ (outcomes.filter (fun p => p.2.isNone)).map (fun p => p.1) ∧
      (l.foldl (handleStep env) s).nuke.failed =
        s.nuke.failed ++ (outcomes.filter (fun p => p.2.isSome)).map (fun p => p.1) ∧
      (l.foldl (handleStep env) s).trace =
        s.trace ++ outcomes.flatMap (fun p =>
          [Action.remove p.1 p.2,
            match p.2 with
            | some e => Action.log p.1 Reason.ReasonError e
            | none => Action.log p.1 Reason.ReasonRemoveTriggered "triggered remove"]) := by
  induction l generalizing s with
  | nil => exact ⟨[], by simp⟩
  | cons r l ih =>
    have hset := (handleStep_frame env s r).1
    have hd2 : (handleStep env s r).nuke.Parameters.NoDryRun = true := by
      have := congrArg (fun x => x.1.NoDryRun) hset
      simpa [Nuke.settings, hd] using this
    obtain ⟨outcomes, h1, h2, h3, h4, h5⟩ := ih (handleStep env s r) hd2
    simp only [List.foldl_cons]
    refine ⟨(r, env.callRemove s.trace r) :: outcomes, by simp [h1], ?_, ?_, ?_, ?_⟩
    · intro p hp; rcases List.mem_cons.mp hp with rfl | hp
      · exact ⟨s.trace, rfl⟩
      · exact h2 p hp
    · rw [h3]; cases herr : env.callRemove s.trace r <;> simp [handleStep, hd, herr, Log]
    · rw [h4]; cases herr : env.callRemove s.trace r <;> simp [handleStep, hd, herr, Log]
    · rw [h5]; cases herr : env.callRemove s.trace r <;> simp [handleStep, hd, herr, Log]

/-! ## Claims about single stages -/

/-- C11, the filtering stage: for every queue there is one outcome per queued handle,
in queue order (no error for a handle without the `Filter` capability, otherwise
what its `Filter` returned), such that afterwards queue holds exactly the handles
with no error, in order; skipped is its old content followed by the handles with an
error, in order; the trace has grown by one `Filter` call per handle that has the
capability, each followed, when it returned an error, by one skip event carrying
that error's message, and by nothing for the kept handles; and waiting, failed and
finished are unchanged. When `Filter` answers the same whatever happened before,
the two groups are those given by filtering the queue on the answer. -/
theorem FilterQueue_exact (env : Env R) (s : State R) :
    (∃ outcomes : List (R × Option String),
      outcomes.map (fun p => p.1) = s.nuke.queue ∧
      (∀ p ∈ outcomes, env.hasFilter p.1 = false → p.2 = none) ∧
      (∀ p ∈ outcomes, env.hasFilter p.1 = true → ∃ tr, p.2 = env.callFilter tr p.1) ∧
      (FilterQueue env s).nuke.queue =
        (outcomes.filter (fun p => p.2.isNone)).map (fun p => p.1) ∧
      (FilterQueue env s).nuke.skipped =
        s.nuke.skipped ++ (outcomes.filter (fun p => p.2.isSome)).map (fun p => p.1) ∧
      (FilterQueue env s).trace =
        s.trace ++ outcomes.flatMap (fun p =>
          if env.hasFilter p.1 then
            Action.filter p.1 p.2 ::
              p.2.toList.map (fun e => Action.log p.1 Reason.ReasonSkip e)
          else [])) ∧
    (FilterQueue env s).nuke.waiting = s.nuke.waiting ∧
    (FilterQueue env s).nuke.failed = s.nuke.failed ∧
    (FilterQueue env s).nuke.finished = s.nuke.finished ∧
    (∀ answer : R → Option String, (∀ tr r, env.callFilter tr r = answer r) →
      (FilterQueue env s).nuke.queue =
        s.nuke.queue.filter (fun r => !env.hasFilter r || (answer r).isNone) ∧
      (FilterQueue env s).nuke.skipped =
        s.nuke.skipped ++ s.nuke.queue.filter (fun r => env.hasFilter r && (answer r).isSome)) := by
  obtain ⟨f1, f2, f3, f4, _⟩ := FilterQueue_frame env s
  obtain ⟨outcomes, h1, h2, h3, h4, h5, h6⟩ :=
    foldl_filterStep_exact env s.nuke.queue { s with nuke := { s.nuke with queue := [] } }
  have h4' : (FilterQueue env s).nuke.queue =
      (outcomes.filter (fun p => p.2.isNone)).map (fun p => p.1) := by simpa using h4
  have h5' : (FilterQueue env s).nuke.skipped =
      s.nuke.skipped ++ (outcomes.filter (fun p => p.2.isSome)).map (fun p => p.1) := h5
  refine ⟨⟨outcomes, h1, h2, h3, h4', h5', h6⟩, f2, f3, f4, ?_⟩
  intro answer hans
  have hval : ∀ p ∈ outcomes, p.2 = if env.hasFilter p.1 then answer p.1 else none := by
    intro p hp
    by_cases hf : env.hasFilter p.1 = true
    · obtain ⟨tr, htr⟩ := h3 p hp hf
      simp [hf, htr, hans]
    · have hf2 : env.hasFilter p.1 = false := by simpa using hf
      simp [hf2, h2 p hp hf2]
  have key : ∀ (q : Option String → Bool) (g : R → Bool),
      (∀ r, q (if env.hasFilter r then answer r else none) = g r) →
      (outcomes.filter (fun p => q p.2)).map (fun p => p.1) =
        (outcomes.map (fun p => p.1)).filter g := by
    intro q g hq
    rw [List.filter_map]
    congr 1
    apply List.filter_congr
    intro p hp
    simp only [Function.comp]
    rw [hval p hp, hq]
  constructor
  · rw [h4', key (fun o => o.isNone) (fun r => !env.hasFilter r || (answer r).isNone), h1]
    intro r
    cases env.hasFilter r <;> simp
  · rw [h5', key (fun o => o.isSome) (fun r => env.hasFilter r && (answer r).isSome), h1]
    intro r
    cases env.hasFilter r <;> simp

/-- C12, the removal stage in execute mode: for every queue there is one outcome per
queued handle, in queue order, each what a `Remove` call on that handle returned,
such that the trace has grown by exactly one `Remove` call per handle, in queue
order, each followed at once by the one event for it (remove triggered when it
returned no error, an error event with the error's message otherwise); afterwards
queue is empty, waiting is its old content followed by the handles with no error,
failed is its old content followed by the handles with an error, both in queue
order, and skipped and finished are unchanged. -/
theorem HandleQueue_exact (env : Env R) (s : State R)
    (hd : s.nuke.Parameters.NoDryRun = true) :
    (∃ outcomes : List (R × Option String),
      outcomes.map (fun p => p.1) = s.nuke.queue ∧
      (∀ p ∈ outcomes, ∃ tr, p.2 = env.callRemove tr p.1) ∧
      (HandleQueue env s).nuke.waiting =
        s.nuke.waiting ++ (outcomes.filter (fun p => p.2.isNone)).map (fun p => p.1) ∧
      (HandleQueue env s).nuke.failed =
        s.nuke.failed ++ (outcomes.filter (fun p => p.2.isSome)).map (fun p => p.1) ∧
      (HandleQueue env s).trace =
        s.trace ++ outcomes.flatMap (fun p =>
          [Action.remove p.1 p.2,
            match p.2 with
            | some e => Action.log p.1 Reason.ReasonError e
            | none => Action.log p.1 Reason.ReasonRemoveTriggered "triggered remove"])) ∧
    removeCalls (HandleQueue env s).trace = removeCalls s.trace ++ s.nuke.queue ∧
    (HandleQueue env s).nuke.queue = [] ∧
    (HandleQueue env s).nuke.skipped = s.nuke.skipped ∧
    (HandleQueue env s).nuke.finished = s.nuke.finished := by
  obtain ⟨_, f2, f3, _⟩ := HandleQueue_frame env s
  obtain ⟨e1, e2, _⟩ := HandleQueue_exec env s hd
  exact ⟨foldl_handleStep_exact env s.nuke.queue
    { s with nuke := { s.nuke with queue := [] } } hd, e2, f2, e1, f3⟩

/-- C13 fails on the code. With wait off, handle 1 finished and handle 2 waiting,
`Wait` invokes no `Wait`, empties waiting and leaves queue, skipped and failed
alone, but it assigns waiting to finished: afterwards finished holds 2 only and
handle 1, which it contained before, is gone. -/
theorem wait_off_overwrites_finished :
    oneFinishedOneWaiting.nuke.wait = false ∧
    oneFinishedOneWaiting.nuke.finished = [1] ∧
    oneFinishedOneWaiting.nuke.waiting = [2] ∧
    (Wait flakyRemove oneFinishedOneWaiting).trace = oneFinishedOneWaiting.trace ∧
    (Wait flakyRemove oneFinishedOneWaiting).nuke.waiting = [] ∧
    (Wait flakyRemove oneFinishedOneWaiting).nuke.finished = [2] ∧
    1 ∉ (Wait flakyRemove oneFinishedOneWaiting).nuke.finished :=
  ⟨rfl, rfl, rfl, rfl, rfl, rfl, by decide⟩

/-- C15, recoverable errors never propagate: when `Scan` returns an error, `Run`
returns that error for every bound on the retry loop; and whenever `Run` returns,
what it returns is what `Scan` returned, so it is an error exactly when `Scan`
returned one, and nil after a successful `Scan` whatever `Filter`, `Remove` and
`Wait` returned. -/
theorem run_error_iff_scan_error (env : Env R) (fuel : Nat) (s : State R) :
    (∀ e, (Scan env s).1.2 = some e → Run env fuel s = some (afterScan env s, some e)) ∧
    (∀ final err, Run env fuel s = some (final, err) →
      err = (Scan env s).1.2 ∧ (err ≠ none ↔ (Scan env s).1.2 ≠ none) ∧
      ((Scan env s).1.2 = none → err = none)) := by
  refine ⟨fun e he => Run_scan_error env fuel s e he, ?_⟩
  intro final err hrun
  have herr : err = (Scan env s).1.2 := by
    cases hs : (Scan env s).1.2 with
    | some e =>
      rw [Run_scan_error env fuel s e hs] at hrun
      exact ((Prod.mk.inj (Option.some.inj hrun)).2).symm
    | none => exact (Run_terminal env fuel s final err hs hrun).1
  exact ⟨herr, by rw [herr], fun h => by rw [herr, h]⟩

/-- C17, scan order: when every registered lister succeeds, `Scan` invokes each
lister exactly once, in registration order (its trace grows by the calls of listers
0, 1, ..., n - 1 and nothing else), and returns no error and exactly the
concatenation of the listers' results, in registration order and within a lister in
the order it returned them; with no lister the result is empty. -/
theorem scan_concatenates (env : Env R) (s : State R)
    (hok : ∀ l ∈ env.listers, l.2 = none) :
    (Scan env s).1 = ((env.listers.map (fun l => l.1)).flatten, none) ∧
    (Scan env s).2.trace = s.trace ++ (List.range env.listers.length).map Action.list ∧
    listerCalls (Scan env s).2.trace = listerCalls s.trace ++ List.range env.listers.length ∧
    (Scan env s).2.nuke = s.nuke ∧
    (env.listers = [] → (Scan env s).1.1 = []) := by
  obtain ⟨h1, h2⟩ := Scan_ok env s hok
  refine ⟨h1, h2, ?_, rfl, ?_⟩
  · rw [h2]; simp [listerCalls_map_list]
  · intro hnil; rw [h1, hnil]; rfl

/-- C11 at a queue of three handles, one of them rejected. -/
theorem FilterQueue_exact_witness :
    (∀ tr r, oneProtected.callFilter tr r = (if r = 2 then some "protected" else none)) ∧
    (FilterQueue oneProtected threeQueued).nuke.queue =
      threeQueued.nuke.queue.filter (fun r =>
        !oneProtected.hasFilter r || (if r = 2 then some "protected" else none).isNone) ∧
    (FilterQueue oneProtected threeQueued).nuke.skipped =
      threeQueued.nuke.skipped ++ threeQueued.nuke.queue.filter (fun r =>
        oneProtected.hasFilter r && (if r = 2 then some "protected" else none).isSome) :=
  ⟨fun _ _ => rfl,
    (FilterQueue_exact oneProtected threeQueued).2.2.2.2
      (fun r => if r = 2 then some "protected" else none) (fun _ _ => rfl)⟩

/-- C12 at a queue of three handles, the last of which fails to be removed. -/
theorem HandleQueue_exact_witness :
    threeQueued.nuke.Parameters.NoDryRun = true ∧
    removeCalls (HandleQueue oneProtected threeQueued).trace =
      removeCalls threeQueued.trace ++ threeQueued.nuke.queue ∧
    (HandleQueue oneProtected threeQueued).nuke.queue = [] ∧
    (HandleQueue oneProtected threeQueued).nuke.skipped = threeQueued.nuke.skipped ∧
    (HandleQueue oneProtected threeQueued).nuke.finished = threeQueued.nuke.finished :=
  ⟨rfl, (HandleQueue_exact oneProtected threeQueued rfl).2⟩

/-- C15 at a run whose scan fails and at a run with a failing `Remove`. -/
theorem run_error_iff_scan_error_witness :
    (Scan secondListerFails (fresh execParams)).1.2 = some "access denied" ∧
    Run secondListerFails 0 (fresh execParams) =
      some (afterScan secondListerFails (fresh execParams), some "access denied") ∧
    (∃ final, Run oneProtected 1 (fresh execParams) = some (final, none)) ∧
    (none : Option String) = (Scan oneProtected (fresh execParams)).1.2 :=
  ⟨rfl, (run_error_iff_scan_error secondListerFails 0 (fresh execParams)).1 _ rfl,
    ⟨_, rfl⟩,
    ((run_error_iff_scan_error oneProtected 1 (fresh execParams)).2 _ none rfl).1⟩

/-- C17 at two listers returning handles 1, 2 and handle 3. -/
theorem scan_concatenates_witness :
    (∀ l ∈ oneProtected.listers, l.2 = none) ∧
    (Scan oneProtected (fresh execParams)).1 =
      ((oneProtected.listers.map (fun l => l.1)).flatten, none) ∧
    (Scan oneProtected (fresh execParams)).2.trace =
      (fresh execParams).trace ++ (List.range oneProtected.listers.length).map Action.list ∧
    listerCalls (Scan oneProtected (fresh execParams)).2.trace =
      listerCalls (fresh execParams).trace ++ List.range oneProtected.listers.length ∧
    (Scan oneProtected (fresh execParams)).2.nuke = (fresh execParams).nuke ∧
    (oneProtected.listers = [] → (Scan oneProtected (fresh execParams)).1.1 = []) :=
  ⟨by decide, scan_concatenates oneProtected (fresh execParams) (by decide)⟩

/-! ## StartSession: what is returned and what is stored -/

/-- C18, the credential source. `session.New` of the SDK always returns a session.
Then every call of `StartSession` that returns, returns an error exactly when the
parameters carry neither a profile nor a key pair, and then the engine, its session
included, is as it was; with neither, the call returns that error whatever `Config`
is; and with `Config` set the call returns: when a profile is present the session is
built from the shared credentials of the profile and no error is returned, otherwise
when keys are present it is built from the static key pair and no error is returned.
The session holds one credential source, never both. -/
theorem StartSession_sources (sdk : Sdk) (n : Nuke R)
    (hnew : ∀ s, sdk.sessionNew s = true) :
    (∀ out, StartSession sdk n = some out →
      (out.2 ≠ none ↔
        (sdk.hasProfile n.Parameters = false ∧ sdk.hasKeys n.Parameters = false)) ∧
      (out.2 ≠ none → out.1 = n)) ∧
    (sdk.hasProfile n.Parameters = false → sdk.hasKeys n.Parameters = false →
      StartSession sdk n = some (n, some "You have to specify a profile or credentials.")) ∧
    (∀ config, n.Config = some config →
      (sdk.hasProfile n.Parameters = true →
        StartSession sdk n =
          some ({ n with session := some { Region := config.Region
                                           Credentials := Credentials.shared n.Parameters.Profile } },
            none)) ∧
      (sdk.hasProfile n.Parameters = false → sdk.hasKeys n.Parameters = true →
        StartSession sdk n =
          some ({ n with session := some { Region := config.Region
                                           Credentials :=
                                             Credentials.static n.Parameters.AccessKeyID
                                               n.Parameters.SecretAccessKey } },
            none))) := by
  refine ⟨?_, ?_, ?_⟩
  · intro out hout
    unfold StartSession at hout
    cases hp : sdk.hasProfile n.Parameters <;> cases hk : sdk.hasKeys n.Parameters <;>
      cases hc : n.Config <;> simp [hp, hk, hc, hnew] at hout <;> subst hout <;> simp
  · intro hp hk
    simp [StartSession, hp, hk]
  · intro config hc
    exact ⟨fun hp => by simp [StartSession, hc, hp, hnew],
      fun hp hk => by simp [StartSession, hc, hp, hk, hnew]⟩

/-- C18 with a profile and keys, with keys only, and with neither. -/
theorem StartSession_sources_witness :
    (∀ s, goodSdk.sessionNew s = true) ∧
    (configured bothParams).Config = some { Region := "eu-west-1" } ∧
    StartSession goodSdk (configured bothParams) =
      some ({ configured bothParams with
              session := some { Region := "eu-west-1", Credentials := Credentials.shared "dev" } },
        none) ∧
    StartSession goodSdk (configured keyParams) =
      some ({ configured keyParams with
              session := some { Region := "eu-west-1"
                                Credentials := Credentials.static "AKIA" "secret" } },
        none) ∧
    StartSession goodSdk (configured noParams) =
      some (configured noParams, some "You have to specify a profile or credentials.") ∧
    (StartSession goodSdk (configured noParams)).map (fun out => out.1.session) = some none :=
  ⟨fun _ => rfl, rfl,
    ((StartSession_sources goodSdk (configured bothParams) (fun _ => rfl)).2.2 _ rfl).1 rfl,
    ((StartSession_sources goodSdk (configured keyParams) (fun _ => rfl)).2.2 _ rfl).2 rfl rfl,
    (StartSession_sources goodSdk (configured noParams) (fun _ => rfl)).2.1 rfl rfl, rfl⟩

/-! ## A handle rejected by its filter stays apart -/

theorem stepMain_apart (env : Env R) (r : R) (B : List R) (w : WaitState R)
    (h : w.apart r B) : (stepMain env w).apart r B := by
  obtain ⟨st, rest, held, tasks⟩ := w
  obtain ⟨h1, h2, h3, h4, h5, h6⟩ := h
  cases rest with
  | nil => exact ⟨h1, h2, h3, h4, h5, h6⟩
  | cons x rest =>
    have hx : x ≠ r := fun e => h1 (by simp [e])
    have hrest : r ∉ rest := fun e => h1 (by simp [e])
    by_cases hw : env.hasWaiter x = true
    · simp only [stepMain, hw, if_true]
      refine ⟨hrest, h2, h3, h4, ?_, ?_⟩
      · intro t ht
        rcases List.mem_append.mp ht with ht | ht
        · exact h5 t ht
        · simp only [List.mem_singleton] at ht
          subst ht
          exact ⟨hx, fun _ _ hpc => by cases hpc⟩
      · obtain ⟨b, hb, hrb⟩ := h6
        exact ⟨b, by simpa [Log, waitCalls] using hb, hrb⟩
    · cases held with
      | none =>
        simp only [stepMain, hw]
        refine ⟨h1, h2, h3, ?_, h5, h6⟩
        intro snap hs
        simp only [Bool.false_eq_true, if_false, Option.some.injEq] at hs
        subst hs
        exact h3
      | some snap =>
        simp only [stepMain, hw]
        refine ⟨hrest, h2, ?_, by simp, h5, h6⟩
        have := h4 snap rfl
        simp only [Bool.false_eq_true, if_false, List.mem_append, List.mem_singleton, not_or]
        exact ⟨this, fun e => hx e.symm⟩

theorem stepTask_apart (env : Env R) (r : R) (B : List R) (k : Nat) (w : WaitState R)
    (h : w.apart r B) : (stepTask env k w).apart r B := by
  obtain ⟨h1, h2, h3, h4, h5, h6⟩ := h
  unfold stepTask
  cases hk : w.tasks[k]? with
  | none => exact ⟨h1, h2, h3, h4, h5, h6⟩
  | some t =>
    have htmem : t ∈ w.tasks := List.mem_iff_getElem?.mpr ⟨k, hk⟩
    obtain ⟨htr, htsnap⟩ := h5 t htmem
    obtain ⟨res, pc0⟩ := t
    have hset : ∀ (pc : TaskPc R), (∀ err snap, pc = TaskPc.loaded err snap → r ∉ snap) →
        ∀ u ∈ w.tasks.set k { resource := res, pc := pc },
          u.resource ≠ r ∧ ∀ err snap, u.pc = TaskPc.loaded err snap → r ∉ snap := by
      intro pc hpc u hu
      rcases List.mem_or_eq_of_mem_set hu with hu | hu
      · exact h5 u hu
      · subst hu
        exact ⟨htr, hpc⟩
    obtain ⟨b, hb, hrb⟩ := h6
    cases pc0 with
    | start =>
      refine ⟨h1, h2, h3, h4, hset _ (fun _ _ e => by cases e), ?_⟩
      refine ⟨b ++ [res], by simp [waitCalls, hb], ?_⟩
      simp only [List.mem_append, List.mem_singleton, not_or]
      exact ⟨hrb, fun e => htr e.symm⟩
    | returned err =>
      refine ⟨h1, h2, h3, h4, hset _ ?_, b, hb, hrb⟩
      intro err2 snap e
      cases err <;> simp only [TaskPc.loaded.injEq] at e <;> obtain ⟨_, e⟩ := e <;>
        subst e <;> assumption
    | loaded err snap =>
      have hsnap := htsnap err snap rfl
      have hnew : r ∉ snap ++ [res] := by
        simp only [List.mem_append, List.mem_singleton, not_or]
        exact ⟨hsnap, fun e => htr e.symm⟩
      cases err with
      | none => exact ⟨h1, h2, hnew, h4, hset _ (fun _ _ e => by cases e), b, hb, hrb⟩
      | some e => exact ⟨h1, hnew, h3, h4, hset _ (fun _ _ e => by cases e), b, hb, hrb⟩
    | stored err =>
      cases err with
      | none =>
        exact ⟨h1, h2, h3, h4, hset _ (fun _ _ e => by cases e), b,
          by simpa [Log, waitCalls] using hb, hrb⟩
      | some e =>
        exact ⟨h1, h2, h3, h4, hset _ (fun _ _ e => by cases e), b,
          by simpa [Log, waitCalls] using hb, hrb⟩
    | done => exact ⟨h1, h2, h3, h4, h5, b, hb, hrb⟩

theorem foldl_step_apart (env : Env R) (r : R) (B : List R) (sched : List Nat)
    (w : WaitState R) (h : w.apart r B) : (sched.foldl (step env) w).apart r B := by
  induction sched generalizing w with
  | nil => exact h
  | cons id sched ih =>
    simp only [List.foldl_cons]
    apply ih
    cases id with
    | zero => exact stepMain_apart env r B w h
    | succ k => exact stepTask_apart env r B k w h

theorem Wait_apart (env : Env R) (r : R) (A B : List R) (s : State R)
    (h : Apart r A B s) : Apart r A B (Wait env s) := by
  obtain ⟨h1, h2, h3, h4, h5, h6, h7⟩ := h
  obtain ⟨_, w2, w3, w4, _, _, w7, _⟩ := Wait_fixed env s
  cases hw : s.nuke.wait with
  | false =>
    rw [Wait_off env s hw]
    exact ⟨h1, h2, by simp, h4, h3, h6, h7⟩
  | true =>
    have hinit : (waitInit s).apart r B :=
      ⟨h3, h4, h5, fun snap e => by simp [waitInit] at e,
        fun t ht => by simp [waitInit] at ht, h7⟩
    obtain ⟨_, f2, f3, _, _, f6⟩ := foldl_step_apart env r B
      (env.schedule s.trace ++ drain s.nuke.waiting.length) (waitInit s) hinit
    refine ⟨by rw [w4]; exact h1, by rw [w2]; exact h2, by rw [w3]; simp, ?_, ?_, ?_, ?_⟩
    · rw [Wait_on env s hw]; exact f2
    · rw [Wait_on env s hw]; exact f3
    · rw [w7]; exact h6
    · rw [Wait_on env s hw]; exact f6

theorem HandleQueue_apart (env : Env R) (r : R) (A B : List R) (s : State R)
    (h : Apart r A B s) : Apart r A B (HandleQueue env s) := by
  obtain ⟨h1, h2, h3, h4, h5, ⟨a, ha, hra⟩, h7⟩ := h
  obtain ⟨_, f2, f3, _, _, f6, _, _⟩ := HandleQueue_frame env s
  cases hd : s.nuke.Parameters.NoDryRun with
  | false =>
    rw [HandleQueue_dry env s hd]
    refine ⟨by simp [h1], by simp, h3, h4, h5, ⟨a, ?_, hra⟩, ?_⟩
    · simp [removeCalls_map_log, ha]
    · obtain ⟨b, hb, hrb⟩ := h7
      exact ⟨b, by simp [waitCalls_map_log, hb], hrb⟩
  | true =>
    obtain ⟨e1, e2, ok, bad, e3, e4, e5, e6, _⟩ := HandleQueue_exec env s hd
    refine ⟨by rw [e1]; exact h1, by rw [f2]; simp, ?_, ?_, by rw [f3]; exact h5, ?_, ?_⟩
    · rw [e3]
      simp only [List.mem_append, not_or]
      exact ⟨h3, fun hm => h2 (e5.subset hm)⟩
    · rw [e4]
      simp only [List.mem_append, not_or]
      exact ⟨h4, fun hm => h2 (e6.subset hm)⟩
    · refine ⟨a ++ s.nuke.queue, by rw [e2, ha, List.append_assoc], ?_⟩
      simp only [List.mem_append, not_or]
      exact ⟨hra, h2⟩
    · rw [f6]; exact h7

theorem Retry_apart (env : Env R) (r : R) (A B : List R) (s : State R)
    (h : Apart r A B s) : Apart r A B (Retry env (printRetrying s)) := by
  unfold Retry
  apply Wait_apart
  apply HandleQueue_apart
  obtain ⟨h1, h2, h3, h4, h5, ⟨a, ha, hra⟩, ⟨b, hb, hrb⟩⟩ := h
  exact ⟨h1, h4, h3, by simp [requeue], h5,
    ⟨a, by simpa [requeue, printRetrying, removeCalls] using ha, hra⟩,
    ⟨b, by simpa [requeue, printRetrying, waitCalls] using hb, hrb⟩⟩

theorem retryPasses_apart (env : Env R) (r : R) (A B : List R) (k : Nat) (s : State R)
    (h : Apart r A B s) : Apart r A B (retryPasses env k s) := by
  induction k generalizing s with
  | zero => exact h
  | succ k ih => exact ih _ (Retry_apart env r A B s h)

theorem scanLoop_trace (ls : List (List R × Option String)) (i : Nat) (acc : List R)
    (tr : List (Action R)) :
    ∃ l : List Nat, (scanLoop ls i acc tr).2 = tr ++ l.map Action.list := by
  induction ls generalizing i acc tr with
  | nil => exact ⟨[], by simp [scanLoop]⟩
  | cons x ls ih =>
    unfold scanLoop
    cases h2 : x.2 with
    | some e => exact ⟨[i], by simp⟩
    | none =>
      obtain ⟨l, hl⟩ := ih (i + 1) (acc ++ x.1) (tr ++ [Action.list i])
      exact ⟨i :: l, by simp [hl]⟩

theorem afterScan_calls (env : Env R) (s : State R) :
    removeCalls (afterScan env s).trace = removeCalls s.trace ∧
    waitCalls (afterScan env s).trace = waitCalls s.trace ∧
    rejectedBy (afterScan env s).trace = rejectedBy s.trace ∧
    events (afterScan env s).trace = events s.trace := by
  obtain ⟨l, hl⟩ := scanLoop_trace env.listers 0 [] s.trace
  have : (afterScan env s).trace = s.trace ++ l.map Action.list := hl
  rw [this]
  simp [removeCalls_map_list, waitCalls_map_list, rejectedBy_map_list, events_map_list]

theorem printComplete_apart (r : R) (A B : List R) (s : State R) (h : Apart r A B s) :
    Apart r A B (printComplete s) := by
  obtain ⟨h1, h2, h3, h4, h5, ⟨a, ha, hra⟩, ⟨b, hb, hrb⟩⟩ := h
  exact ⟨h1, h2, h3, h4, h5, ⟨a, by simpa [printComplete, removeCalls] using ha, hra⟩,
    ⟨b, by simpa [printComplete, waitCalls] using hb, hrb⟩⟩

/-- C16, filter rejection is terminal: in a run over pairwise distinct scanned
handles, started with empty buckets, a handle `r` whose `Filter` returned an error
during `FilterQueue` is in skipped after `FilterQueue` and, after `HandleQueue`,
after the first pass, after any number of retry passes and when `Run` returns, it is
still in skipped, it is in none of queue, waiting, failed and finished, and neither
`Remove` nor `Wait` has been invoked on it during the run. -/
theorem filter_rejection_terminal (env : Env R) (s : State R) (r : R)
    (hscan : (Scan env s).1.2 = none) (hnodup : (Scan env s).1.1.Nodup)
    (hfresh : s.nuke.waiting = [] ∧ s.nuke.skipped = [] ∧ s.nuke.failed = [] ∧
      s.nuke.finished = [])
    (hrej : ∃ rejected, rejectedBy (FilterQueue env (afterScan env s)).trace =
        rejectedBy s.trace ++ rejected ∧ r ∈ rejected) :
    r ∈ (FilterQueue env (afterScan env s)).nuke.skipped ∧
    Apart r (removeCalls s.trace) (waitCalls s.trace) (FilterQueue env (afterScan env s)) ∧
    Apart r (removeCalls s.trace) (waitCalls s.trace)
      (HandleQueue env (FilterQueue env (afterScan env s))) ∧
    (∀ k, Apart r (removeCalls s.trace) (waitCalls s.trace)
      (retryPasses env k (firstPass env (afterScan env s)))) ∧
    (∀ fuel final err, Run env fuel s = some (final, err) →
      Apart r (removeCalls s.trace) (waitCalls s.trace) final) := by
  obtain ⟨hw, hs, hf, hfin⟩ := hfresh
  obtain ⟨c1, c2, c3, _⟩ := afterScan_calls env s
  obtain ⟨_, f2, f3, f4, f5, f6, _, _⟩ := FilterQueue_frame env (afterScan env s)
  obtain ⟨kept, rejected, evs, g1, g2, _, _, g5, _, _, _, g9⟩ :=
    FilterQueue_split env (afterScan env s)
  have ha_nuke : (afterScan env s).nuke = { s.nuke with queue := (Scan env s).1.1 } := rfl
  rw [ha_nuke] at f2 f3 f4 g2 g5
  simp only [hw, hs, hf, hfin, List.nil_append] at f2 f3 f4 g2 g5
  have hrrej : r ∈ rejected := by
    obtain ⟨rej, h1, h2⟩ := hrej
    rw [g9, c3] at h1
    rw [List.append_cancel_left h1]
    exact h2
  have hrej : r ∈ (FilterQueue env (afterScan env s)).nuke.skipped := by rw [g2]; exact hrrej
  have hnd : (rejected ++ kept).Nodup := g5.nodup_iff.mpr hnodup
  have hkept : r ∉ kept := fun hk => (List.nodup_append.mp hnd).2.2 hrrej hk
  have hF : Apart r (removeCalls s.trace) (waitCalls s.trace)
      (FilterQueue env (afterScan env s)) :=
    ⟨hrej, by rw [g1]; exact hkept, by rw [f2]; simp, by rw [f3]; simp, by rw [f4]; simp,
      ⟨[], by rw [f5, c1]; simp, by simp⟩, ⟨[], by rw [f6, c2]; simp, by simp⟩⟩
  have hH := HandleQueue_apart env r _ _ _ hF
  have hP : Apart r (removeCalls s.trace) (waitCalls s.trace)
      (firstPass env (afterScan env s)) := Wait_apart env r _ _ _ hH
  refine ⟨hrej, hF, hH,
    fun k => retryPasses_apart env r _ _ k _ hP, ?_⟩
  intro fuel final err hrun
  rw [Run_scan_ok env fuel s hscan] at hrun
  by_cases hr : (firstPass env (afterScan env s)).nuke.retry = true
  · simp only [hr, if_true, Option.map_eq_some'] at hrun
    obtain ⟨s3, hloop, heq⟩ := hrun
    obtain ⟨k, _, hk, _⟩ := retryLoop_some env fuel _ _ hloop
    have : final = printComplete s3 := (Prod.mk.inj heq).1.symm
    rw [this, hk]
    exact printComplete_apart r _ _ _ (retryPasses_apart env r _ _ k _ hP)
  · simp only [hr, Bool.false_eq_true, if_false, Option.map_some', Option.some.injEq] at hrun
    have : final = printComplete (firstPass env (afterScan env s)) := (Prod.mk.inj hrun).1.symm
    rw [this]
    exact printComplete_apart r _ _ _ hP

/-- C16 at a run in which handle 2 is rejected and handle 3 is retried. -/
theorem filter_rejection_terminal_witness :
    (Scan oneProtected (fresh execParams)).1.2 = none ∧
    (Scan oneProtected (fresh execParams)).1.1.Nodup ∧
    rejectedBy (FilterQueue oneProtected (afterScan oneProtected (fresh execParams))).trace =
      rejectedBy (fresh execParams).trace ++ [2] ∧
    (∃ final, Run oneProtected 1 (fresh execParams) = some (final, none) ∧
      Apart 2 (removeCalls (fresh execParams).trace) (waitCalls (fresh execParams).trace)
        final) :=
  ⟨rfl, by decide, rfl, _, rfl,
    (filter_rejection_terminal oneProtected (fresh execParams) 2 rfl (by decide)
      ⟨rfl, rfl, rfl, rfl⟩ ⟨[2], rfl, by decide⟩).2.2.2.2 1 _ none rfl⟩

/-! ## Two more departures of the code from the claims -/

/-- C14 fails on the code in its first part. With wait on, handle 1 of waiting has no
`Waiter`; the loop appends it to finished (finished is `[1]` after the steps
0, 1, 1, 0, 0) while the goroutine of handle 2 stands between reading finished and
writing it; the goroutine then writes `[2]`, and `Wait` returns with 1 not in
finished. No `Wait()` was invoked on 1, no goroutine was started for it and it is
not in failed. -/
theorem plain_handle_overwritten :
    waitingWaiterFirst.nuke.wait = true ∧
    waiterThenPlain.hasWaiter 1 = false ∧
    1 ∈ waitingWaiterFirst.nuke.waiting ∧
    ([0, 1, 1, 0, 0].foldl (step waiterThenPlain) (waitInit waitingWaiterFirst)).st.nuke.finished =
      [1] ∧
    ([0, 1, 1, 0, 0].foldl (step waiterThenPlain) (waitInit waitingWaiterFirst)).tasks =
      [{ resource := 2, pc := TaskPc.loaded none [] }] ∧
    (Wait waiterThenPlain waitingWaiterFirst).nuke.finished = [2] ∧
    1 ∉ (Wait waiterThenPlain waitingWaiterFirst).nuke.finished ∧
    (Wait waiterThenPlain waitingWaiterFirst).nuke.failed = [] ∧
    waitCalls (Wait waiterThenPlain waitingWaiterFirst).trace = [2] ∧
    (∃ final, Run waiterThenPlain 0 (fresh execParams) = some (final, none) ∧
      final.nuke.all = [2]) :=
  ⟨rfl, rfl, by decide, rfl, rfl, rfl, by decide, rfl, rfl, ⟨_, rfl, rfl⟩⟩

/-- C20 fails on the code in its second part. From pass 2 on every `Remove` and every
`Wait` return no error; handles 1 and 2 both pass filtering; `Run` makes one pass of
`Retry` and returns with failed empty, but the two goroutines of that pass both read
finished before either writes it and finished holds 2 only. -/
theorem transient_failures_lose_handle :
    (∀ tr r, 2 ≤ retries tr + 1 → transientRemove.callRemove tr r = none) ∧
    (∀ tr r, 2 ≤ retries tr + 1 → transientRemove.callWait tr r = none) ∧
    (fresh execParams).nuke.retry = true ∧ (fresh execParams).nuke.wait = true ∧
    (fresh execParams).nuke.Parameters.NoDryRun = true ∧
    (FilterQueue transientRemove (afterScan transientRemove (fresh execParams))).nuke.queue =
      [1, 2] ∧
    (firstPass transientRemove (afterScan transientRemove (fresh execParams))).nuke.failed =
      [1, 2] ∧
    removeCalls (firstPass transientRemove (afterScan transientRemove (fresh execParams))).trace =
      [1, 2] ∧
    (∃ final, Run transientRemove 1 (fresh execParams) = some (final, none) ∧
      final = printComplete (retryPasses transientRemove 1
        (firstPass transientRemove (afterScan transientRemove (fresh execParams)))) ∧
      retries final.trace = 1 ∧
      removeCalls final.trace = [1, 2, 1, 2] ∧
      waitCalls final.trace = [1, 2] ∧
      final.nuke.failed = [] ∧ final.nuke.finished = [2] ∧ 1 ∉ final.nuke.finished) :=
  ⟨fun tr r h => by simp [transientRemove]; omega, fun _ _ _ => rfl, rfl, rfl, rfl, rfl, rfl, rfl,
    ⟨_, rfl, rfl, rfl, rfl, rfl, rfl, rfl, by decide⟩⟩

/-! ## Wait: what holds for a handle without the `Waiter` capability -/

theorem step_unwaited (env : Env R) (r : R) (B : List R) (hr : env.hasWaiter r = false)
    (id : Nat) (w : WaitState R) (h : w.unwaited r B) : (step env w id).unwaited r B := by
  obtain ⟨h2, h5, h6⟩ := h
  cases id with
  | zero =>
    obtain ⟨st, rest, held, tasks⟩ := w
    cases rest with
    | nil => exact ⟨h2, h5, h6⟩
    | cons x rest =>
      by_cases hw : env.hasWaiter x = true
      · have hx : x ≠ r := fun e => by rw [e, hr] at hw; cases hw
        simp only [step, stepMain, hw, if_true]
        refine ⟨h2, ?_, ?_⟩
        · intro t ht
          rcases List.mem_append.mp ht with ht | ht
          · exact h5 t ht
          · simp only [List.mem_singleton] at ht
            subst ht
            exact ⟨hx, fun _ _ hpc => by cases hpc⟩
        · obtain ⟨b, hb, hrb⟩ := h6
          exact ⟨b, by simpa [Log, waitCalls] using hb, hrb⟩
      · cases held with
        | none =>
          simp only [step, stepMain, hw]
          exact ⟨h2, h5, h6⟩
        | some snap =>
          simp only [step, stepMain, hw]
          exact ⟨h2, h5, h6⟩
  | succ k =>
    simp only [step]
    unfold stepTask
    cases hk : w.tasks[k]? with
    | none => exact ⟨h2, h5, h6⟩
    | some t =>
      have htmem : t ∈ w.tasks := List.mem_iff_getElem?.mpr ⟨k, hk⟩
      obtain ⟨htr, htsnap⟩ := h5 t htmem
      obtain ⟨res, pc0⟩ := t
      have hset : ∀ (pc : TaskPc R), (∀ e snap, pc = TaskPc.loaded (some e) snap → r ∉ snap) →
          ∀ u ∈ w.tasks.set k { resource := res, pc := pc },
            u.resource ≠ r ∧ ∀ e snap, u.pc = TaskPc.loaded (some e) snap → r ∉ snap := by
        intro pc hpc u hu
        rcases List.mem_or_eq_of_mem_set hu with hu | hu
        · exact h5 u hu
        · subst hu
          exact ⟨htr, hpc⟩
      obtain ⟨b, hb, hrb⟩ := h6
      cases pc0 with
      | start =>
        refine ⟨h2, hset _ (fun _ _ e => by cases e), ?_⟩
        refine ⟨b ++ [res], by simp [waitCalls, hb], ?_⟩
        simp only [List.mem_append, List.mem_singleton, not_or]
        exact ⟨hrb, fun e => htr e.symm⟩
      | returned err =>
        refine ⟨h2, hset _ ?_, b, hb, hrb⟩
        intro e2 snap e
        cases err <;> simp only [TaskPc.loaded.injEq] at e
        · exact absurd e.1 (by simp)
        · obtain ⟨_, e⟩ := e
          subst e
          exact h2
      | loaded err snap =>
        cases err with
        | none => exact ⟨h2, hset _ (fun _ _ e => by cases e), b, hb, hrb⟩
        | some e =>
          have hsnap := htsnap e snap rfl
          have hnew : r ∉ snap ++ [res] := by
            simp only [List.mem_append, List.mem_singleton, not_or]
            exact ⟨hsnap, fun e => htr e.symm⟩
          exact ⟨hnew, hset _ (fun _ _ e => by cases e), b, hb, hrb⟩
      | stored err =>
        cases err with
        | none =>
          exact ⟨h2, hset _ (fun _ _ e => by cases e), b,
            by simpa [Log, waitCalls] using hb, hrb⟩
        | some e =>
          exact ⟨h2, hset _ (fun _ _ e => by cases e), b,
            by simpa [Log, waitCalls] using hb, hrb⟩
      | done => exact ⟨h2, h5, b, hb, hrb⟩

theorem foldl_step_unwaited (env : Env R) (r : R) (B : List R) (hr : env.hasWaiter r = false)
    (sched : List Nat) (w : WaitState R) (h : w.unwaited r B) :
    (sched.foldl (step env) w).unwaited r B := by
  induction sched generalizing w with
  | nil => exact h
  | cons id sched ih =>
    simp only [List.foldl_cons]
    exact ih _ (step_unwaited env r B hr id w h)

/-- With wait on and under every interleaving, a handle without the `Waiter`
capability gets no goroutine and no `Wait()` call in the stage, and the stage does
not put it into failed. -/
theorem Wait_plain_handle (env : Env R) (s : State R) (r : R) (hw : s.nuke.wait = true)
    (hr : env.hasWaiter r = false) (hf : r ∉ s.nuke.failed) :
    r ∉ (Wait env s).nuke.failed ∧
    (∃ b, waitCalls (Wait env s).trace = waitCalls s.trace ++ b ∧ r ∉ b) ∧
    ∀ (sched : List Nat), ∀ t ∈ (sched.foldl (step env) (waitInit s)).tasks, t.resource ≠ r := by
  have hinit : (waitInit s).unwaited r (waitCalls s.trace) :=
    ⟨hf, fun t ht => by simp [waitInit] at ht, [], by simp [waitInit], by simp⟩
  obtain ⟨f1, _, f3⟩ := foldl_step_unwaited env r (waitCalls s.trace) hr
    (env.schedule s.trace ++ drain s.nuke.waiting.length) (waitInit s) hinit
  refine ⟨?_, ?_, ?_⟩
  · rw [Wait_on env s hw]; exact f1
  · rw [Wait_on env s hw]; exact f3
  · intro sched t ht
    exact ((foldl_step_unwaited env r (waitCalls s.trace) hr sched (waitInit s) hinit).2.1 t ht).1

theorem step_plain (env : Env R) (s : State R) (hs : ∀ r ∈ s.nuke.waiting, env.hasWaiter r = false)
    (id : Nat) (w : WaitState R) (h : w.plain s) : (step env w id).plain s := by
  obtain ⟨st, rest, held, tasks⟩ := w
  obtain ⟨h1, h2, passed, h3, h4⟩ := h
  simp only at h1 h2 h3 h4
  subst h1
  cases id with
  | zero =>
    cases rest with
    | nil => exact ⟨rfl, h2, passed, h3, h4⟩
    | cons x rest =>
      have hx : env.hasWaiter x = false := hs x (by rw [← h3]; simp)
      cases held with
      | none =>
        simp only [step, stepMain, hx]
        exact ⟨rfl, Or.inr rfl, passed, h3, h4⟩
      | some snap =>
        simp only [step, stepMain, hx]
        rcases h2 with h2 | h2
        · cases h2
        · simp only [Option.some.injEq] at h2
          subst h2
          refine ⟨rfl, Or.inl rfl, passed ++ [x], by simpa using h3, ?_⟩
          subst h4
          simp
  | succ k => exact ⟨rfl, h2, passed, h3, h4⟩

/-- With wait on and no handle of waiting having the `Waiter` capability, `Wait`
appends waiting to finished in order and does nothing else, under every schedule. -/
theorem Wait_plain_only (env : Env R) (s : State R) (hw : s.nuke.wait = true)
    (hs : ∀ r ∈ s.nuke.waiting, env.hasWaiter r = false) :
    Wait env s = { s with nuke := { s.nuke with
      waiting := [], finished := s.nuke.finished ++ s.nuke.waiting } } := by
  have hinit : (waitInit s).plain s := ⟨rfl, Or.inl rfl, [], rfl, by simp [waitInit]⟩
  have hall : ∀ (sched : List Nat) (w : WaitState R), w.plain s →
      (sched.foldl (step env) w).plain s := by
    intro sched
    induction sched with
    | nil => exact fun w h => h
    | cons id sched ih => exact fun w h => ih _ (step_plain env s hs id w h)
  obtain ⟨_, _, passed, h3, h4⟩ :=
    hall (env.schedule s.trace ++ drain s.nuke.waiting.length) (waitInit s) hinit
  have hrest := (Wait_complete env (env.schedule s.trace) s).1
  rw [hrest, List.append_nil] at h3
  rw [Wait_on env s hw, h4, h3]

/-! ## The builtin `append` on slices -/

theorem Heap.read_congr (h k : Heap R) (a b : Slice) (hl : b.len = a.len)
    (hc : ∀ j, j < a.len → k.cell b.arr j = h.cell a.arr j) : k.read b = h.read a := by
  unfold Heap.read
  rw [hl]
  apply List.map_congr_left
  intro j hj
  exact hc j (List.mem_range.mp hj)

theorem Heap.read_empty (h : Heap R) (a : Slice) (hl : a.len = 0) : h.read a = [] := by
  simp [Heap.read, hl]

/-- What `append` does to the header and to the allocation counter. -/
theorem appendS_shape (grow : Nat → Nat) (h : Heap R) (a : Slice) (x : R) :
    (a.len < a.cap ∧ (appendS grow h a x).2 = { a with len := a.len + 1 } ∧
      (appendS grow h a x).1.next = h.next) ∨
    (a.cap ≤ a.len ∧ (appendS grow h a x).2.arr = h.next ∧
      (appendS grow h a x).2.len = a.len + 1 ∧
      (appendS grow h a x).2.len ≤ (appendS grow h a x).2.cap ∧
      (appendS grow h a x).1.next = h.next + 1) := by
  unfold appendS
  by_cases hc : a.len < a.cap
  · left
    simp [hc]
  · right
    simp only [hc, if_false]
    refine ⟨by omega, ?_⟩
    simp

/-- The cells `append` leaves alone. -/
theorem appendS_cell (grow : Nat → Nat) (h : Heap R) (a : Slice) (x : R) (c j : Nat)
    (hc : c < h.next) (hj : c ≠ a.arr ∨ j ≠ a.len ∨ a.cap ≤ a.len) :
    (appendS grow h a x).1.cell c j = h.cell c j := by
  unfold appendS
  by_cases hcap : a.len < a.cap
  · simp only [hcap, if_true]
    have : ¬ (c = a.arr ∧ j = a.len) := by
      rintro ⟨e1, e2⟩
      rcases hj with hj | hj | hj
      · exact hj e1
      · exact hj e2
      · omega
    simp [this]
  · simp only [hcap, if_false]
    have : c ≠ h.next := by omega
    simp [this]

theorem appendS_read_self (grow : Nat → Nat) (h : Heap R) (a : Slice) (x : R) :
    (appendS grow h a x).1.read (appendS grow h a x).2 = h.read a ++ [x] := by
  unfold appendS
  by_cases hcap : a.len < a.cap
  · simp only [hcap, if_true, Heap.read, List.range_succ, List.map_append, List.map_cons,
      List.map_nil, and_self, if_true]
    congr 1
    apply List.map_congr_left
    intro j hj
    have : j ≠ a.len := by have := List.mem_range.mp hj; omega
    simp [this]
  · simp only [hcap, if_false, Heap.read, List.range_succ, List.map_append, List.map_cons,
      List.map_nil, if_true, lt_irrefl]
    congr 1
    apply List.map_congr_left
    intro j hj
    have : j < a.len := List.mem_range.mp hj
    simp [this]

theorem appendS_read_other (grow : Nat → Nat) (h : Heap R) (a b : Slice) (x : R)
    (hb : b.len = 0 ∨ (b.arr < h.next ∧ (b.arr ≠ a.arr ∨ b.len ≤ a.len ∨ a.cap ≤ a.len))) :
    (appendS grow h a x).1.read b = h.read b := by
  rcases hb with hb | ⟨hb, hd⟩
  · rw [Heap.read_empty _ _ hb, Heap.read_empty _ _ hb]
  · apply Heap.read_congr _ _ _ _ rfl
    intro j hj
    apply appendS_cell grow h a x _ _ hb
    rcases hd with hd | hd | hd
    · exact Or.inl hd
    · exact Or.inr (Or.inl (by omega))
    · exact Or.inr (Or.inr hd)

theorem appendS_sep (grow : Nat → Nat) (h : Heap R) (a b : Slice) (x : R)
    (hb : b.arr < h.next) (hs : a.sep b) : ((appendS grow h a x).2).sep b := by
  rcases appendS_shape grow h a x with ⟨h1, h2, _⟩ | ⟨_, h2, _⟩
  · rw [h2]
    rcases hs with hs | hs | hs
    · exact Or.inl hs
    · omega
    · exact Or.inr (Or.inr hs)
  · left
    rw [h2]
    omega

theorem Slice.sep_symm (a b : Slice) (h : a.sep b) : b.sep a := by
  rcases h with h | h | h
  · exact Or.inl (fun e => h e.symm)
  · exact Or.inr (Or.inr h)
  · exact Or.inr (Or.inl h)

/-! ## Assignment to a bucket -/

theorem NukeS.get_set (n : NukeS) (b c : Bucket) (a : Slice) :
    (n.set b a).get c = if c = b then a else n.get c := by
  cases b <;> cases c <;> simp [NukeS.set, NukeS.get]

theorem NukeS.set_settings (n : NukeS) (b : Bucket) (a : Slice) :
    (n.set b a).Parameters = n.Parameters ∧ (n.set b a).Config = n.Config ∧
    (n.set b a).session = n.session ∧ (n.set b a).retry = n.retry ∧
    (n.set b a).wait = n.wait := by
  cases b <;> simp [NukeS.set]

/-! ## Appending to a bucket -/

theorem StateS.push_get (grow : Nat → Nat) (b c : Bucket) (x : R) (s : StateS R) :
    (s.push grow b x).nuke.get c =
      if c = b then (appendS grow s.heap (s.nuke.get b) x).2 else s.nuke.get c := by
  simp [StateS.push, NukeS.get_set]

theorem StateS.push_next (grow : Nat → Nat) (b : Bucket) (x : R) (s : StateS R) :
    s.heap.next ≤ (s.push grow b x).heap.next := by
  simp only [StateS.push]
  rcases appendS_shape grow s.heap (s.nuke.get b) x with ⟨_, _, h⟩ | ⟨_, _, _, _, h⟩ <;> omega

/-- An append to a live bucket keeps the invariant, shows the new element at the end
of that bucket and leaves what every other bucket shows as it was. -/
theorem StateS.push_spec (grow : Nat → Nat) (live : Bucket → Prop) (b : Bucket) (x : R)
    (s : StateS R) (hinv : s.inv live) (hb : live b) :
    (s.push grow b x).inv live ∧
    ∀ c, (s.push grow b x).heap.read ((s.push grow b x).nuke.get c) =
      if c = b then s.heap.read (s.nuke.get b) ++ [x] else s.heap.read (s.nuke.get c) := by
  obtain ⟨⟨hwf, hsep⟩, hdead⟩ := hinv
  have hnext := StateS.push_next grow b x s
  have hshape := appendS_shape grow s.heap (s.nuke.get b) x
  refine ⟨⟨⟨?_, ?_⟩, ?_⟩, ?_⟩
  · intro c hc
    rw [StateS.push_get]
    by_cases e : c = b
    · subst e
      simp only [if_true]
      obtain ⟨w1, w2⟩ := hwf c hc
      rcases hshape with ⟨h1, h2, h3⟩ | ⟨h1, h2, h3, h4, h5⟩
      · simp only [StateS.push, h3, h2]
        exact ⟨by show _ + 1 ≤ _; omega, w2⟩
      · simp only [StateS.push, h5, h2]
        exact ⟨h4, by omega⟩
    · simp only [e, if_false]
      obtain ⟨w1, w2⟩ := hwf c hc
      exact ⟨w1, by omega⟩
  · intro c d hc hd hcd
    rw [StateS.push_get, StateS.push_get]
    by_cases e : c = b
    · subst e
      have hd2 : d ≠ c := fun e => hcd e.symm
      simp only [if_true, hd2, if_false]
      exact appendS_sep grow s.heap _ _ x (hwf d hd).2 (hsep c d hc hd hcd)
    · by_cases e2 : d = b
      · subst e2
        simp only [e, if_false, if_true]
        exact Slice.sep_symm _ _
          (appendS_sep grow s.heap _ _ x (hwf c hc).2 (hsep d c hd hc (fun e => hcd e.symm)))
      · simp only [e, e2, if_false]
        exact hsep c d hc hd hcd
  · intro c hc
    have e : c ≠ b := fun e => hc (e ▸ hb)
    rw [StateS.push_get]
    simp only [e, if_false]
    exact hdead c hc
  · intro c
    rw [StateS.push_get]
    by_cases e : c = b
    · subst e
      simp only [if_true, StateS.push]
      exact appendS_read_self grow s.heap _ x
    · simp only [e, if_false, StateS.push]
      apply appendS_read_other
      by_cases hc : live c
      · right
        obtain ⟨w1, w2⟩ := hwf c hc
        refine ⟨w2, ?_⟩
        rcases hsep c b hc hb e with h | h | h
        · exact Or.inl h
        · exact Or.inr (Or.inl (by omega))
        · exact Or.inr (Or.inr (by omega))
      · exact Or.inl (hdead c hc)

/-- An append to a live bucket in iteration `i` leaves the elements of `temp` behind
index `i` as they were. -/
theorem StateS.push_ahead (grow : Nat → Nat) (live : Bucket → Prop) (b : Bucket) (x : R)
    (s : StateS R) (temp : Slice) (h0 : Heap R) (i : Nat) (hb : live b)
    (ha : s.ahead live temp h0 i) : (s.push grow b x).ahead live temp h0 (i + 1) := by
  obtain ⟨ht, hg, hcell⟩ := ha
  have hnext := StateS.push_next grow b x s
  have hshape := appendS_shape grow s.heap (s.nuke.get b) x
  refine ⟨by omega, ?_, ?_⟩
  · intro c hc
    rw [StateS.push_get]
    by_cases e : c = b
    · subst e
      simp only [if_true]
      rcases hshape with ⟨h1, h2, h3⟩ | ⟨h1, h2, h3, h4, h5⟩
      · rw [h2]
        rcases hg c hc with h | h | h | h
        · exact Or.inl h
        · exact Or.inr (Or.inl (by simp; omega))
        · omega
        · exact Or.inr (Or.inr (Or.inr (by omega)))
      · left
        rw [h2]
        omega
    · simp only [e, if_false]
      rcases hg c hc with h | h | h | h
      · exact Or.inl h
      · exact Or.inr (Or.inl (by omega))
      · exact Or.inr (Or.inr (Or.inl h))
      · exact Or.inr (Or.inr (Or.inr (by omega)))
  · intro j h1 h2
    rw [← hcell j (by omega) h2]
    simp only [StateS.push]
    apply appendS_cell grow s.heap _ x _ _ ht
    rcases hg b hb with h | h | h | h
    · exact Or.inl (fun e => h e.symm)
    · exact Or.inr (Or.inl (by omega))
    · exact Or.inr (Or.inr h)
    · omega

/-- The lists shown after an append to a live bucket. -/
theorem StateS.abs_push (grow : Nat → Nat) (live : Bucket → Prop) (b : Bucket) (x : R)
    (s : StateS R) (hinv : s.inv live) (hb : live b) :
    (s.push grow b x).abs =
      match b with
      | Bucket.queue => { s.abs with nuke := { s.abs.nuke with queue := s.abs.nuke.queue ++ [x] } }
      | Bucket.waiting =>
        { s.abs with nuke := { s.abs.nuke with waiting := s.abs.nuke.waiting ++ [x] } }
      | Bucket.skipped =>
        { s.abs with nuke := { s.abs.nuke with skipped := s.abs.nuke.skipped ++ [x] } }
      | Bucket.failed => { s.abs with nuke := { s.abs.nuke with failed := s.abs.nuke.failed ++ [x] } }
      | Bucket.finished =>
        { s.abs with nuke := { s.abs.nuke with finished := s.abs.nuke.finished ++ [x] } } := by
  obtain ⟨_, hread⟩ := StateS.push_spec grow live b x s hinv hb
  have hq := hread Bucket.queue
  have hw := hread Bucket.waiting
  have hs := hread Bucket.skipped
  have hf := hread Bucket.failed
  have hn := hread Bucket.finished
  cases b <;> simp [NukeS.get] at hq hw hs hf hn <;>
    simp only [StateS.abs, hq, hw, hs, hf, hn] <;> simp [StateS.push, NukeS.set]

/-! ## The loops over slices against the loops over lists -/

theorem StateS.abs_trace (s : StateS R) (t : List (Action R)) :
    ({ s with trace := t } : StateS R).abs = { s.abs with trace := t } := rfl

theorem filterStepS_spec (grow : Nat → Nat) (env : Env R) (live : Bucket → Prop)
    (hq : live Bucket.queue) (hs : live Bucket.skipped) (temp : Slice) (h0 : Heap R) (i : Nat)
    (s : StateS R) (x : R) (hinv : s.inv live) (ha : s.ahead live temp h0 i) :
    (filterStepS grow env s x).abs = filterStep env s.abs x ∧
    (filterStepS grow env s x).inv live ∧
    (filterStepS grow env s x).ahead live temp h0 (i + 1) := by
  unfold filterStepS filterStep
  by_cases hf : env.hasFilter x = true
  · simp only [hf, if_true]
    have htr : s.abs.trace = s.trace := rfl
    rw [htr]
    cases env.callFilter s.trace x with
    | none =>
      have h1 : ({ s with trace := s.trace ++ [Action.filter x none] } : StateS R).inv live := hinv
      have a1 : ({ s with trace := s.trace ++ [Action.filter x none] } : StateS R).ahead
        live temp h0 i := ha
      refine ⟨?_, (StateS.push_spec grow live _ x _ h1 hq).1,
        StateS.push_ahead grow live _ x _ temp h0 i hq a1⟩
      rw [StateS.abs_push grow live _ x _ h1 hq]
      rfl
    | some e =>
      have h1 : (LogS x Reason.ReasonSkip e
        ({ s with trace := s.trace ++ [Action.filter x (some e)] } : StateS R)).inv live := hinv
      have a1 : (LogS x Reason.ReasonSkip e
        ({ s with trace := s.trace ++ [Action.filter x (some e)] } : StateS R)).ahead
        live temp h0 i := ha
      refine ⟨?_, (StateS.push_spec grow live _ x _ h1 hs).1,
        StateS.push_ahead grow live _ x _ temp h0 i hs a1⟩
      rw [StateS.abs_push grow live _ x _ h1 hs]
      rfl
  · simp only [hf, if_false, Bool.false_eq_true]
    refine ⟨?_, (StateS.push_spec grow live _ x _ hinv hq).1,
      StateS.push_ahead grow live _ x _ temp h0 i hq ha⟩
    rw [StateS.abs_push grow live _ x _ hinv hq]

theorem handleStepS_spec (grow : Nat → Nat) (env : Env R) (live : Bucket → Prop)
    (hw : live Bucket.waiting) (hs : live Bucket.skipped) (hf : live Bucket.failed)
    (temp : Slice) (h0 : Heap R) (i : Nat)
    (s : StateS R) (x : R) (hinv : s.inv live) (ha : s.ahead live temp h0 i) :
    (handleStepS grow env s x).abs = handleStep env s.abs x ∧
    (handleStepS grow env s x).inv live ∧
    (handleStepS grow env s x).ahead live temp h0 (i + 1) := by
  unfold handleStepS handleStep
  have hp : s.abs.nuke.Parameters = s.nuke.Parameters := rfl
  rw [hp]
  by_cases hd : s.nuke.Parameters.NoDryRun = true
  · simp only [hd, Bool.not_true, Bool.false_eq_true, if_false]
    have htr : s.abs.trace = s.trace := rfl
    rw [htr]
    cases env.callRemove s.trace x with
    | none =>
      have h1 : ({ s with trace := s.trace ++ [Action.remove x none] } : StateS R).inv live := hinv
      have a1 : ({ s with trace := s.trace ++ [Action.remove x none] } : StateS R).ahead
        live temp h0 i := ha
      refine ⟨?_, (StateS.push_spec grow live _ x _ h1 hw).1,
        StateS.push_ahead grow live _ x _ temp h0 i hw a1⟩
      show (LogS _ _ _ _).abs = _
      have := StateS.abs_push grow live _ x _ h1 hw
      simp only [LogS, StateS.abs_trace, this]
      rfl
    | some e =>
      have h1 : ({ s with trace := s.trace ++ [Action.remove x (some e)] } : StateS R).inv live :=
        hinv
      have a1 : ({ s with trace := s.trace ++ [Action.remove x (some e)] } : StateS R).ahead
        live temp h0 i := ha
      refine ⟨?_, (StateS.push_spec grow live _ x _ h1 hf).1,
        StateS.push_ahead grow live _ x _ temp h0 i hf a1⟩
      show (LogS _ _ _ _).abs = _
      have := StateS.abs_push grow live _ x _ h1 hf
      simp only [LogS, StateS.abs_trace, this]
      rfl
  · simp only [hd, Bool.not_false, if_true]
    refine ⟨?_, (StateS.push_spec grow live _ x _ hinv hs).1,
      StateS.push_ahead grow live _ x _ temp h0 i hs ha⟩
    show (LogS _ _ _ _).abs = _
    have := StateS.abs_push grow live _ x _ hinv hs
    simp only [LogS, StateS.abs_trace, this]
    rfl

/-- A loop over the elements of `temp` from index `i` on, reading each element from
the backing array when its turn comes, does what the loop over the list of the
elements that were there at the start does. -/
theorem loop_spec (live : Bucket → Prop) (temp : Slice) (h0 : Heap R)
    (stepS : StateS R → R → StateS R) (stepL : State R → R → State R)
    (hstep : ∀ (i : Nat) (s : StateS R) (x : R), s.inv live → s.ahead live temp h0 i →
      (stepS s x).abs = stepL s.abs x ∧ (stepS s x).inv live ∧
        (stepS s x).ahead live temp h0 (i + 1))
    (n i : Nat) (s : StateS R) (hn : i + n = temp.len) (hinv : s.inv live)
    (ha : s.ahead live temp h0 i) :
    ((List.range' i n).foldl (fun st j => stepS st (st.heap.cell temp.arr j)) s).abs =
      ((List.range' i n).map (h0.cell temp.arr)).foldl stepL s.abs ∧
    ((List.range' i n).foldl (fun st j => stepS st (st.heap.cell temp.arr j)) s).inv live := by
  induction n generalizing i s with
  | zero => exact ⟨rfl, hinv⟩
  | succ n ih =>
    simp only [List.range', List.foldl_cons, List.map_cons]
    have hcell : s.heap.cell temp.arr i = h0.cell temp.arr i := ha.2.2 i (le_refl _) (by omega)
    obtain ⟨e1, e2, e3⟩ := hstep i s (s.heap.cell temp.arr i) hinv ha
    obtain ⟨r1, r2⟩ := ih (i + 1) _ (by omega) e2 e3
    refine ⟨?_, r2⟩
    rw [r1, e1, hcell]

/-! ## The stages over slices against the stages over lists -/

theorem Heap.read_range (h : Heap R) (a : Slice) :
    h.read a = (List.range' 0 a.len).map (h.cell a.arr) := by
  rw [Heap.read, List.range_eq_range']

/-- The method `FilterQueue` over pairwise separate buckets does what it does over
lists, and leaves the buckets pairwise separate. -/
theorem FilterQueueS_spec (grow : Nat → Nat) (env : Env R) (s : StateS R)
    (h : s.separated) :
    (FilterQueueS grow env s).abs = FilterQueue env s.abs ∧
    (FilterQueueS grow env s).separated := by
  obtain ⟨hwf, hsep⟩ := h
  have hq := hwf Bucket.queue trivial
  simp only [NukeS.get] at hq
  have hinv : ({ s with nuke := { s.nuke with queue := { s.nuke.queue with len := 0 } } } :
      StateS R).inv (fun _ => True) := by
    refine ⟨⟨?_, ?_⟩, fun b hb => absurd trivial hb⟩
    · intro b _
      have := hwf b trivial
      cases b <;> simp only [NukeS.get] at this ⊢ <;> first | exact this | exact ⟨by omega, this.2⟩
    · intro b c _ _ hbc
      have := hsep b c trivial trivial hbc
      cases b <;> cases c <;> simpa only [NukeS.get, Slice.sep] using this
  have ha : ({ s with nuke := { s.nuke with queue := { s.nuke.queue with len := 0 } } } :
      StateS R).ahead (fun _ => True) s.nuke.queue s.heap 0 := by
    refine ⟨hq.2, ?_, fun _ _ _ => rfl⟩
    intro b _
    by_cases e : b = Bucket.queue
    · subst e
      exact Or.inr (Or.inl (le_refl _))
    · have h1 := hsep b Bucket.queue trivial trivial e
      have h2 : ({ s with nuke := { s.nuke with queue := { s.nuke.queue with len := 0 } } } :
          StateS R).nuke.get b = s.nuke.get b := by
        cases b <;> first | rfl | exact absurd rfl e
      rw [h2]
      rcases h1 with h1 | h1 | h1
      · exact Or.inl h1
      · exact Or.inr (Or.inr (Or.inl (by omega)))
      · simp only [NukeS.get] at h1
        exact Or.inr (Or.inr (Or.inr (by omega)))
  obtain ⟨r1, r2⟩ := loop_spec (fun _ => True) s.nuke.queue s.heap (filterStepS grow env)
    (filterStep env)
    (fun i st x => filterStepS_spec grow env _ trivial trivial s.nuke.queue s.heap i st x)
    s.nuke.queue.len 0 _ (by omega) hinv ha
  rw [← List.range_eq_range'] at r1 r2
  refine ⟨?_, r2.1⟩
  unfold FilterQueueS FilterQueue
  rw [r1]
  have e1 : s.abs.nuke.queue = (List.range s.nuke.queue.len).map (s.heap.cell s.nuke.queue.arr) :=
    rfl
  rw [e1]
  rfl

/-- The method `HandleQueue` over pairwise separate buckets does what it does over
lists, and leaves the buckets pairwise separate. -/
theorem HandleQueueS_spec (grow : Nat → Nat) (env : Env R) (s : StateS R)
    (h : s.separated) :
    (HandleQueueS grow env s).abs = HandleQueue env s.abs ∧
    (HandleQueueS grow env s).separated := by
  obtain ⟨hwf, hsep⟩ := h
  have hq := hwf Bucket.queue trivial
  simp only [NukeS.get] at hq
  have hinv : ({ s with nuke := { s.nuke with queue := { s.nuke.queue with len := 0 } } } :
      StateS R).inv (fun _ => True) := by
    refine ⟨⟨?_, ?_⟩, fun b hb => absurd trivial hb⟩
    · intro b _
      have := hwf b trivial
      cases b <;> simp only [NukeS.get] at this ⊢ <;> first | exact this | exact ⟨by omega, this.2⟩
    · intro b c _ _ hbc
      have := hsep b c trivial trivial hbc
      cases b <;> cases c <;> simpa only [NukeS.get, Slice.sep] using this
  have ha : ({ s with nuke := { s.nuke with queue := { s.nuke.queue with len := 0 } } } :
      StateS R).ahead (fun _ => True) s.nuke.queue s.heap 0 := by
    refine ⟨hq.2, ?_, fun _ _ _ => rfl⟩
    intro b _
    by_cases e : b = Bucket.queue
    · subst e
      exact Or.inr (Or.inl (le_refl _))
    · have h1 := hsep b Bucket.queue trivial trivial e
      have h2 : ({ s with nuke := { s.nuke with queue := { s.nuke.queue with len := 0 } } } :
          StateS R).nuke.get b = s.nuke.get b := by
        cases b <;> first | rfl | exact absurd rfl e
      rw [h2]
      rcases h1 with h1 | h1 | h1
      · exact Or.inl h1
      · exact Or.inr (Or.inr (Or.inl (by omega)))
      · simp only [NukeS.get] at h1
        exact Or.inr (Or.inr (Or.inr (by omega)))
  obtain ⟨r1, r2⟩ := loop_spec (fun _ => True) s.nuke.queue s.heap (handleStepS grow env)
    (handleStep env)
    (fun i st x => handleStepS_spec grow env _ trivial trivial trivial s.nuke.queue s.heap i st x)
    s.nuke.queue.len 0 _ (by omega) hinv ha
  rw [← List.range_eq_range'] at r1 r2
  refine ⟨?_, r2.1⟩
  unfold HandleQueueS HandleQueue
  rw [r1]
  have e1 : s.abs.nuke.queue = (List.range s.nuke.queue.len).map (s.heap.cell s.nuke.queue.arr) :=
    rfl
  rw [e1]
  rfl

/-- The head of `Retry` followed by `HandleQueue`, over buckets of which waiting,
skipped, failed and finished are pairwise separate, does what it does over lists
and leaves these four pairwise separate. -/
theorem Retry_HandleQueueS_spec (grow : Nat → Nat) (env : Env R) (s : StateS R)
    (h : s.sound (fun b => b ≠ Bucket.queue)) :
    (HandleQueueS grow env (requeueS s)).abs = HandleQueue env (requeue s.abs) ∧
    (HandleQueueS grow env (requeueS s)).sound (fun b => b ≠ Bucket.queue) := by
  obtain ⟨hwf, hsep⟩ := h
  have hf := hwf Bucket.failed (by simp)
  simp only [NukeS.get] at hf
  have hinv : ({ s with nuke := { s.nuke with
      queue := { s.nuke.failed with len := 0 }, failed := { s.nuke.failed with len := 0 } } } :
      StateS R).inv (fun b => b ≠ Bucket.queue) := by
    refine ⟨⟨?_, ?_⟩, ?_⟩
    · intro b hb
      have := hwf b hb
      cases b <;> simp only [NukeS.get] at this ⊢ <;>
        first | exact this | exact ⟨by omega, this.2⟩ | exact absurd rfl hb
    · intro b c hb hc hbc
      have := hsep b c hb hc hbc
      cases b <;> cases c <;>
        first | exact absurd rfl hb | exact absurd rfl hc |
          simpa only [NukeS.get, Slice.sep] using this
    · intro b hb
      have : b = Bucket.queue := by
        by_contra e
        exact hb e
      subst this
      rfl
  have ha : ({ s with nuke := { s.nuke with
      queue := { s.nuke.failed with len := 0 }, failed := { s.nuke.failed with len := 0 } } } :
      StateS R).ahead (fun b => b ≠ Bucket.queue) s.nuke.failed s.heap 0 := by
    refine ⟨hf.2, ?_, fun _ _ _ => rfl⟩
    intro b hb
    by_cases e : b = Bucket.failed
    · subst e
      exact Or.inr (Or.inl (le_refl _))
    · have h1 := hsep b Bucket.failed hb (by simp) e
      have h2 : ({ s with nuke := { s.nuke with
          queue := { s.nuke.failed with len := 0 },
          failed := { s.nuke.failed with len := 0 } } } : StateS R).nuke.get b =
            s.nuke.get b := by
        cases b <;> first | rfl | exact absurd rfl e | exact absurd rfl hb
      rw [h2]
      rcases h1 with h1 | h1 | h1
      · exact Or.inl h1
      · exact Or.inr (Or.inr (Or.inl (by omega)))
      · simp only [NukeS.get] at h1
        exact Or.inr (Or.inr (Or.inr (by omega)))
  obtain ⟨r1, r2⟩ := loop_spec (fun b => b ≠ Bucket.queue) s.nuke.failed s.heap
    (handleStepS grow env) (handleStep env)
    (fun i st x => handleStepS_spec grow env _ (by simp) (by simp) (by simp)
      s.nuke.failed s.heap i st x)
    s.nuke.failed.len 0 _ (by omega) hinv ha
  rw [← List.range_eq_range'] at r1 r2
  refine ⟨?_, r2.1⟩
  unfold HandleQueueS HandleQueue requeueS requeue
  simp only []
  rw [r1]
  have e1 : s.abs.nuke.failed =
      (List.range s.nuke.failed.len).map (s.heap.cell s.nuke.failed.arr) := rfl
  rw [e1]
  rfl

/-- C19. The buckets are slices over shared backing arrays and `append` writes in
place while capacity lasts. If the five buckets of `s` are pairwise separate, then
`FilterQueue`, which appends the kept handles into the array it is iterating, leaves
the slices showing what `FilterQueue` over lists computes; and if waiting, skipped,
failed and finished of `t` are pairwise separate, then the head of `Retry` followed
by `HandleQueue`, where queue takes the array of failed and the failures are appended
into it during the iteration, leaves the slices showing what the same stages over
lists compute. This holds whatever capacity `append` chooses on reallocation. -/
theorem slices_refine_lists (grow : Nat → Nat) (env : Env R) (s t : StateS R)
    (hs : s.separated) (ht : t.sound (fun b => b ≠ Bucket.queue)) :
    (FilterQueueS grow env s).abs = FilterQueue env s.abs ∧
    (HandleQueueS grow env (FilterQueueS grow env s)).abs =
      HandleQueue env (FilterQueue env s.abs) ∧
    (HandleQueueS grow env (requeueS t)).abs = HandleQueue env (requeue t.abs) := by
  obtain ⟨a1, a2⟩ := FilterQueueS_spec grow env s hs
  refine ⟨a1, ?_, (Retry_HandleQueueS_spec grow env t ht).1⟩
  rw [(HandleQueueS_spec grow env _ a2).1, a1]

/-- In the run of `FilterQueue` over the scanned array 1, 2, 3 the kept handles 2 and
3 are written into slots 0 and 1 of that same array after these slots were read, and
the rejected handle goes to a new array; in the `Retry` over failed 1, 2, 3 the
handles 2 and 3 that fail again are written into slots 0 and 1 of the array that is
being iterated. -/
theorem in_place_reuse :
    (FilterQueueS (fun c => c) firstOnly sliceScanned).nuke.queue = { arr := 1, len := 2, cap := 4 } ∧
    (FilterQueueS (fun c => c) firstOnly sliceScanned).nuke.skipped =
      { arr := 2, len := 1, cap := 1 } ∧
    (List.range 4).map (sliceScanned.heap.cell 1) = [1, 2, 3, 4] ∧
    (List.range 4).map ((FilterQueueS (fun c => c) firstOnly sliceScanned).heap.cell 1) =
      [2, 3, 3, 4] ∧
    (FilterQueueS (fun c => c) firstOnly sliceScanned).abs.nuke.queue = [2, 3] ∧
    (FilterQueueS (fun c => c) firstOnly sliceScanned).abs.nuke.skipped = [1] ∧
    (requeueS sliceFailed).nuke.queue.arr = (requeueS sliceFailed).nuke.failed.arr ∧
    (HandleQueueS (fun c => c) firstOnly (requeueS sliceFailed)).nuke.failed =
      { arr := 1, len := 2, cap := 4 } ∧
    (List.range 4).map ((HandleQueueS (fun c => c) firstOnly (requeueS sliceFailed)).heap.cell 1) =
      [2, 3, 3, 4] ∧
    (HandleQueueS (fun c => c) firstOnly (requeueS sliceFailed)).abs.nuke.failed = [2, 3] ∧
    (HandleQueueS (fun c => c) firstOnly (requeueS sliceFailed)).abs.nuke.waiting = [1] ∧
    (HandleQueueS (fun c => c) firstOnly (requeueS sliceFailed)).abs.nuke.finished = [9] :=
  ⟨rfl, rfl, rfl, rfl, rfl, rfl, rfl, rfl, rfl, rfl, rfl, rfl⟩

/-- C19 at the scanned array 1, 2, 3 and at failed 1, 2, 3. -/
theorem slices_refine_lists_witness :
    sliceScanned.separated ∧ sliceFailed.sound (fun b => b ≠ Bucket.queue) ∧
    ((FilterQueueS (fun c => c) firstOnly sliceScanned).abs =
        FilterQueue firstOnly sliceScanned.abs ∧
      (HandleQueueS (fun c => c) firstOnly (FilterQueueS (fun c => c) firstOnly sliceScanned)).abs =
        HandleQueue firstOnly (FilterQueue firstOnly sliceScanned.abs) ∧
      (HandleQueueS (fun c => c) firstOnly (requeueS sliceFailed)).abs =
        HandleQueue firstOnly (requeue sliceFailed.abs)) :=
  have hs : sliceScanned.separated :=
    ⟨fun b _ => by cases b <;> simp [NukeS.get, sliceScanned],
      fun b c _ _ hbc => by
        cases b <;> cases c <;> simp [NukeS.get, sliceScanned, Slice.sep] at hbc ⊢⟩
  have ht : sliceFailed.sound (fun b => b ≠ Bucket.queue) :=
    ⟨fun b _ => by cases b <;> simp [NukeS.get, sliceFailed],
      fun b c hb hc hbc => by
        cases b <;> cases c <;> simp [NukeS.get, sliceFailed, Slice.sep] at hb hc hbc ⊢⟩
  ⟨hs, ht, slices_refine_lists (fun c => c) firstOnly sliceScanned sliceFailed hs ht⟩

/-! ## The retry loop ends once the passes are free of errors -/

@[simp] theorem retries_append (a b : List (Action R)) :
    retries (a ++ b) = retries a + retries b := by
  induction a with
  | nil => simp [retries]
  | cons x a ih =>
    cases x <;> simp [retries, ih]
    omega

theorem retries_map_list (l : List Nat) : retries (l.map (Action.list : Nat → Action R)) = 0 := by
  induction l with
  | nil => rfl
  | cons x l ih => simpa [retries] using ih

theorem afterScan_retries (env : Env R) (s : State R) :
    retries (afterScan env s).trace = retries s.trace ∧
    (afterScan env s).nuke.failed = s.nuke.failed := by
  obtain ⟨l, hl⟩ := scanLoop_trace env.listers 0 [] s.trace
  refine ⟨?_, rfl⟩
  show retries (scanLoop env.listers 0 [] s.trace).2 = _
  rw [hl, retries_append, retries_map_list]
  rfl

theorem FilterQueue_retries (env : Env R) (s : State R) :
    retries (FilterQueue env s).trace = retries s.trace ∧
    (FilterQueue env s).nuke.failed = s.nuke.failed := by
  unfold FilterQueue
  have key : ∀ (l : List R) (t : State R),
      retries (l.foldl (filterStep env) t).trace = retries t.trace ∧
      (l.foldl (filterStep env) t).nuke.failed = t.nuke.failed := by
    intro l
    induction l with
    | nil => exact fun t => ⟨rfl, rfl⟩
    | cons x l ih =>
      intro t
      simp only [List.foldl_cons]
      obtain ⟨i1, i2⟩ := ih (filterStep env t x)
      rw [i1, i2]
      unfold filterStep
      by_cases hf : env.hasFilter x = true
      · cases herr : env.callFilter t.trace x <;> simp [hf, herr, Log, retries]
      · simp [hf]
  exact key _ _

/-- The method `HandleQueue` prints no "Retrying" line, and in a pass where no
`Remove()` fails it leaves failed as it was. -/
theorem HandleQueue_calm (env : Env R) (k : Nat) (s : State R) :
    retries (HandleQueue env s).trace = retries s.trace ∧
    ((∀ tr r, k ≤ retries tr + 1 → env.callRemove tr r = none) → k ≤ retries s.trace + 1 →
      (HandleQueue env s).nuke.failed = s.nuke.failed) := by
  unfold HandleQueue
  have key : ∀ (l : List R) (t : State R),
      retries (l.foldl (handleStep env) t).trace = retries t.trace ∧
      ((∀ tr r, k ≤ retries tr + 1 → env.callRemove tr r = none) → k ≤ retries t.trace + 1 →
        (l.foldl (handleStep env) t).nuke.failed = t.nuke.failed) := by
    intro l
    induction l with
    | nil => exact fun t => ⟨rfl, fun _ _ => rfl⟩
    | cons x l ih =>
      intro t
      simp only [List.foldl_cons]
      obtain ⟨i1, i2⟩ := ih (handleStep env t x)
      have h1 : retries (handleStep env t x).trace = retries t.trace := by
        unfold handleStep
        by_cases hd : t.nuke.Parameters.NoDryRun = true
        · cases herr : env.callRemove t.trace x <;> simp [hd, herr, Log, retries]
        · simp [hd, Log, retries]
      refine ⟨by rw [i1, h1], ?_⟩
      intro hok hk
      rw [i2 hok (by rw [h1]; exact hk)]
      unfold handleStep
      by_cases hd : t.nuke.Parameters.NoDryRun = true
      · simp [hd, hok t.trace x hk, Log]
      · simp [hd, Log]
  exact key _ _

theorem step_calm (env : Env R) (k c : Nat) (F : List R)
    (hok : ∀ tr r, k ≤ retries tr + 1 → env.callWait tr r = none) (hk : k ≤ c + 1)
    (id : Nat) (w : WaitState R) (h : w.calm c F) : (step env w id).calm c F := by
  obtain ⟨h1, h2, h3⟩ := h
  cases id with
  | zero =>
    obtain ⟨st, rest, held, tasks⟩ := w
    cases rest with
    | nil => exact ⟨h1, h2, h3⟩
    | cons x rest =>
      by_cases hw : env.hasWaiter x = true
      · simp only [step, stepMain, hw, if_true]
        refine ⟨by simpa [Log, retries] using h1, h2, ?_⟩
        intro t ht
        rcases List.mem_append.mp ht with ht | ht
        · exact h3 t ht
        · simp only [List.mem_singleton] at ht
          subst ht
          rfl
      · cases held with
        | none =>
          simp only [step, stepMain, hw]
          exact ⟨h1, h2, h3⟩
        | some snap =>
          simp only [step, stepMain, hw]
          exact ⟨h1, h2, h3⟩
  | succ j =>
    simp only [step]
    unfold stepTask
    cases hj : w.tasks[j]? with
    | none => exact ⟨h1, h2, h3⟩
    | some t =>
      have htmem : t ∈ w.tasks := List.mem_iff_getElem?.mpr ⟨j, hj⟩
      have hheld := h3 t htmem
      obtain ⟨res, pc0⟩ := t
      have hset : ∀ (pc : TaskPc R), pc.held = none →
          ∀ u ∈ w.tasks.set j { resource := res, pc := pc }, u.pc.held = none := by
        intro pc hpc u hu
        rcases List.mem_or_eq_of_mem_set hu with hu | hu
        · exact h3 u hu
        · subst hu
          exact hpc
      cases pc0 with
      | start =>
        have hnone : env.callWait w.st.trace res = none := hok _ _ (by rw [h1]; exact hk)
        refine ⟨by simp [retries, h1], h2, hset _ ?_⟩
        simp only [TaskPc.held]
        exact hnone
      | returned err =>
        exact ⟨h1, h2, hset _ hheld⟩
      | loaded err snap =>
        have : err = none := hheld
        subst this
        exact ⟨h1, h2, hset _ rfl⟩
      | stored err =>
        have : err = none := hheld
        subst this
        exact ⟨by simpa [Log, retries] using h1, h2, hset _ rfl⟩
      | done => exact ⟨h1, h2, h3⟩

/-- In a pass where no `Wait()` fails, `Wait` leaves failed as it was, under every
schedule. -/
theorem Wait_calm (env : Env R) (k : Nat) (s : State R)
    (hok : ∀ tr r, k ≤ retries tr + 1 → env.callWait tr r = none)
    (hk : k ≤ retries s.trace + 1) :
    retries (Wait env s).trace = retries s.trace ∧ (Wait env s).nuke.failed = s.nuke.failed := by
  cases hw : s.nuke.wait with
  | false =>
    rw [Wait_off env s hw]
    exact ⟨rfl, rfl⟩
  | true =>
    rw [Wait_on env s hw]
    have hinit : (waitInit s).calm (retries s.trace) s.nuke.failed :=
      ⟨rfl, rfl, fun t ht => by simp [waitInit] at ht⟩
    have hall : ∀ (sched : List Nat) (w : WaitState R),
        w.calm (retries s.trace) s.nuke.failed →
        (sched.foldl (step env) w).calm (retries s.trace) s.nuke.failed := by
      intro sched
      induction sched with
      | nil => exact fun w h => h
      | cons id sched ih =>
        exact fun w h => ih _ (step_calm env k _ _ hok hk id w h)
    obtain ⟨a, b, _⟩ := hall (env.schedule s.trace ++ drain s.nuke.waiting.length) _ hinit
    exact ⟨a, b⟩

theorem step_retries (env : Env R) (id : Nat) (w : WaitState R) :
    retries (step env w id).st.trace = retries w.st.trace := by
  cases id with
  | zero =>
    obtain ⟨st, rest, held, tasks⟩ := w
    cases rest with
    | nil => rfl
    | cons x rest =>
      by_cases hw : env.hasWaiter x = true
      · simp [step, stepMain, hw, Log, retries]
      · cases held <;> simp [step, stepMain, hw]
  | succ j =>
    simp only [step]
    unfold stepTask
    cases hj : w.tasks[j]? with
    | none => rfl
    | some t =>
      obtain ⟨res, pc0⟩ := t
      cases pc0 with
      | start => simp [retries]
      | returned err => rfl
      | loaded err snap => rfl
      | stored err => cases err <;> simp [Log, retries]
      | done => rfl

/-- The method `Wait` prints no "Retrying" line. -/
theorem Wait_retries (env : Env R) (s : State R) :
    retries (Wait env s).trace = retries s.trace := by
  cases hw : s.nuke.wait with
  | false =>
    rw [Wait_off env s hw]
  | true =>
    rw [Wait_on env s hw]
    have hall : ∀ (sched : List Nat) (w : WaitState R),
        retries (sched.foldl (step env) w).st.trace = retries w.st.trace := by
      intro sched
      induction sched with
      | nil => exact fun w => rfl
      | cons id sched ih =>
        intro w
        simp only [List.foldl_cons]
        rw [ih, step_retries]
    rw [hall]
    rfl

/-- A pass of `Retry` is one more pass. -/
theorem Retry_retries (env : Env R) (s : State R) :
    retries (Retry env (printRetrying s)).trace = retries s.trace + 1 := by
  unfold Retry
  rw [Wait_retries, (HandleQueue_calm env 0 _).1]
  simp [requeue, printRetrying, retries]

/-- A pass of `Retry` in which no `Remove()` and no `Wait()` fails ends with failed
empty, under every schedule. -/
theorem Retry_calm (env : Env R) (k : Nat) (s : State R)
    (hrem : ∀ tr r, k ≤ retries tr + 1 → env.callRemove tr r = none)
    (hwait : ∀ tr r, k ≤ retries tr + 1 → env.callWait tr r = none)
    (hk : k ≤ retries s.trace + 2) :
    (Retry env (printRetrying s)).nuke.failed = [] := by
  unfold Retry
  have h0 : retries (requeue (printRetrying s)).trace = retries s.trace + 1 := by
    simp [requeue, printRetrying, retries]
  obtain ⟨h1, h2⟩ := HandleQueue_calm env k (requeue (printRetrying s))
  rw [(Wait_calm env k _ hwait (by rw [h1, h0]; omega)).2, h2 hrem (by rw [h0]; omega)]
  rfl

/-- In execute mode a pass of `Retry` invokes `Remove()` on the handles that were in
failed at its start, in order, and on nothing else. -/
theorem Retry_removeCalls (env : Env R) (s : State R)
    (hd : s.nuke.Parameters.NoDryRun = true) :
    removeCalls (Retry env s).trace = removeCalls s.trace ++ s.nuke.failed := by
  unfold Retry
  obtain ⟨_, _, _, _, _, _, w7, _⟩ := Wait_fixed env (HandleQueue env (requeue s))
  rw [w7, (HandleQueue_exec env (requeue s) hd).2.1]
  rfl

/-- Once the passes from number `k` on are free of errors, the retry loop ends
within the passes still missing to `k`. -/
theorem retryLoop_converges (env : Env R) (k : Nat)
    (hrem : ∀ tr r, k ≤ retries tr + 1 → env.callRemove tr r = none)
    (hwait : ∀ tr r, k ≤ retries tr + 1 → env.callWait tr r = none)
    (n : Nat) (s : State R) (fuel : Nat) (hk : k ≤ retries s.trace + 1 + n)
    (h0 : n = 0 → s.nuke.failed = []) (hfuel : n ≤ fuel) :
    ∃ j, j ≤ n ∧ retryLoop env fuel s = some (retryPasses env j s) ∧
      retries (retryPasses env j s).trace = retries s.trace + j ∧
      (retryPasses env j s).nuke.failed = [] := by
  induction n generalizing s fuel with
  | zero => exact ⟨0, le_refl _, retryLoop_done env fuel s (h0 rfl), rfl, h0 rfl⟩
  | succ n ih =>
    by_cases hf : s.nuke.failed = []
    · exact ⟨0, Nat.zero_le _, retryLoop_done env fuel s hf, rfl, hf⟩
    · obtain ⟨fuel, rfl⟩ : ∃ f, fuel = f + 1 := ⟨fuel - 1, by omega⟩
      have hr := Retry_retries env s
      obtain ⟨j, j1, j2, j3, j4⟩ := ih (Retry env (printRetrying s)) fuel (by rw [hr]; omega)
        (fun e => Retry_calm env k s hrem hwait (by omega)) (by omega)
      refine ⟨j + 1, by omega, ?_, ?_, ?_⟩
      · have hpos : s.nuke.failed.length > 0 := List.length_pos.mpr hf
        simp only [retryLoop, hpos, if_true]
        exact j2
      · show retries (retryPasses env j (Retry env (printRetrying s))).trace = _
        rw [j3, hr]
        omega
      · exact j4

/-- With retry on, a successful `Scan`, failed empty at the start and every
`Remove()` and `Wait()` from pass `k` on returning no error, `Run` returns once the
bound on the retry loop is at least `k - 1`, after at most `k - 1` passes of
`Retry`, with failed empty; this holds under every schedule. -/
theorem Run_converges (env : Env R) (k fuel : Nat) (s : State R) (hk : 1 ≤ k)
    (hretry : s.nuke.retry = true) (hscan : (Scan env s).1.2 = none)
    (hfailed : s.nuke.failed = []) (hfresh : retries s.trace = 0)
    (hrem : ∀ tr r, k ≤ retries tr + 1 → env.callRemove tr r = none)
    (hwait : ∀ tr r, k ≤ retries tr + 1 → env.callWait tr r = none)
    (hfuel : k - 1 ≤ fuel) :
    ∃ j, j ≤ k - 1 ∧
      Run env fuel s =
        some (printComplete (retryPasses env j (firstPass env (afterScan env s))), none) ∧
      retries (printComplete (retryPasses env j (firstPass env (afterScan env s)))).trace = j ∧
      (printComplete (retryPasses env j (firstPass env (afterScan env s)))).nuke.failed = [] := by
  have hset : (firstPass env (afterScan env s)).nuke.settings = s.nuke.settings := by
    unfold firstPass
    rw [(Wait_fixed env _).1, (HandleQueue_frame env _).1, (FilterQueue_frame env _).1]
    rfl
  have hr : (firstPass env (afterScan env s)).nuke.retry = true := by
    have := congrArg (fun x => x.2.2.2.1) hset
    simpa [Nuke.settings, hretry] using this
  have hc : retries (firstPass env (afterScan env s)).trace = 0 := by
    unfold firstPass
    rw [Wait_retries, (HandleQueue_calm env 0 _).1, (FilterQueue_retries env _).1,
      (afterScan_retries env s).1, hfresh]
  have hf1 : k = 1 → (firstPass env (afterScan env s)).nuke.failed = [] := by
    intro e
    subst e
    have a0 : retries (FilterQueue env (afterScan env s)).trace = 0 := by
      rw [(FilterQueue_retries env _).1, (afterScan_retries env s).1, hfresh]
    obtain ⟨h1, h2⟩ := HandleQueue_calm env 1 (FilterQueue env (afterScan env s))
    unfold firstPass
    rw [(Wait_calm env 1 _ hwait (by rw [h1, a0])).2, h2 hrem (by rw [a0]),
      (FilterQueue_retries env _).2, (afterScan_retries env s).2, hfailed]
  obtain ⟨j, j1, j2, j3, j4⟩ := retryLoop_converges env k hrem hwait (k - 1)
    (firstPass env (afterScan env s)) fuel (by rw [hc]; omega) (fun e => hf1 (by omega)) hfuel
  refine ⟨j, j1, ?_, ?_, ?_⟩
  · rw [Run_scan_ok env fuel s hscan, hr]
    simp only [if_true, j2, Option.map_some']
  · simp only [printComplete, retries_append, j3, hc]
    simp [retries]
  · exact j4

end AwsNuke
